import Mathlib

/-!
# dns-client: wire codec of DNS messages

A shallow embedding of the Go sources (`utils.go`, `header.go`, `question.go`, `rr.go`,
`rr_types.go`, `message.go`) and theorems about it.

Modelling conventions.

* A Go `[]byte` and a Go `string` are both a `List Nat` (one entry per byte).  The buffer handed
  to the decoders is a slice whose capacity equals its length, as `make([]byte, maxUDPMsgSize)`
  in `InitClient` produces it, so a slice expression `data[lo:hi]` is in range exactly when
  `lo ≤ hi ≤ len(data)`.
* `byte`, `uint16`, `uint32` and `uint` arithmetic is arithmetic on `Nat` with an explicit
  reduction modulo `2^8`, `2^16`, `2^32`, `2^64` wherever the Go operation can wrap.
* Cursors (`bytesRead`, `offset`) are `Nat`: every call site passes a non-negative `int`, and
  the buffers are far too small for `int` to overflow.
* A Go `error` is a value of `DnsError`; `nil` is `none`.
* A run of a function is an `Outcome`: it returned, it hit a Go run-time panic (index or slice
  bounds out of range), or the step budget of the model ran out before it returned.
-/

namespace DnsClient

/-- Byte sequences: Go `[]byte` and Go `string`. -/
abbrev Bytes := List Nat

/-- The error values the codec creates with `errors.New` and `fmt.Errorf`. -/
inductive DnsError where
  | uint16Overflow
  | uint32Overflow
  | tooManyCompressionPointers
  | domainTooLong
  | malformedLabel
  | nilHeader
  | shortHeader (found : Nat)
  | malformedQName
  | emptyLabel
  | nilQuestion
  | nilRR
  | rrEncodingNotImplemented
  deriving DecidableEq, Repr

/-- The text of each error, as written in the source. -/
def DnsError.message : DnsError → String
  | .uint16Overflow => "Error unpacking Uint16: Overflow"
  | .uint32Overflow => "Error unpacking Uint32: Overflow"
  | .tooManyCompressionPointers => "Too many compression pointers in domain name"
  | .domainTooLong => "Domains exceed max size for field"
  | .malformedLabel => "Invalid RData found: could not parse labels for domain"
  | .nilHeader => "Cannot decode bytes to nil Header"
  | .shortHeader found => "Header bytes should be 12 bytes, found " ++ toString found
  | .malformedQName => "Malformed QName field"
  | .emptyLabel => "Malformed label found, must not be 0 length"
  | .nilQuestion => "Cannot decode bytes to nil Question"
  | .nilRR => "Cannot decode bytes to nil RR"
  | .rrEncodingNotImplemented => "RR encoding not implemented"

/-- How a call ends: a normal return, a Go run-time panic, or (in the model only) an exhausted
step budget, which stands for "has not returned yet". -/
inductive Outcome (α : Type) where
  | ret (a : α)
  | panic
  | outOfFuel
  deriving DecidableEq, Repr

/-! ## utils.go -/

def octetMaxIdx : Nat := 7

def maxDomainNameWireOctets : Nat := 255

def maxCompressionPointers : Nat := (maxDomainNameWireOctets + 1) / 2 - 2

/-- Go `uint` (64 bit) addition. -/
def uintAdd (a b : Nat) : Nat := (a + b) % 2 ^ 64

/-- Go `uint` (64 bit) subtraction, wrapping below zero. -/
def uintSub (a b : Nat) : Nat := (a % 2 ^ 64 + 2 ^ 64 - b % 2 ^ 64) % 2 ^ 64

/-- Go `b << s` on a `byte`: bits shifted past bit 7 are lost, a count of 8 or more gives 0. -/
def byteShl (b s : Nat) : Nat := if 8 ≤ s then 0 else (b <<< s) % 256

/-- Go `b >> s` on a `byte`. -/
def byteShr (b s : Nat) : Nat := if 8 ≤ s then 0 else b >>> s

/-- `makeOctetMask(size) = (1 << size) - 1`, computed in `byte`. -/
def makeOctetMask (size : Nat) : Nat := (byteShl 1 size + 256 - 1) % 256

/-- `setBitsAtIdx(b, bitIdx, size) = b << (octetMaxIdx - (bitIdx + (size - 1)))`. -/
def setBitsAtIdx (b bitIdx size : Nat) : Nat :=
  byteShl b (uintSub octetMaxIdx (uintAdd bitIdx (uintSub size 1)))

/-- `getBitsAtIdx(b, bitIdx, size) = (b >> (octetMaxIdx - (bitIdx + (size - 1)))) & mask`. -/
def getBitsAtIdx (b bitIdx size : Nat) : Nat :=
  byteShr b (uintSub octetMaxIdx (uintAdd bitIdx (uintSub size 1))) &&& makeOctetMask size

/-- `binary.Write(&buf, binary.BigEndian, v)` for a 16 bit `v`: the two bytes appended. -/
def writeUint16BE (v : Nat) : Bytes := [(v / 256) % 256, v % 256]

/-- `decodeUint16`: value, new offset, error. -/
def decodeUint16 (data : Bytes) (offset : Nat) : Nat × Nat × Option DnsError :=
  if offset + 2 > data.length then (0, data.length, some .uint16Overflow)
  else (data.getD offset 0 * 256 + data.getD (offset + 1) 0, offset + 2, none)

/-- `decodeUint32`: value, new offset, error. -/
def decodeUint32 (data : Bytes) (offset : Nat) : Nat × Nat × Option DnsError :=
  if offset + 4 > data.length then (0, data.length, some .uint32Overflow)
  else (data.getD offset 0 * 2 ^ 24 + data.getD (offset + 1) 0 * 2 ^ 16
          + data.getD (offset + 2) 0 * 2 ^ 8 + data.getD (offset + 3) 0, offset + 4, none)

/-- The target of a compression pointer as `extractDomainNameLabels` computes it from the two
pointer octets: `(data[bytesRead] & makeOctetMask(6)) | data[bytesRead+1]`, a `byte`. -/
def pointerOffset (currentByte nextOctet : Nat) : Nat :=
  (currentByte &&& makeOctetMask 6) ||| nextOctet

/-- What `extractDomainNameLabels` returns: labels, cursor, error. -/
abbrev LabelsResult := List Bytes × Nat × Option DnsError

/-- The `for` loop of `extractDomainNameLabels`, with its four local variables as arguments.
One unit of `fuel` is spent per loop iteration and per recursive call; the recursive call
`extractDomainNameLabels(data, int(offset))` is the loop restarted with fresh locals.
`ptrsFollowed++` on the pointer path is followed by a return on both branches, so the
incremented value is never read. -/
def extractDomainNameLabels.loop :
    Nat → Bytes → List Bytes → Nat → Int → Nat → Outcome LabelsResult
  | 0, _, _, _, _, _ => .outOfFuel
  | fuel + 1, data, labels, ptrsFollowed, domainSpaceLeft, bytesRead =>
    if ptrsFollowed ≥ maxCompressionPointers then
      .ret (labels, bytesRead, some .tooManyCompressionPointers)
    else
      match data[bytesRead]? with
      | none => .panic
      | some currentByte =>
        if currentByte &&& 0xC0 = 0xC0 then
          match data[bytesRead + 1]? with
          | none => .panic
          | some nextOctet =>
            let offset := pointerOffset currentByte nextOctet
            match extractDomainNameLabels.loop fuel data [] 0 maxDomainNameWireOctets offset with
            | .outOfFuel => .outOfFuel
            | .panic => .panic
            | .ret (_, _, some err) => .ret (labels, bytesRead, some err)
            | .ret (lbls, _, none) => .ret (labels ++ lbls, bytesRead + 2, none)
        else if currentByte &&& 0xC0 = 0x00 then
          let labelLen := currentByte
          if bytesRead + labelLen + 1 > data.length then .panic
          else
            let label := (data.drop (bytesRead + 1)).take labelLen
            let labels := labels ++ [label]
            let bytesRead := bytesRead + (labelLen + 1)
            let domainSpaceLeft := domainSpaceLeft - ((labelLen : Int) + 1)
            if domainSpaceLeft ≤ 0 then .ret (labels, bytesRead, some .domainTooLong)
            else
              match data[bytesRead]? with
              | none => .panic
              | some nextByte =>
                if nextByte = 0x00 then .ret (labels, bytesRead + 1, none)
                else extractDomainNameLabels.loop fuel data labels ptrsFollowed domainSpaceLeft
                       bytesRead
        else .ret (labels, bytesRead, some .malformedLabel)

/-- `extractDomainNameLabels(data, bytesRead)`: `labels` empty, `ptrsFollowed = 0`,
`domainSpaceLeft = maxDomainNameWireOctets`, then the loop. -/
def extractDomainNameLabels (fuel : Nat) (data : Bytes) (bytesRead : Nat) :
    Outcome LabelsResult :=
  extractDomainNameLabels.loop fuel data [] 0 maxDomainNameWireOctets bytesRead

/-- `strings.Join(labels, ".")`. -/
def joinLabels (labels : List Bytes) : Bytes := List.intercalate [46] labels

/-- `getPrintableDomainStr`: the dotted name with a trailing dot, cursor, error. -/
def getPrintableDomainStr (fuel : Nat) (data : Bytes) (offset : Nat) :
    Outcome (Bytes × Nat × Option DnsError) :=
  match extractDomainNameLabels fuel data offset with
  | .outOfFuel => .outOfFuel
  | .panic => .panic
  | .ret (_, bytesRead, some err) => .ret ([], bytesRead, some err)
  | .ret (labels, bytesRead, none) => .ret (joinLabels labels ++ [46], bytesRead, none)

/-! ## header.go -/

def maxHeaderSize : Nat := 12

/-- The `Header` struct.  `ID` and the four counts are `uint16`; the other fields are `byte`
(`QRType`, `Opcode` and `ResponseCode` are named `byte` types). -/
structure Header where
  ID : Nat
  QR : Nat
  OPCODE : Nat
  AA : Nat
  TC : Nat
  RD : Nat
  RA : Nat
  Z : Nat
  RCODE : Nat
  QDCOUNT : Nat
  ANCOUNT : Nat
  NSCOUNT : Nat
  ARCOUNT : Nat
  deriving DecidableEq, Repr

/-- The value `new(Header)` points to. -/
def Header.zero : Header := ⟨0, 0, 0, 0, 0, 0, 0, 0, 0, 0, 0, 0, 0⟩

/-- The third octet of the header, `resBytes1` in `Header.Encode`, from the five fields packed
into it. -/
def resBytes1 (qr opcode aa tc rd : Nat) : Nat :=
  setBitsAtIdx qr 0 1 ||| setBitsAtIdx opcode 1 4 ||| setBitsAtIdx aa 5 1
    ||| setBitsAtIdx tc 6 1 ||| setBitsAtIdx rd 7 1

/-- The fourth octet of the header, `resBytes2` in `Header.Encode`, from the three fields packed
into it. -/
def resBytes2 (ra z rcode : Nat) : Nat :=
  setBitsAtIdx ra 0 1 ||| setBitsAtIdx z 1 3 ||| setBitsAtIdx rcode 4 4

/-- `Header.Encode`: the bytes written and the (always `nil`) error. -/
def Header.Encode (h : Header) : Bytes × Option DnsError :=
  (writeUint16BE h.ID ++ [resBytes1 h.QR h.OPCODE h.AA h.TC h.RD] ++ [resBytes2 h.RA h.Z h.RCODE]
     ++ writeUint16BE h.QDCOUNT
     ++ writeUint16BE h.ANCOUNT ++ writeUint16BE h.NSCOUNT ++ writeUint16BE h.ARCOUNT, none)

/-- `DecodeHeader(data, bytesRead, h)`.  The destination `h` is `none` for a nil pointer; the
result carries the destination as the call leaves it, the returned cursor and the error. -/
def DecodeHeader (data : Bytes) (bytesRead : Nat) (h : Option Header) :
    Outcome (Option Header × Nat × Option DnsError) :=
  match h with
  | none => .ret (none, 0, some .nilHeader)
  | some h =>
    if data.length < maxHeaderSize then .ret (some h, 0, some (.shortHeader data.length))
    else
      match decodeUint16 data bytesRead with
      | (v, bytesRead, some err) => .ret (some { h with ID := v }, bytesRead, some err)
      | (v, bytesRead, none) =>
        let h := { h with ID := v }
        match data[bytesRead]? with
        | none => .panic
        | some currentByte =>
          let h := { h with
            QR := getBitsAtIdx currentByte 0 1
            OPCODE := getBitsAtIdx currentByte 1 4
            AA := getBitsAtIdx currentByte 5 1
            TC := getBitsAtIdx currentByte 6 1
            RD := getBitsAtIdx currentByte 7 1 }
          let bytesRead := bytesRead + 1
          match data[bytesRead]? with
          | none => .panic
          | some currentByte =>
            let h := { h with
              RA := getBitsAtIdx currentByte 0 1
              Z := getBitsAtIdx currentByte 1 3
              RCODE := getBitsAtIdx currentByte 4 4 }
            let bytesRead := bytesRead + 1
            match decodeUint16 data bytesRead with
            | (v, bytesRead, some err) =>
              .ret (some { h with QDCOUNT := v }, bytesRead, some err)
            | (v, bytesRead, none) =>
              let h := { h with QDCOUNT := v }
              match decodeUint16 data bytesRead with
              | (v, bytesRead, some err) =>
                .ret (some { h with ANCOUNT := v }, bytesRead, some err)
              | (v, bytesRead, none) =>
                let h := { h with ANCOUNT := v }
                match decodeUint16 data bytesRead with
                | (v, bytesRead, some err) =>
                  .ret (some { h with NSCOUNT := v }, bytesRead, some err)
                | (v, bytesRead, none) =>
                  let h := { h with NSCOUNT := v }
                  match decodeUint16 data bytesRead with
                  | (v, bytesRead, err) => .ret (some { h with ARCOUNT := v }, bytesRead, err)

/-! ## question.go -/

def minimumQnameLen : Nat := 2

/-- The `Question` struct: `QNAME` is a Go string, `QTYPE` and `QCLASS` are `uint16`. -/
structure Question where
  QNAME : Bytes
  QTYPE : Nat
  QCLASS : Nat
  deriving DecidableEq, Repr

/-- The value `new(Question)` points to. -/
def Question.zero : Question := ⟨[], 0, 0⟩

/-- `strings.Split(s, ".")`. -/
def splitDots (s : Bytes) : List Bytes := List.splitOn 46 s

/-- The `for _, label := range labels` loop of `Question.Encode`: `buf` is the buffer so far;
the result is the buffer at the point the loop ends or returns, and the error. -/
def Question.Encode.loop : List Bytes → Bytes → Bytes × Option DnsError
  | [], buf => (buf, none)
  | label :: rest, buf =>
    if label.length = 0 then (buf, some .emptyLabel)
    else Question.Encode.loop rest (buf ++ [label.length % 256] ++ label)

/-- `Question.Encode`: the bytes returned and the error. -/
def Question.Encode (q : Question) : Bytes × Option DnsError :=
  let labels := splitDots q.QNAME
  if labels.length < minimumQnameLen then ([], some .malformedQName)
  else
    match Question.Encode.loop labels [] with
    | (buf, some err) => (buf, some err)
    | (buf, none) => (buf ++ [0x00] ++ writeUint16BE q.QTYPE ++ writeUint16BE q.QCLASS, none)

/-- `DecodeQuestion(data, bytesRead, q)`: the destination as the call leaves it, the returned
cursor and the error. -/
def DecodeQuestion (fuel : Nat) (data : Bytes) (bytesRead : Nat) (q : Option Question) :
    Outcome (Option Question × Nat × Option DnsError) :=
  match q with
  | none => .ret (none, 0, some .nilQuestion)
  | some q =>
    match getPrintableDomainStr fuel data bytesRead with
    | .outOfFuel => .outOfFuel
    | .panic => .panic
    | .ret (name, bytesRead, some err) => .ret (some { q with QNAME := name }, bytesRead, some err)
    | .ret (name, bytesRead, none) =>
      let q := { q with QNAME := name }
      match decodeUint16 data bytesRead with
      | (_, bytesRead, some err) => .ret (some q, bytesRead, some err)
      | (typ, bytesRead, none) =>
        let q := { q with QTYPE := typ }
        match decodeUint16 data bytesRead with
        | (_, bytesRead, some err) => .ret (some q, bytesRead, some err)
        | (cls, bytesRead, none) => .ret (some { q with QCLASS := cls }, bytesRead, none)

/-! ## const.go, rr_types.go -/

def RecordTypeA : Nat := 1
def RecordTypeNS : Nat := 2
def RecordTypeCNAME : Nat := 5
def RecordTypeSOA : Nat := 6
def RecordTypePTR : Nat := 12
def RecordTypeMX : Nat := 15
def RecordTypeTXT : Nat := 16
def RecordTypeAAAA : Nat := 28

/-- The record types `const.go` marks `// obsolete`. -/
def obsoleteRecordTypes : List Nat :=
  [3, 4, 7, 8, 9, 10, 11, 13, 14, 17, 19, 20, 21, 22, 23, 24, 25, 26, 27, 30, 31, 32, 34, 38, 40,
   42, 56, 57, 58, 99, 100, 101, 102, 103, 104, 105, 106, 107, 108, 109, 253, 254, 259]

/-- Every record type `const.go` declares. -/
def knownRecordTypes : List Nat :=
  [1, 2, 3, 4, 5, 6, 7, 8, 9, 10, 11, 12, 13, 14, 15, 16, 17, 18, 19, 20, 21, 22, 23, 24, 25, 26,
   27, 28, 29, 30, 31, 32, 33, 34, 35, 36, 37, 38, 39, 40, 41, 42, 43, 44, 45, 46, 47, 48, 49, 50,
   51, 52, 53, 55, 56, 57, 58, 59, 60, 61, 62, 99, 100, 101, 102, 103, 104, 105, 106, 107, 108,
   109, 249, 250, 251, 252, 253, 254, 255, 256, 257, 259, 32768, 32769]

/-- Modelled from the spec: `IsRecordTypeObsolete` is called in `rr.go` but its body is not
among the sources.  The spec makes it a static lookup of the types flagged obsolete in the type
registry; the registry is `const.go`. -/
def IsRecordTypeObsolete (t : Nat) : Bool := decide (t ∈ obsoleteRecordTypes)

/-- Modelled from the spec: `IsRecordTypeNotImplemented` is called in `rr.go` but its body is
not among the sources.  The spec makes it true of a type that is recognized (in the registry)
but has no decoder. -/
def IsRecordTypeNotImplemented (t : Nat) : Bool :=
  decide (t ∈ knownRecordTypes ∧ t ∉ [RecordTypeA, RecordTypeNS, RecordTypeCNAME, RecordTypeSOA,
    RecordTypePTR, RecordTypeMX, RecordTypeTXT, RecordTypeAAAA])

/-- The values behind the `ResourceDataField` interface, one constructor per `RData…` struct. -/
inductive ResourceDataField where
  | unknown (qType : Nat)
  | notImplemented
  | obsolete
  | a (ipAddr : Bytes)
  | aaaa (ipAddr : Bytes)
  | cname (domain : Bytes)
  | ns (domain : Bytes)
  | txt (txt : Bytes)
  | soa (mname rname : Bytes) (serial refresh retry expire minimum : Nat)
  | mx (preference : Nat) (exchange : Bytes)
  | ptr (domain : Bytes)
  deriving DecidableEq, Repr

/-- What a `NewRData…` constructor returns: the value (`none` for a nil pointer) and the error. -/
abbrev RDataResult := Option ResourceDataField × Option DnsError

/-- The slice expression `data[lo:hi]`. -/
def sliceBytes (data : Bytes) (lo hi : Nat) : Outcome Bytes :=
  if lo ≤ hi ∧ hi ≤ data.length then .ret ((data.drop lo).take (hi - lo)) else .panic

/-- `net.IPv4(a, b, c, d)`: the 16 byte form of an IPv4 address. -/
def netIPv4 (a b c d : Nat) : Bytes := [0, 0, 0, 0, 0, 0, 0, 0, 0, 0, 0xff, 0xff, a, b, c, d]

def NewRDataA (data : Bytes) : Outcome RDataResult :=
  match data with
  | a :: b :: c :: d :: _ => .ret (some (.a (netIPv4 a b c d)), none)
  | _ => .panic

def NewRDataAAAA (data : Bytes) : Outcome RDataResult := .ret (some (.aaaa data), none)

def NewRDataTXT (data : Bytes) : Outcome RDataResult := .ret (some (.txt data), none)

/-- The common body of `NewRDataCNAME`, `NewRDataNS` and `NewRDataPTR`. -/
def newRDataDomain (mk : Bytes → ResourceDataField) (fuel : Nat) (data : Bytes) (offset : Nat) :
    Outcome RDataResult :=
  match getPrintableDomainStr fuel data offset with
  | .outOfFuel => .outOfFuel
  | .panic => .panic
  | .ret (_, _, some err) => .ret (none, some err)
  | .ret (domain, _, none) => .ret (some (mk domain), none)

def NewRDataCNAME (fuel : Nat) (data : Bytes) (offset : Nat) : Outcome RDataResult :=
  newRDataDomain .cname fuel data offset

def NewRDataNS (fuel : Nat) (data : Bytes) (offset : Nat) : Outcome RDataResult :=
  newRDataDomain .ns fuel data offset

def NewRDataPTR (fuel : Nat) (data : Bytes) (offset : Nat) : Outcome RDataResult :=
  newRDataDomain .ptr fuel data offset

def NewRDataSOA (fuel : Nat) (data : Bytes) (offset : Nat) : Outcome RDataResult :=
  match getPrintableDomainStr fuel data offset with
  | .outOfFuel => .outOfFuel
  | .panic => .panic
  | .ret (_, _, some err) => .ret (none, some err)
  | .ret (mname, offset, none) =>
    match getPrintableDomainStr fuel data offset with
    | .outOfFuel => .outOfFuel
    | .panic => .panic
    | .ret (_, _, some err) => .ret (none, some err)
    | .ret (rname, offset, none) =>
      match decodeUint32 data offset with
      | (_, _, some err) => .ret (none, some err)
      | (serial, offset, none) =>
        match decodeUint32 data offset with
        | (_, _, some err) => .ret (none, some err)
        | (refresh, offset, none) =>
          match decodeUint32 data offset with
          | (_, _, some err) => .ret (none, some err)
          | (retry, offset, none) =>
            match decodeUint32 data offset with
            | (_, _, some err) => .ret (none, some err)
            | (expire, offset, none) =>
              match decodeUint32 data offset with
              | (_, _, some err) => .ret (none, some err)
              | (minimum, _, none) =>
                .ret (some (.soa mname rname serial refresh retry expire minimum), none)

def NewRDataMX (fuel : Nat) (data : Bytes) (offset : Nat) : Outcome RDataResult :=
  match decodeUint16 data offset with
  | (_, _, some err) => .ret (none, some err)
  | (preference, offset, none) =>
    match getPrintableDomainStr fuel data offset with
    | .outOfFuel => .outOfFuel
    | .panic => .panic
    | .ret (_, _, some err) => .ret (none, some err)
    | .ret (exchange, _, none) => .ret (some (.mx preference exchange), none)

def NewRDataObsolete : Outcome RDataResult := .ret (some .obsolete, none)

def NewRDataNotImplemented : Outcome RDataResult := .ret (some .notImplemented, none)

def NewRDataUnknown (typ : Nat) : Outcome RDataResult := .ret (some (.unknown typ), none)

/-- The bytes of a Go string constant (ASCII). -/
def ascii (s : String) : Bytes := s.toList.map Char.toNat

/-- The text `%d` prints for an unsigned value: its decimal digits. -/
def decimal (n : Nat) : Bytes := (Nat.toDigits 10 n).map Char.toNat

/-- `net.IP.String` on an address that has an IPv4 form, that is 4 bytes, or 16 bytes that start
with ten zero bytes and `ff ff`: the four address bytes in decimal, joined by dots.  The result is
`none` for every other value: the texts `net.IP.String` gives those are not modelled. -/
def netIPString (ip : Bytes) : Option Bytes :=
  match ip with
  | [a, b, c, d] => some (decimal a ++ [46] ++ decimal b ++ [46] ++ decimal c ++ [46] ++ decimal d)
  | [0, 0, 0, 0, 0, 0, 0, 0, 0, 0, 0xff, 0xff, a, b, c, d] =>
    some (decimal a ++ [46] ++ decimal b ++ [46] ++ decimal c ++ [46] ++ decimal d)
  | _ => none

/-- The `String` methods of the `RData…` structs; `none` only where `netIPString` is. -/
def ResourceDataField.String : ResourceDataField → Option Bytes
  | .unknown qType => some (ascii "UNKNOWN RECORD TYPE: " ++ decimal qType)
  | .notImplemented => some (ascii "Not Implemented")
  | .obsolete => some (ascii "Not Implemented: Obsolete Record Type")
  | .a ipAddr => netIPString ipAddr
  | .aaaa ipAddr => netIPString ipAddr
  | .cname domain => some domain
  | .ns domain => some domain
  | .txt text => some text
  | .soa mname rname serial refresh retry expire minimum =>
    some (mname ++ [32] ++ rname ++ [32] ++ decimal serial ++ [32] ++ decimal refresh ++ [32]
      ++ decimal retry ++ [32] ++ decimal expire ++ [32] ++ decimal minimum)
  | .mx preference exchange => some (decimal preference ++ [32] ++ exchange)
  | .ptr domain => some domain

/-! ## rr.go -/

/-- The `RR` struct; `RDATA` is `none` while the interface holds no value. -/
structure RR where
  NAME : Bytes
  TYPE : Nat
  CLASS : Nat
  TTL : Nat
  RDLENGTH : Nat
  RDATA : Option ResourceDataField
  deriving DecidableEq, Repr

/-- The value `new(RR)` points to. -/
def RR.zero : RR := ⟨[], 0, 0, 0, 0, none⟩

/-- `RR.Encode`: the bytes returned and the error. -/
def RR.Encode (_rr : RR) : Bytes × Option DnsError := ([], some .rrEncodingNotImplemented)

/-- The upper slice bound `uint16(bytesRead)+dataLen`, computed in `uint16`. -/
def rdataEnd (bytesRead dataLen : Nat) : Nat := (bytesRead % 65536 + dataLen) % 65536

/-- The body of `getResourceDataFieldForResourceType`, with the two classification functions it
calls in its `default` case, whose bodies are not among the sources, as parameters. -/
def getResourceDataFieldForResourceTypeWith (isObsolete isNotImplemented : Nat → Bool)
    (fuel : Nat) (rrType : Nat) (data : Bytes) (bytesRead : Nat) (dataLen : Nat) :
    Outcome RDataResult :=
  if rrType = RecordTypeA then
    match sliceBytes data bytesRead (rdataEnd bytesRead dataLen) with
    | .ret s => NewRDataA s
    | _ => .panic
  else if rrType = RecordTypeAAAA then
    match sliceBytes data bytesRead (rdataEnd bytesRead dataLen) with
    | .ret s => NewRDataAAAA s
    | _ => .panic
  else if rrType = RecordTypeTXT then
    match sliceBytes data (bytesRead + 1) (rdataEnd bytesRead dataLen) with
    | .ret s => NewRDataTXT s
    | _ => .panic
  else if rrType = RecordTypeCNAME then NewRDataCNAME fuel data bytesRead
  else if rrType = RecordTypeNS then NewRDataNS fuel data bytesRead
  else if rrType = RecordTypeSOA then NewRDataSOA fuel data bytesRead
  else if rrType = RecordTypeMX then NewRDataMX fuel data bytesRead
  else if rrType = RecordTypePTR then NewRDataPTR fuel data bytesRead
  else if isObsolete rrType then NewRDataObsolete
  else if isNotImplemented rrType then NewRDataNotImplemented
  else NewRDataUnknown rrType

/-- `getResourceDataFieldForResourceType`, with `IsRecordTypeObsolete` and
`IsRecordTypeNotImplemented` as modelled above. -/
def getResourceDataFieldForResourceType (fuel : Nat) (rrType : Nat) (data : Bytes)
    (bytesRead : Nat) (dataLen : Nat) : Outcome RDataResult :=
  getResourceDataFieldForResourceTypeWith IsRecordTypeObsolete IsRecordTypeNotImplemented
    fuel rrType data bytesRead dataLen

/-- `DecodeRR(data, bytesRead, rr)`: the destination as the call leaves it, the returned cursor
and the error. -/
def DecodeRR (fuel : Nat) (data : Bytes) (bytesRead : Nat) (rr : Option RR) :
    Outcome (Option RR × Nat × Option DnsError) :=
  match rr with
  | none => .ret (none, 0, some .nilRR)
  | some rr =>
    match getPrintableDomainStr fuel data bytesRead with
    | .outOfFuel => .outOfFuel
    | .panic => .panic
    | .ret (name, bytesRead, some err) => .ret (some { rr with NAME := name }, bytesRead, some err)
    | .ret (name, bytesRead, none) =>
      let rr := { rr with NAME := name }
      match decodeUint16 data bytesRead with
      | (_, bytesRead, some err) => .ret (some rr, bytesRead, some err)
      | (typ, bytesRead, none) =>
        let rr := { rr with TYPE := typ }
        match decodeUint16 data bytesRead with
        | (_, bytesRead, some err) => .ret (some rr, bytesRead, some err)
        | (cls, bytesRead, none) =>
          let rr := { rr with CLASS := cls }
          match decodeUint32 data bytesRead with
          | (ttl, bytesRead, some err) => .ret (some { rr with TTL := ttl }, bytesRead, some err)
          | (ttl, bytesRead, none) =>
            let rr := { rr with TTL := ttl }
            match decodeUint16 data bytesRead with
            | (len, bytesRead, some err) =>
              .ret (some { rr with RDLENGTH := len }, bytesRead, some err)
            | (len, bytesRead, none) =>
              let rr := { rr with RDLENGTH := len }
              match getResourceDataFieldForResourceType fuel rr.TYPE data bytesRead
                      rr.RDLENGTH with
              | .outOfFuel => .outOfFuel
              | .panic => .panic
              | .ret (rdata, err) =>
                .ret (some { rr with RDATA := rdata }, bytesRead + rr.RDLENGTH, err)

/-! ## message.go -/

/-- The `Message` struct; `queryTime` is a `time.Duration` (nanoseconds). -/
structure Message where
  queryTime : Int
  bytesRead : Nat
  Header : DnsClient.Header
  Questions : List Question
  Answers : List RR
  Authority : List RR
  Additional : List RR
  deriving DecidableEq, Repr

/-- The value `new(Message)` points to. -/
def Message.zero : Message := ⟨0, 0, Header.zero, [], [], [], []⟩

/-- The `for _, question := range m.Questions` loop of `Message.Encode`: `data` is the buffer
so far; the result is what the loop returns from inside (with the error) or the buffer at its
end (with `none`). -/
def Message.Encode.questions : List Question → Bytes → Bytes × Option DnsError
  | [], data => (data, none)
  | question :: rest, data =>
    match Question.Encode question with
    | (qBytes, some err) => (data ++ qBytes, some err)
    | (qBytes, none) => Message.Encode.questions rest (data ++ qBytes)

/-- One of the three record loops of `Message.Encode` (answers, authority, additional). -/
def Message.Encode.records : List RR → Bytes → Bytes × Option DnsError
  | [], data => (data, none)
  | rr :: rest, data =>
    match RR.Encode rr with
    | (rrBytes, some err) => (data ++ rrBytes, some err)
    | (rrBytes, none) => Message.Encode.records rest (data ++ rrBytes)

/-- `Message.Encode`: the bytes returned and the error. -/
def Message.Encode (m : Message) : Bytes × Option DnsError :=
  match Header.Encode m.Header with
  | (hBytes, some err) => (hBytes, some err)
  | (hBytes, none) =>
    match Message.Encode.questions m.Questions hBytes with
    | (data, some err) => (data, some err)
    | (data, none) =>
      match Message.Encode.records m.Answers data with
      | (data, some err) => (data, some err)
      | (data, none) =>
        match Message.Encode.records m.Authority data with
        | (data, some err) => (data, some err)
        | (data, none) =>
          match Message.Encode.records m.Additional data with
          | (data, some err) => (data, some err)
          | (data, none) => (data, none)

/-- What `DecodeMessage` leaves behind: the message, the returned cursor and the error. -/
abbrev MessageResult := Message × Nat × Option DnsError

/-- The question loop of `DecodeMessage`, with the number of iterations still to run. -/
def DecodeMessage.questions (fuel : Nat) (data : Bytes) :
    Nat → Message → Nat → Outcome MessageResult
  | 0, m, bytesRead => .ret (m, bytesRead, none)
  | n + 1, m, bytesRead =>
    match DecodeQuestion fuel data bytesRead (some Question.zero) with
    | .outOfFuel => .outOfFuel
    | .panic => .panic
    | .ret (_, bytesRead, some err) => .ret (m, bytesRead, some err)
    | .ret (none, _, none) => .panic
    | .ret (some q, bytesRead, none) =>
      DecodeMessage.questions fuel data n { m with Questions := m.Questions ++ [q] } bytesRead

/-- One of the three record loops of `DecodeMessage`: `add` appends the decoded record to the
section the loop fills. -/
def DecodeMessage.records (fuel : Nat) (data : Bytes) (add : Message → RR → Message) :
    Nat → Message → Nat → Outcome MessageResult
  | 0, m, bytesRead => .ret (m, bytesRead, none)
  | n + 1, m, bytesRead =>
    match DecodeRR fuel data bytesRead (some RR.zero) with
    | .outOfFuel => .outOfFuel
    | .panic => .panic
    | .ret (_, bytesRead, some err) => .ret (m, bytesRead, some err)
    | .ret (none, _, none) => .panic
    | .ret (some rr, bytesRead, none) =>
      DecodeMessage.records fuel data add n (add m rr) bytesRead

/-- `DecodeMessage(data, m, queryTime)` for a non-nil `m`.  `fuel` is the step budget of each
name decode. -/
def DecodeMessage (fuel : Nat) (data : Bytes) (m : Message) (queryTime : Int) :
    Outcome MessageResult :=
  let m := { m with queryTime := queryTime }
  match DecodeHeader data 0 (some Header.zero) with
  | .outOfFuel => .outOfFuel
  | .panic => .panic
  | .ret (none, _, _) => .panic
  | .ret (some respHeader, bytesRead, some err) =>
    .ret ({ m with Header := respHeader }, bytesRead, some err)
  | .ret (some respHeader, bytesRead, none) =>
    let m := { m with Header := respHeader }
    match DecodeMessage.questions fuel data m.Header.QDCOUNT m bytesRead with
    | .ret (m, bytesRead, none) =>
      match DecodeMessage.records fuel data
              (fun m rr => { m with Answers := m.Answers ++ [rr] })
              respHeader.ANCOUNT m bytesRead with
      | .ret (m, bytesRead, none) =>
        match DecodeMessage.records fuel data
                (fun m rr => { m with Authority := m.Authority ++ [rr] })
                respHeader.NSCOUNT m bytesRead with
        | .ret (m, bytesRead, none) =>
          match DecodeMessage.records fuel data
                  (fun m rr => { m with Additional := m.Additional ++ [rr] })
                  respHeader.ARCOUNT m bytesRead with
          | .ret (m, bytesRead, none) => .ret ({ m with bytesRead := bytesRead }, bytesRead, none)
          | r => r
        | r => r
      | r => r
    | r => r

/-! ## Vocabulary of the statements -/

/-- Every flag field fits the bit width the wire format gives it, and the 16 bit fields fit
their Go type. -/
def Header.FitsWidths (h : Header) : Prop :=
  h.ID < 65536 ∧ h.QR ≤ 1 ∧ h.OPCODE ≤ 15 ∧ h.AA ≤ 1 ∧ h.TC ≤ 1 ∧ h.RD ≤ 1 ∧
  h.RA ≤ 1 ∧ h.Z ≤ 7 ∧ h.RCODE ≤ 15 ∧
  h.QDCOUNT < 65536 ∧ h.ANCOUNT < 65536 ∧ h.NSCOUNT < 65536 ∧ h.ARCOUNT < 65536

instance (h : Header) : Decidable h.FitsWidths := by
  unfold Header.FitsWidths; infer_instance

/-- The octets a sequence of labels occupies in a message, without the terminating zero octet:
each label preceded by its length octet. -/
def wireLabels : List Bytes → Bytes
  | [] => []
  | l :: ls => l.length :: l ++ wireLabels ls

/-- The number of octets of `wireLabels`: the sum of `len + 1` over the labels. -/
def wireSize : List Bytes → Nat
  | [] => 0
  | l :: ls => l.length + 1 + wireSize ls

/-- Labels of 1 to 63 bytes. -/
def WellFormedLabels (ls : List Bytes) : Prop := ∀ l ∈ ls, 1 ≤ l.length ∧ l.length ≤ 63

instance (ls : List Bytes) : Decidable (WellFormedLabels ls) := by
  unfold WellFormedLabels; infer_instance

/-- The text `l1 + "." + l2 + "." + … + ln + "."`: every label followed by a dot. -/
def dottedName : List Bytes → Bytes
  | [] => []
  | l :: ls => l ++ 46 :: dottedName ls

/-- The 261 byte buffer of the pointer example: 256 zero octets, the name `a` at offset 256, and
at offset 259 the pointer `C1 00`, whose 14 bit offset is 256. -/
def farPointerBuffer : Bytes := List.replicate 256 0 ++ [0x01, 0x61, 0x00] ++ [0xC1, 0x00]

/-- The 259 byte buffer of the long name example: three labels of 63 bytes and a zero octet at
offset 0, and at offset 193 a fourth label of 63 bytes followed by the pointer `C0 00`. -/
def longNameBuffer : Bytes :=
  63 :: List.replicate 63 0x61 ++ 63 :: List.replicate 63 0x62 ++ 63 :: List.replicate 63 0x63
    ++ [0x00] ++ 63 :: List.replicate 63 0x64 ++ [0xC0, 0x00]

/-- A name whose first label has 64 bytes: 64 times `a`, a dot, `b`. -/
def longLabelName : Bytes := List.replicate 64 0x61 ++ [46, 0x62]

/-- A name of 254 bytes: three labels of 63 bytes and one of 62, so that the labels with their
length octets take 255 octets. -/
def fullLengthName : Bytes :=
  List.replicate 63 0x61 ++ 46 :: List.replicate 63 0x62 ++ 46 :: List.replicate 63 0x63
    ++ 46 :: List.replicate 62 0x64

/-- A 512 byte datagram, the size of the client's receive buffer: a header announcing 84
questions, 498 zero octets (83 questions with the root name, type 0 and class 0) and the two
octets `01 61`, the start of an 84th question cut off by the end of the buffer. -/
def truncatedDatagram : Bytes :=
  [0x00, 0x01, 0x81, 0x80, 0x00, 84, 0x00, 0x00, 0x00, 0x00, 0x00, 0x00]
    ++ List.replicate 498 0 ++ [0x01, 0x61]

/-- The big-endian 16 bit value of the two bytes at offsets `i`, `i + 1` of a buffer. -/
def be16At (data : Bytes) (i : Nat) : Nat := data.getD i 0 * 256 + data.getD (i + 1) 0

/-- The big-endian 32 bit value of the four bytes at offsets `i` to `i + 3` of a buffer. -/
def be32At (data : Bytes) (i : Nat) : Nat :=
  data.getD i 0 * 256 ^ 3 + data.getD (i + 1) 0 * 256 ^ 2 + data.getD (i + 2) 0 * 256
    + data.getD (i + 3) 0

/-- Decoding `n` questions one after the other, the first at `cursor` and each next one at the
cursor the previous decode returned: the questions and the final cursor, or `none` when one of
the decodes does not return a question without error. -/
def decodeQuestionsFrom (fuel : Nat) (data : Bytes) : Nat → Nat → Option (List Question × Nat)
  | 0, cursor => some ([], cursor)
  | n + 1, cursor =>
    match DecodeQuestion fuel data cursor (some Question.zero) with
    | .ret (some q, next, none) =>
      match decodeQuestionsFrom fuel data n next with
      | some (qs, last) => some (q :: qs, last)
      | none => none
    | _ => none

/-- Decoding `n` resource records one after the other, like `decodeQuestionsFrom`. -/
def decodeRecordsFrom (fuel : Nat) (data : Bytes) : Nat → Nat → Option (List RR × Nat)
  | 0, cursor => some ([], cursor)
  | n + 1, cursor =>
    match DecodeRR fuel data cursor (some RR.zero) with
    | .ret (some rr, next, none) =>
      match decodeRecordsFrom fuel data n next with
      | some (rrs, last) => some (rr :: rrs, last)
      | none => none
    | _ => none

/-- A buffer of 65540 zero bytes: longer than any offset a `uint16` can hold. -/
def oversizeBuffer : Bytes := List.replicate 65540 0

/-- A 37 byte response: the header with QDCOUNT = ANCOUNT = 1, the question `a.b` A IN, and an
A record for 93.184.216.34 whose owner name is a pointer to offset 12. -/
def answeredResponse : Bytes :=
  [0, 1, 0x81, 0x80, 0, 1, 0, 1, 0, 0, 0, 0] ++ [1, 97, 1, 98, 0, 0, 1, 0, 1]
    ++ [0xC0, 12, 0, 1, 0, 1, 0, 0, 0, 9, 0, 4, 0x5D, 0xB8, 0xD8, 0x22]

/-- The message `answeredResponse` decodes to. -/
def answeredMessage : Message :=
  { queryTime := 0
    bytesRead := 37
    Header := { ID := 1, QR := 1, OPCODE := 0, AA := 0, TC := 0, RD := 1, RA := 1, Z := 0,
                RCODE := 0, QDCOUNT := 1, ANCOUNT := 1, NSCOUNT := 0, ARCOUNT := 0 }
    Questions := [{ QNAME := [97, 46, 98, 46], QTYPE := 1, QCLASS := 1 }]
    Answers := [{ NAME := [97, 46, 98, 46], TYPE := 1, CLASS := 1, TTL := 9, RDLENGTH := 4,
                  RDATA := some (.a [0, 0, 0, 0, 0, 0, 0, 0, 0, 0, 255, 255, 93, 184, 216, 34]) }]
    Authority := []
    Additional := [] }

/-- A chain of 127 compression pointers, one more than `maxCompressionPointers`: for every
k < 127 the pointer `C0 (2k+2)` at offset `2k` targets the next one, and the last one targets
offset 254, where the name `a` is stored. -/
def pointerChain : Bytes :=
  (List.range 127).flatMap (fun k => [0xC0, 2 * k + 2]) ++ [0x01, 0x61, 0x00]

/-- A 263 byte buffer: a zero octet at offset 4, the name `x` at offset 5, at offset 8 the label
`www` followed by the pointer `C1 04`, and at offset 260, the 14 bit offset
`(0xC1 & 0x3F) * 256 + 0x04` of that pointer, the name `a`. -/
def labelsPointerBuffer : Bytes :=
  [0, 0, 0, 0, 0, 1, 0x78, 0] ++ [3, 0x77, 0x77, 0x77, 0xC1, 0x04] ++ List.replicate 246 0
    ++ [1, 0x61, 0]

/-- A 25 byte response: the header with ANCOUNT = 1 and an A record for the name `a` whose
RDLENGTH field is 0 and that has no RDATA. -/
def emptyAddressResponse : Bytes :=
  [0, 1, 0x81, 0x80, 0, 0, 0, 1, 0, 0, 0, 0] ++ [1, 0x61, 0, 0, 1, 0, 1, 0, 0, 0, 9, 0, 0]

/-! # Theorems -/

/-! ## Header -/

theorem resBytes1_qr : ∀ qr < 2, ∀ op < 16, ∀ aa < 2, ∀ tc < 2, ∀ rd < 2,
    getBitsAtIdx (resBytes1 qr op aa tc rd) 0 1 = qr := by decide

theorem resBytes1_opcode : ∀ qr < 2, ∀ op < 16, ∀ aa < 2, ∀ tc < 2, ∀ rd < 2,
    getBitsAtIdx (resBytes1 qr op aa tc rd) 1 4 = op := by decide

theorem resBytes1_aa : ∀ qr < 2, ∀ op < 16, ∀ aa < 2, ∀ tc < 2, ∀ rd < 2,
    getBitsAtIdx (resBytes1 qr op aa tc rd) 5 1 = aa := by decide

theorem resBytes1_tc : ∀ qr < 2, ∀ op < 16, ∀ aa < 2, ∀ tc < 2, ∀ rd < 2,
    getBitsAtIdx (resBytes1 qr op aa tc rd) 6 1 = tc := by decide

theorem resBytes1_rd : ∀ qr < 2, ∀ op < 16, ∀ aa < 2, ∀ tc < 2, ∀ rd < 2,
    getBitsAtIdx (resBytes1 qr op aa tc rd) 7 1 = rd := by decide

theorem resBytes2_ra : ∀ ra < 2, ∀ z < 8, ∀ rc < 16,
    getBitsAtIdx (resBytes2 ra z rc) 0 1 = ra := by decide

theorem resBytes2_z : ∀ ra < 2, ∀ z < 8, ∀ rc < 16,
    getBitsAtIdx (resBytes2 ra z rc) 1 3 = z := by decide

theorem resBytes2_rcode : ∀ ra < 2, ∀ z < 8, ∀ rc < 16,
    getBitsAtIdx (resBytes2 ra z rc) 4 4 = rc := by decide

theorem uint16_bytes_value (v : Nat) (hv : v < 65536) : v / 256 % 256 * 256 + v % 256 = v := by
  omega

/-- C1. Header round trip: for every header whose flag fields fit their bit widths (QR, AA, TC,
RD, RA at most 1, OPCODE and RCODE at most 15, Z at most 7; the ranges the spec calls valid are
a special case) and whose ID and counts are 16 bit values, `Header.Encode` returns no error, and
`DecodeHeader` at offset 0 on the encoded bytes, into any destination, returns cursor 12, no
error, and leaves a header equal to the original in every field. -/
theorem header_encode_decode (h d : Header) (hfit : h.FitsWidths) :
    (Header.Encode h).2 = none ∧
    DecodeHeader (Header.Encode h).1 0 (some d) = .ret (some h, 12, none) := by
  obtain ⟨hID, hQR, hOP, hAA, hTC, hRD, hRA, hZ, hRC, hQD, hAN, hNS, hAR⟩ := hfit
  obtain ⟨id, qr, op, aa, tc, rd, ra, z, rc, qd, an, ns, ar⟩ := h
  simp only at hID hQR hOP hAA hTC hRD hRA hZ hRC hQD hAN hNS hAR
  have f1 := resBytes1_qr qr (by omega) op (by omega) aa (by omega) tc (by omega) rd (by omega)
  have f2 := resBytes1_opcode qr (by omega) op (by omega) aa (by omega) tc (by omega)
    rd (by omega)
  have f3 := resBytes1_aa qr (by omega) op (by omega) aa (by omega) tc (by omega) rd (by omega)
  have f4 := resBytes1_tc qr (by omega) op (by omega) aa (by omega) tc (by omega) rd (by omega)
  have f5 := resBytes1_rd qr (by omega) op (by omega) aa (by omega) tc (by omega) rd (by omega)
  have g1 := resBytes2_ra ra (by omega) z (by omega) rc (by omega)
  have g2 := resBytes2_z ra (by omega) z (by omega) rc (by omega)
  have g3 := resBytes2_rcode ra (by omega) z (by omega) rc (by omega)
  refine ⟨rfl, ?_⟩
  simp [Header.Encode, DecodeHeader, decodeUint16, writeUint16BE, maxHeaderSize,
    f1, f2, f3, f4, f5, g1, g2, g3,
    uint16_bytes_value _ hID, uint16_bytes_value _ hQD, uint16_bytes_value _ hAN,
    uint16_bytes_value _ hNS, uint16_bytes_value _ hAR]

/-- A header with every field non-trivial round-trips through `Header.Encode` and
`DecodeHeader`. -/
theorem header_encode_decode_witness :
    (⟨0xBEEF, 1, 2, 1, 0, 1, 1, 0, 5, 1, 2, 3, 65535⟩ : Header).FitsWidths ∧
    (Header.Encode ⟨0xBEEF, 1, 2, 1, 0, 1, 1, 0, 5, 1, 2, 3, 65535⟩).2 = none ∧
    DecodeHeader (Header.Encode ⟨0xBEEF, 1, 2, 1, 0, 1, 1, 0, 5, 1, 2, 3, 65535⟩).1 0
      (some Header.zero) = .ret (some ⟨0xBEEF, 1, 2, 1, 0, 1, 1, 0, 5, 1, 2, 3, 65535⟩, 12, none) :=
  ⟨by decide, header_encode_decode _ _ (by decide)⟩

/-! ## Name decoding: the loop, one step at a time -/

theorem land_C0_of_lt_64 : ∀ n < 64, n &&& 0xC0 = 0 := by decide

theorem getElem?_at_split (pre t : Bytes) (x : Nat) :
    (pre ++ x :: t)[pre.length]? = some x := by
  rw [List.getElem?_append_right (le_refl _)]
  simp

theorem getElem?_past_split (pre mid t : Bytes) :
    (pre ++ mid ++ t)[pre.length + mid.length]? = t.head? := by
  rw [← List.length_append, List.getElem?_append_right (le_refl _)]
  cases t <;> simp

theorem drop_take_split (pre l t : Bytes) (x : Nat) :
    ((pre ++ x :: l ++ t).drop (pre.length + 1)).take l.length = l := by
  have : pre ++ x :: l ++ t = (pre ++ [x]) ++ (l ++ t) := by simp
  rw [this, show pre.length + 1 = (pre ++ [x]).length by simp, List.drop_left]
  simp

theorem loop_label_step (fuel : Nat) (pre l t : Bytes) (acc : List Bytes) (space : Int)
    (hl : l.length < 64) :
    extractDomainNameLabels.loop (fuel + 1) (pre ++ (l.length :: l) ++ t) acc 0 space pre.length =
      if space - ((l.length : Int) + 1) ≤ 0 then
        .ret (acc ++ [l], pre.length + (l.length + 1), some .domainTooLong)
      else match t.head? with
        | none => .panic
        | some nb =>
          if nb = 0 then .ret (acc ++ [l], pre.length + (l.length + 1) + 1, none)
          else extractDomainNameLabels.loop fuel (pre ++ (l.length :: l) ++ t) (acc ++ [l]) 0
                 (space - ((l.length : Int) + 1)) (pre.length + (l.length + 1)) := by
  have h0 : (pre ++ (l.length :: l) ++ t)[pre.length]? = some l.length := by
    rw [List.append_assoc]
    exact getElem?_at_split pre _ _
  have h1 : (pre ++ (l.length :: l) ++ t)[pre.length + (l.length + 1)]? = t.head? := by
    have := getElem?_past_split pre (l.length :: l) t
    simpa using this
  have h2 := drop_take_split pre l t l.length
  have h3 : l.length &&& 0xC0 = 0 := land_C0_of_lt_64 _ hl
  have h4 : ¬ (pre.length + l.length + 1 > (pre ++ (l.length :: l) ++ t).length) := by
    simp; omega
  rw [extractDomainNameLabels.loop]
  simp only [h0, h1, h2, h3, h4]
  simp [maxCompressionPointers, maxDomainNameWireOctets]



theorem head?_wireLabels_append (ls : List Bytes) (b : Nat) (rest : Bytes)
    (hls : ∀ l ∈ ls, 1 ≤ l.length ∧ l.length ≤ 63) (hb : b ≠ 0) :
    ∃ nb, (wireLabels ls ++ b :: rest).head? = some nb ∧ nb ≠ 0 := by
  cases ls with
  | nil => exact ⟨b, by simp [wireLabels], hb⟩
  | cons l ls =>
    refine ⟨l.length, by simp [wireLabels], ?_⟩
    have := (hls l (by simp)).1
    omega

theorem loop_labels_then (ls : List Bytes) :
    ∀ (fuel : Nat) (pre : Bytes) (b : Nat) (rest : Bytes) (acc : List Bytes) (space : Int),
      (∀ l ∈ ls, 1 ≤ l.length ∧ l.length ≤ 63) → b ≠ 0 → (wireSize ls : Int) < space →
      extractDomainNameLabels.loop (fuel + ls.length) (pre ++ wireLabels ls ++ b :: rest)
          acc 0 space pre.length =
        extractDomainNameLabels.loop fuel (pre ++ wireLabels ls ++ b :: rest)
          (acc ++ ls) 0 (space - wireSize ls) (pre.length + wireSize ls) := by
  induction ls with
  | nil => intro fuel pre b rest acc space _ _ _; simp [wireLabels, wireSize]
  | cons l ls ih =>
    intro fuel pre b rest acc space hls hb hsp
    have hl := hls l (by simp)
    have hls' : ∀ l' ∈ ls, 1 ≤ l'.length ∧ l'.length ≤ 63 := fun l' h' => hls l' (by simp [h'])
    obtain ⟨nb, hnb, hnb0⟩ := head?_wireLabels_append ls b rest hls' hb
    have hdata : pre ++ wireLabels (l :: ls) ++ b :: rest
        = pre ++ (l.length :: l) ++ (wireLabels ls ++ b :: rest) := by
      simp [wireLabels]
    have hdata' : pre ++ (l.length :: l) ++ (wireLabels ls ++ b :: rest)
        = (pre ++ (l.length :: l)) ++ wireLabels ls ++ b :: rest := by
      simp
    simp only [wireSize, Nat.cast_add, Nat.cast_one] at hsp
    rw [hdata, List.length_cons, ← Nat.add_assoc, loop_label_step _ _ _ _ _ _ (by omega)]
    rw [if_neg (by omega), hnb]
    simp only [hnb0, if_false]
    rw [hdata']
    have := ih fuel (pre ++ (l.length :: l)) b rest (acc ++ [l])
      (space - ((l.length : Int) + 1)) hls' hb (by omega)
    simp only [List.length_append, List.length_cons] at this
    rw [this]
    simp only [wireSize, Nat.cast_add, Nat.cast_one, List.append_assoc, List.singleton_append]
    congr 1
    · omega
    · omega

theorem loop_labels_end (ls : List Bytes) :
    ∀ (fuel : Nat) (pre : Bytes) (rest : Bytes) (acc : List Bytes) (space : Int),
      ls ≠ [] → (∀ l ∈ ls, 1 ≤ l.length ∧ l.length ≤ 63) → (wireSize ls : Int) < space →
      extractDomainNameLabels.loop (fuel + ls.length) (pre ++ wireLabels ls ++ 0 :: rest)
          acc 0 space pre.length =
        .ret (acc ++ ls, pre.length + wireSize ls + 1, none) := by
  induction ls with
  | nil => intro _ _ _ _ _ h; exact absurd rfl h
  | cons l ls ih =>
    intro fuel pre rest acc space _ hls hsp
    have hl := hls l (by simp)
    have hls' : ∀ l' ∈ ls, 1 ≤ l'.length ∧ l'.length ≤ 63 := fun l' h' => hls l' (by simp [h'])
    have hdata : pre ++ wireLabels (l :: ls) ++ 0 :: rest
        = pre ++ (l.length :: l) ++ (wireLabels ls ++ 0 :: rest) := by
      simp [wireLabels]
    have hdata' : pre ++ (l.length :: l) ++ (wireLabels ls ++ 0 :: rest)
        = (pre ++ (l.length :: l)) ++ wireLabels ls ++ 0 :: rest := by
      simp
    simp only [wireSize, Nat.cast_add, Nat.cast_one] at hsp
    rw [hdata, List.length_cons, ← Nat.add_assoc, loop_label_step _ _ _ _ _ _ (by omega)]
    rw [if_neg (by omega)]
    cases ls with
    | nil => simp [wireLabels, wireSize]
    | cons l2 ls2 =>
      have hl2 := hls' l2 (by simp)
      have hne : l2.length ≠ 0 := by omega
      have hh : (wireLabels (l2 :: ls2) ++ 0 :: rest).head? = some l2.length := by
        simp [wireLabels]
      rw [hh]
      simp only [hne, if_false]
      rw [hdata']
      have := ih fuel (pre ++ (l.length :: l)) rest (acc ++ [l])
        (space - ((l.length : Int) + 1)) (by simp) hls' (by omega)
      simp only [List.length_append, List.length_cons] at this ⊢
      rw [this]
      simp only [wireSize, List.append_assoc, List.singleton_append]
      congr 3
      omega



theorem loop_fuel_succ : ∀ (fuel : Nat) (data : Bytes) (acc : List Bytes) (ptrs : Nat)
    (space : Int) (pos : Nat) (r : Outcome LabelsResult),
    extractDomainNameLabels.loop fuel data acc ptrs space pos = r → r ≠ .outOfFuel →
    extractDomainNameLabels.loop (fuel + 1) data acc ptrs space pos = r := by
  intro fuel
  induction fuel with
  | zero =>
    intro _ _ _ _ _ r h hr
    simp only [extractDomainNameLabels.loop] at h
    exact absurd h.symm hr
  | succ n ih =>
    intro data acc ptrs space pos r h hr
    rw [extractDomainNameLabels.loop] at h ⊢
    by_cases hp : ptrs ≥ maxCompressionPointers
    · simpa only [hp, if_true] using h
    · simp only [hp, if_false] at h ⊢
      cases hd : data[pos]? with
      | none => simpa only [hd] using h
      | some cur =>
        simp only [hd] at h ⊢
        by_cases hc : cur &&& 0xC0 = 0xC0
        · simp only [hc, if_true] at h ⊢
          cases hd1 : data[pos + 1]? with
          | none => simpa only [hd1] using h
          | some nxt =>
            simp only [hd1] at h ⊢
            cases hrec : extractDomainNameLabels.loop n data [] 0 maxDomainNameWireOctets
                (pointerOffset cur nxt) with
            | outOfFuel => rw [hrec] at h; exact absurd h.symm hr
            | panic => rw [ih _ _ _ _ _ _ hrec (by simp)]; rw [hrec] at h; exact h
            | ret a => rw [ih _ _ _ _ _ _ hrec (by simp)]; rw [hrec] at h; exact h
        · simp only [hc, if_false] at h ⊢
          by_cases hz : cur &&& 0xC0 = 0x00
          · simp only [hz, if_true] at h ⊢
            by_cases hlen : pos + cur + 1 > data.length
            · simpa only [hlen, if_true] using h
            · simp only [hlen, if_false] at h ⊢
              by_cases hsp : space - ((cur : Int) + 1) ≤ 0
              · simpa only [hsp, if_true] using h
              · simp only [hsp, if_false] at h ⊢
                cases hnb : data[pos + (cur + 1)]? with
                | none => simpa only [hnb] using h
                | some nb =>
                  simp only [hnb] at h ⊢
                  by_cases hnz : nb = 0x00
                  · simpa only [hnz, if_true] using h
                  · simp only [hnz, if_false] at h ⊢
                    exact ih _ _ _ _ _ _ h hr
          · simpa only [hz, if_false] using h

theorem loop_fuel_le (fuel fuel' : Nat) (hle : fuel ≤ fuel') (data : Bytes) (acc : List Bytes)
    (ptrs : Nat) (space : Int) (pos : Nat) (r : Outcome LabelsResult)
    (h : extractDomainNameLabels.loop fuel data acc ptrs space pos = r) (hr : r ≠ .outOfFuel) :
    extractDomainNameLabels.loop fuel' data acc ptrs space pos = r := by
  induction hle with
  | refl => exact h
  | step _ ih => exact loop_fuel_succ _ _ _ _ _ _ _ ih hr

theorem length_wireLabels (ls : List Bytes) : (wireLabels ls).length = wireSize ls := by
  induction ls with
  | nil => rfl
  | cons l ls ih => simp [wireLabels, wireSize, ih]; omega

theorem joinLabels_append_dot (ls : List Bytes) (hne : ls ≠ []) :
    joinLabels ls ++ [46] = dottedName ls := by
  induction ls with
  | nil => exact absurd rfl hne
  | cons l ls ih =>
    cases ls with
    | nil => simp [joinLabels, dottedName, List.intercalate]
    | cons l2 ls2 =>
      have := ih (by simp)
      simp only [joinLabels, List.intercalate, List.intersperse, dottedName] at this ⊢
      simp only [List.flatten_cons, List.append_assoc, List.singleton_append]
      rw [List.cons_append, this]

theorem loop_pointer_step (fuel : Nat) (data : Bytes) (acc : List Bytes) (space : Int)
    (pos p0 p1 : Nat) (h0 : data[pos]? = some p0) (h1 : data[pos + 1]? = some p1)
    (hp : p0 &&& 0xC0 = 0xC0) :
    extractDomainNameLabels.loop (fuel + 1) data acc 0 space pos =
      match extractDomainNameLabels.loop fuel data [] 0 maxDomainNameWireOctets
              (pointerOffset p0 p1) with
      | .outOfFuel => .outOfFuel
      | .panic => .panic
      | .ret (_, _, some err) => .ret (acc, pos, some err)
      | .ret (lbls, _, none) => .ret (acc ++ lbls, pos + 2, none) := by
  rw [extractDomainNameLabels.loop]
  simp [h0, h1, hp, maxCompressionPointers, maxDomainNameWireOctets]

theorem loop_malformed_step (fuel : Nat) (data : Bytes) (acc : List Bytes) (space : Int)
    (pos b : Nat) (h0 : data[pos]? = some b) (hb : b &&& 0xC0 = 0x40 ∨ b &&& 0xC0 = 0x80) :
    extractDomainNameLabels.loop (fuel + 1) data acc 0 space pos =
      .ret (acc, pos, some .malformedLabel) := by
  rw [extractDomainNameLabels.loop]
  rcases hb with hb | hb <;> simp [h0, hb, maxCompressionPointers, maxDomainNameWireOctets]

theorem printable_of_labels (pre rest : Bytes) (ls : List Bytes) (fuel : Nat)
    (hne : ls ≠ []) (hls : WellFormedLabels ls) (hsz : wireSize ls ≤ 254)
    (hfuel : ls.length ≤ fuel) :
    getPrintableDomainStr fuel (pre ++ wireLabels ls ++ 0 :: rest) pre.length =
      .ret (dottedName ls, pre.length + wireSize ls + 1, none) := by
  obtain ⟨f, rfl⟩ : ∃ f, fuel = f + ls.length := ⟨fuel - ls.length, by omega⟩
  have h := loop_labels_end ls f pre rest [] maxDomainNameWireOctets hne hls
    (by simp only [maxDomainNameWireOctets]; omega)
  simp only [getPrintableDomainStr, extractDomainNameLabels, h, List.nil_append,
    joinLabels_append_dot ls hne]

/-- C8. Uncompressed name decoding: when the buffer holds at offset `s` (the length of `pre`)
`n ≥ 1` labels of 1 to 63 bytes, each after its length octet, with the sum of `len + 1` at most
254, followed by a zero octet, then with a step budget of at least `n` `getPrintableDomainStr`
returns, without error, the labels each followed by a dot, and the cursor
`s + sum (len + 1) + 1`, whatever comes before and after in the buffer. -/
theorem uncompressed_name_decodes (pre rest : Bytes) (ls : List Bytes) (fuel : Nat)
    (hne : ls ≠ []) (hls : WellFormedLabels ls) (hsz : wireSize ls ≤ 254)
    (hfuel : ls.length ≤ fuel) :
    getPrintableDomainStr fuel (pre ++ wireLabels ls ++ 0 :: rest) pre.length =
      .ret (dottedName ls, pre.length + wireSize ls + 1, none) :=
  printable_of_labels pre rest ls fuel hne hls hsz hfuel

/-- The name `www.example.com` stored after two unrelated bytes decodes to `www.example.com.`
with the cursor just past its terminating zero octet. -/
theorem uncompressed_name_decodes_witness :
    ([[119, 119, 119], [101, 120, 97, 109, 112, 108, 101], [99, 111, 109]] : List Bytes) ≠ [] ∧
    WellFormedLabels [[119, 119, 119], [101, 120, 97, 109, 112, 108, 101], [99, 111, 109]] ∧
    getPrintableDomainStr 3
        ([7, 7] ++ wireLabels [[119, 119, 119], [101, 120, 97, 109, 112, 108, 101],
          [99, 111, 109]] ++ 0 :: [0, 1, 0, 1]) 2 =
      .ret (dottedName [[119, 119, 119], [101, 120, 97, 109, 112, 108, 101], [99, 111, 109]],
        2 + wireSize [[119, 119, 119], [101, 120, 97, 109, 112, 108, 101], [99, 111, 109]] + 1,
        none) :=
  ⟨by decide, by decide,
    uncompressed_name_decodes [7, 7] [0, 1, 0, 1] _ 3 (by decide) (by decide) (by decide)
      (by decide)⟩

theorem getElem?_after_labels (pre rest : Bytes) (ls : List Bytes) (b : Nat) :
    (pre ++ wireLabels ls ++ b :: rest)[pre.length + wireSize ls]? = some b := by
  rw [← length_wireLabels, ← List.length_append]
  exact getElem?_at_split _ _ _

theorem getElem?_after_labels_succ (pre rest : Bytes) (ls : List Bytes) (b c : Nat) :
    (pre ++ wireLabels ls ++ b :: c :: rest)[pre.length + wireSize ls + 1]? = some c := by
  have h : pre ++ wireLabels ls ++ b :: c :: rest = (pre ++ wireLabels ls ++ [b]) ++ c :: rest := by
    simp
  have hl : pre.length + wireSize ls + 1 = (pre ++ wireLabels ls ++ [b]).length := by
    simp only [List.length_append, length_wireLabels, List.length_singleton]
  rw [h, hl]
  exact getElem?_at_split _ _ _

theorem ne_zero_of_land_C0 (b : Nat) (hb : b &&& 0xC0 ≠ 0) : b ≠ 0 := by
  rintro rfl
  simp at hb

/-- Labels followed by a pointer, with the target as the decoder computes it (`pointerOffset`,
which is the 14 bit offset of the pointer only when that offset is below 256 and the first
pointer octet is `C0`): when the buffer holds at offset `s` (the length of `pre`)
`k ≥ 0` labels of 1 to 63 bytes with the sum of `len + 1` below 255, immediately followed by a
compression pointer (two octets, the first with its top two bits set) whose target, the offset
the decoder derives from the two pointer octets, decodes without error to labels `T`, then with
a large enough step budget decoding at `s` returns the `k` local labels followed by `T`, and
the cursor `s + sum (len + 1) + 2`, wherever the target lies and wherever its decode ended. -/
theorem labels_then_pointer (pre rest : Bytes) (ls T : List Bytes) (p0 p1 c fuelT fuel : Nat)
    (hls : WellFormedLabels ls) (hsz : wireSize ls < 255) (hp : p0 &&& 0xC0 = 0xC0)
    (htarget : extractDomainNameLabels fuelT (pre ++ wireLabels ls ++ p0 :: p1 :: rest)
      (pointerOffset p0 p1) = .ret (T, c, none))
    (hfuel : fuelT + ls.length + 1 ≤ fuel) :
    extractDomainNameLabels fuel (pre ++ wireLabels ls ++ p0 :: p1 :: rest) pre.length =
      .ret (ls ++ T, pre.length + wireSize ls + 2, none) := by
  obtain ⟨f, rfl⟩ : ∃ f, fuel = (f + 1) + ls.length :=
    ⟨fuel - ls.length - 1, by omega⟩
  have hp0 : p0 ≠ 0 := ne_zero_of_land_C0 p0 (by rw [hp]; decide)
  have h1 := loop_labels_then ls (f + 1) pre p0 (p1 :: rest) [] maxDomainNameWireOctets hls hp0
    (by simp only [maxDomainNameWireOctets]; omega)
  have h2 := loop_fuel_le fuelT f (by omega) _ _ _ _ _ _ htarget (by simp)
  have h3 := loop_pointer_step f (pre ++ wireLabels ls ++ p0 :: p1 :: rest) ([] ++ ls)
    (maxDomainNameWireOctets - wireSize ls) (pre.length + wireSize ls) p0 p1
    (getElem?_after_labels _ _ _ _) (getElem?_after_labels_succ _ _ _ _ _) hp
  rw [extractDomainNameLabels, h1, h3, h2]
  simp

/-- The name `www` followed by a pointer to offset 0, where `com` is stored, decodes at offset 5
to the labels `www`, `com` with cursor 11 = 5 + 4 + 2. -/
theorem labels_then_pointer_witness :
    WellFormedLabels [[119, 119, 119]] ∧ wireSize [[119, 119, 119]] < 255 ∧
    extractDomainNameLabels 1 ([3, 99, 111, 109, 0] ++ wireLabels [[119, 119, 119]]
        ++ 0xC0 :: 0 :: []) (pointerOffset 0xC0 0) = .ret ([[99, 111, 109]], 5, none) ∧
    extractDomainNameLabels 3 ([3, 99, 111, 109, 0] ++ wireLabels [[119, 119, 119]]
        ++ 0xC0 :: 0 :: []) 5 = .ret ([[119, 119, 119]] ++ [[99, 111, 109]], 5 + 4 + 2, none) :=
  ⟨by decide, by decide, by decide,
    labels_then_pointer [3, 99, 111, 109, 0] [] [[119, 119, 119]] [[99, 111, 109]] 0xC0 0 5 1 3
      (by decide) (by decide) (by decide) (by decide) (by decide)⟩

/-- C10. Malformed label: when decoding reaches, at the start (`ls` empty) or after any number
of labels of 1 to 63 bytes (their `len + 1` summing to less than 255, so that the size check did
not stop the decode earlier), an octet whose top two bits are 01 or 10, then with a step budget
above the number of labels `extractDomainNameLabels` returns the labels read so far, the offset
of that octet and the MalformedLabel error, and `getPrintableDomainStr` returns the same cursor
and error with an empty name; the result is the same for every continuation `rest` of the
buffer, the empty one included, so nothing after the octet is read. -/
theorem malformed_label_rejected (pre rest : Bytes) (ls : List Bytes) (b fuel : Nat)
    (hls : WellFormedLabels ls) (hsz : wireSize ls < 255)
    (hb : b &&& 0xC0 = 0x40 ∨ b &&& 0xC0 = 0x80) (hfuel : ls.length + 1 ≤ fuel) :
    extractDomainNameLabels fuel (pre ++ wireLabels ls ++ b :: rest) pre.length =
        .ret (ls, pre.length + wireSize ls, some .malformedLabel) ∧
    getPrintableDomainStr fuel (pre ++ wireLabels ls ++ b :: rest) pre.length =
        .ret ([], pre.length + wireSize ls, some .malformedLabel) ∧
    DnsError.malformedLabel.message = "Invalid RData found: could not parse labels for domain" := by
  obtain ⟨f, rfl⟩ : ∃ f, fuel = (f + 1) + ls.length :=
    ⟨fuel - ls.length - 1, by omega⟩
  have hb0 : b ≠ 0 := ne_zero_of_land_C0 b (by rcases hb with hb | hb <;> rw [hb] <;> decide)
  have h1 := loop_labels_then ls (f + 1) pre b rest [] maxDomainNameWireOctets hls hb0
    (by simp only [maxDomainNameWireOctets]; omega)
  have h2 := loop_malformed_step f (pre ++ wireLabels ls ++ b :: rest) ([] ++ ls)
    (maxDomainNameWireOctets - wireSize ls) (pre.length + wireSize ls) b
    (getElem?_after_labels _ _ _ _) hb
  have h : extractDomainNameLabels (f + 1 + ls.length) (pre ++ wireLabels ls ++ b :: rest)
      pre.length = .ret (ls, pre.length + wireSize ls, some .malformedLabel) := by
    rw [extractDomainNameLabels, h1, h2]
    simp
  exact ⟨h, by simp only [getPrintableDomainStr, h], rfl⟩

/-- After the label `ab`, the octet `0x80` (top bits 10) at the very end of the buffer is
rejected with MalformedLabel at its own offset. -/
theorem malformed_label_rejected_witness :
    WellFormedLabels [[97, 98]] ∧ (0x80 &&& 0xC0 = 0x40 ∨ 0x80 &&& 0xC0 = 0x80) ∧
    extractDomainNameLabels 2 ([9] ++ wireLabels [[97, 98]] ++ 0x80 :: []) 1 =
        .ret ([[97, 98]], 1 + 3, some .malformedLabel) :=
  ⟨by decide, by decide,
    (malformed_label_rejected [9] [] [[97, 98]] 0x80 2 (by decide) (by decide) (by decide)
      (by decide)).1⟩

/-! ## Name decoding: stability in the step budget -/

theorem extract_fuel_stable (fuel k : Nat) (data : Bytes) (pos : Nat)
    (h : extractDomainNameLabels fuel data pos ≠ .outOfFuel) :
    extractDomainNameLabels (fuel + k) data pos = extractDomainNameLabels fuel data pos :=
  loop_fuel_le fuel (fuel + k) (by omega) _ _ _ _ _ _ rfl h

theorem printable_fuel_stable (fuel k : Nat) (data : Bytes) (pos : Nat)
    (h : extractDomainNameLabels fuel data pos ≠ .outOfFuel) :
    getPrintableDomainStr (fuel + k) data pos = getPrintableDomainStr fuel data pos := by
  simp only [getPrintableDomainStr, extract_fuel_stable fuel k data pos h]

/-! ## Name decoding on malformed input -/

/-- Two compression pointers that target each other (or one that targets itself) send the
decoder into a recursion that no step budget ends. -/
theorem pointer_cycle_out_of_fuel (data : Bytes) (x y a0 a1 b0 b1 : Nat)
    (hx0 : data[x]? = some a0) (hx1 : data[x + 1]? = some a1) (ha : a0 &&& 0xC0 = 0xC0)
    (hxy : pointerOffset a0 a1 = y)
    (hy0 : data[y]? = some b0) (hy1 : data[y + 1]? = some b1) (hb : b0 &&& 0xC0 = 0xC0)
    (hyx : pointerOffset b0 b1 = x) (fuel : Nat) :
    extractDomainNameLabels fuel data x = .outOfFuel ∧
    extractDomainNameLabels fuel data y = .outOfFuel := by
  induction fuel with
  | zero => exact ⟨rfl, rfl⟩
  | succ n ih =>
    simp only [extractDomainNameLabels] at ih ⊢
    rw [loop_pointer_step n data [] _ x a0 a1 hx0 hx1 ha,
      loop_pointer_step n data [] _ y b0 b1 hy0 hy1 hb, hxy, hyx, ih.1, ih.2]
    exact ⟨rfl, rfl⟩

/-- C4. Evaluation at the failing inputs: on the buffer `C0 02 C0 00` (the pointer at offset 0
targets offset 2, the pointer at offset 2 targets offset 0) and on the buffer `C0 00` (a pointer
that targets itself) name decoding at offset 0 has not returned after any number of steps: it
returns no error at all, TooManyCompressionPointers included. -/
theorem pointer_loop_never_returns :
    (∀ fuel, extractDomainNameLabels fuel [0xC0, 0x02, 0xC0, 0x00] 0 = .outOfFuel) ∧
    (∀ fuel, extractDomainNameLabels fuel [0xC0, 0x00] 0 = .outOfFuel) :=
  ⟨fun fuel => (pointer_cycle_out_of_fuel [0xC0, 0x02, 0xC0, 0x00] 0 2 0xC0 0x02 0xC0 0x00
      (by decide) (by decide) (by decide) (by decide) (by decide) (by decide) (by decide)
      (by decide) fuel).1,
   fun fuel => (pointer_cycle_out_of_fuel [0xC0, 0x00] 0 0 0xC0 0x00 0xC0 0x00
      (by decide) (by decide) (by decide) (by decide) (by decide) (by decide) (by decide)
      (by decide) fuel).1⟩

/-- C3. Evaluation at the failing inputs: name decoding at offset 0 ends in a run-time panic
(index or slice bounds out of range), not in an error value, on `05 61` (the length octet
declares 5 bytes, 1 remains), on `01 61` (the byte after the label is missing), on `C0` (the
second pointer octet is missing) and on `C0 02` (the pointer targets offset 2, the end of the
buffer); so does `getPrintableDomainStr`. -/
theorem name_decoding_panics_out_of_bounds :
    (∀ fuel, extractDomainNameLabels (fuel + 1) [0x05, 0x61] 0 = .panic) ∧
    (∀ fuel, extractDomainNameLabels (fuel + 1) [0x01, 0x61] 0 = .panic) ∧
    (∀ fuel, extractDomainNameLabels (fuel + 1) [0xC0] 0 = .panic) ∧
    (∀ fuel, extractDomainNameLabels (fuel + 2) [0xC0, 0x02] 0 = .panic) ∧
    (∀ fuel, getPrintableDomainStr (fuel + 1) [0x01, 0x61] 0 = .panic) := by
  refine ⟨fun fuel => ?_, fun fuel => ?_, fun fuel => ?_, fun fuel => ?_, fun fuel => ?_⟩
  · rw [Nat.add_comm, extract_fuel_stable 1 fuel _ _ (by decide)]; decide
  · rw [Nat.add_comm, extract_fuel_stable 1 fuel _ _ (by decide)]; decide
  · rw [Nat.add_comm, extract_fuel_stable 1 fuel _ _ (by decide)]; decide
  · rw [Nat.add_comm, extract_fuel_stable 2 fuel _ _ (by decide)]; decide
  · rw [Nat.add_comm, printable_fuel_stable 1 fuel _ _ (by decide)]; decide

/-! ## Compression pointers beyond offset 255, names longer than 255 octets -/

set_option maxRecDepth 100000 in
/-- C6. Evaluation at the failing input: in `farPointerBuffer` the name `a` is stored at offset
X = 256 and the two octets at offset 259 are `0xC0 | (X >> 8)` and `X & 0xFF`.  Decoding at 256
gives `a.`; the decoder turns the pointer into the offset 1, not 256, and decoding at 259 gives
the name `.` read at offset 1. -/
theorem far_pointer_resolves_elsewhere :
    farPointerBuffer[259]? = some (0xC0 ||| (256 >>> 8)) ∧
    farPointerBuffer[260]? = some (256 &&& 0xFF) ∧
    (∀ fuel, getPrintableDomainStr (fuel + 1) farPointerBuffer 256 =
      .ret ([0x61, 46], 259, none)) ∧
    pointerOffset 0xC1 0x00 = 1 ∧
    (∀ fuel, getPrintableDomainStr (fuel + 2) farPointerBuffer 259 = .ret ([46], 261, none)) := by
  refine ⟨by decide, by decide, fun fuel => ?_, by decide, fun fuel => ?_⟩
  · rw [Nat.add_comm, printable_fuel_stable 1 fuel _ _ (by decide)]; decide
  · rw [Nat.add_comm, printable_fuel_stable 2 fuel _ _ (by decide)]; decide

set_option maxRecDepth 100000 in
/-- C7. Evaluation at the failing input: decoding `longNameBuffer` at offset 193 reads one label
of 63 bytes, follows the pointer to offset 0 and reads three more; it succeeds, with cursor 259,
although the four labels with their length octets take 256 octets. -/
theorem long_name_through_pointer_accepted :
    (∀ fuel, extractDomainNameLabels (fuel + 5) longNameBuffer 193 =
      .ret ([List.replicate 63 0x64, List.replicate 63 0x61, List.replicate 63 0x62,
        List.replicate 63 0x63], 259, none)) ∧
    wireSize [List.replicate 63 0x64, List.replicate 63 0x61, List.replicate 63 0x62,
      List.replicate 63 0x63] = 256 := by
  refine ⟨fun fuel => ?_, by decide⟩
  rw [Nat.add_comm, extract_fuel_stable 5 fuel _ _ (by decide)]; decide

/-! ## Question -/

theorem encode_loop_wellFormed (ls : List Bytes) :
    ∀ buf : Bytes, WellFormedLabels ls →
      Question.Encode.loop ls buf = (buf ++ wireLabels ls, none) := by
  induction ls with
  | nil => intro buf _; simp [Question.Encode.loop, wireLabels]
  | cons l ls ih =>
    intro buf hls
    have hl := hls l (by simp)
    have hls' : WellFormedLabels ls := fun l' h' => hls l' (by simp [h'])
    have h0 : l.length ≠ 0 := by omega
    have hm : l.length % 256 = l.length := by omega
    rw [Question.Encode.loop, if_neg h0, ih _ hls', hm]
    simp [wireLabels]

theorem decodeUint16_at (pre rest : Bytes) (a b : Nat) :
    decodeUint16 (pre ++ a :: b :: rest) pre.length = (a * 256 + b, pre.length + 2, none) := by
  have h0 : (pre ++ a :: b :: rest)[pre.length]? = some a := getElem?_at_split _ _ _
  have h1 : (pre ++ a :: b :: rest)[pre.length + 1]? = some b := by
    have := getElem?_at_split (pre ++ [a]) rest b
    simpa using this
  have hlen : ¬ (pre.length + 2 > (pre ++ a :: b :: rest).length) := by
    simp
  simp only [decodeUint16, hlen, if_false, List.getD_eq_getElem?_getD, h0, h1, Option.getD_some]

theorem decode_type_class (pre : Bytes) (a b c d : Nat) :
    decodeUint16 (pre ++ a :: b :: c :: d :: []) pre.length = (a * 256 + b, pre.length + 2, none) ∧
    decodeUint16 (pre ++ a :: b :: c :: d :: []) (pre.length + 2)
      = (c * 256 + d, pre.length + 4, none) := by
  refine ⟨decodeUint16_at pre _ a b, ?_⟩
  have h := decodeUint16_at (pre ++ [a, b]) [] c d
  simp only [List.append_assoc, List.cons_append, List.nil_append, List.length_append,
    List.length_cons, List.length_nil] at h
  exact h

theorem decodeQuestion_fuel_stable (fuel k : Nat) (data : Bytes) (pos : Nat) (q : Option Question)
    (h : extractDomainNameLabels fuel data pos ≠ .outOfFuel) :
    DecodeQuestion (fuel + k) data pos q = DecodeQuestion fuel data pos q := by
  cases q with
  | none => rfl
  | some q => simp only [DecodeQuestion, printable_fuel_stable fuel k data pos h]

/-- C2, amended. Question round trip: for every question whose QNAME splits on `.` into at least
2 labels, each of 1 to 63 bytes, with the sum of `len + 1` over the labels at most 254, and whose
QTYPE and QCLASS are 16 bit values, `Question.Encode` returns no error, and `DecodeQuestion` at
offset 0 on exactly the encoded bytes, into any destination and with a step budget of at least
the number of labels, returns no error, the cursor at the end of the buffer, and a question
whose QNAME is the original followed by one `.`, with the original QTYPE and QCLASS. -/
theorem question_encode_decode (q d : Question) (fuel : Nat)
    (hn : 2 ≤ (splitDots q.QNAME).length) (hls : WellFormedLabels (splitDots q.QNAME))
    (hsz : wireSize (splitDots q.QNAME) ≤ 254) (ht : q.QTYPE < 65536) (hc : q.QCLASS < 65536)
    (hfuel : (splitDots q.QNAME).length ≤ fuel) :
    (Question.Encode q).2 = none ∧
    DecodeQuestion fuel (Question.Encode q).1 0 (some d) =
      .ret (some ⟨q.QNAME ++ [46], q.QTYPE, q.QCLASS⟩, (Question.Encode q).1.length, none) := by
  have hne : splitDots q.QNAME ≠ [] := by
    intro h
    rw [h] at hn
    simp at hn
  have henc : Question.Encode q =
      (wireLabels (splitDots q.QNAME) ++ [0x00] ++ writeUint16BE q.QTYPE
        ++ writeUint16BE q.QCLASS, none) := by
    have hlen : ¬ (splitDots q.QNAME).length < minimumQnameLen := by
      simp only [minimumQnameLen]; omega
    simp only [Question.Encode, hlen, if_false, encode_loop_wellFormed _ [] hls,
      List.nil_append]
  have hdot : dottedName (splitDots q.QNAME) = q.QNAME ++ [46] := by
    rw [← joinLabels_append_dot _ hne, joinLabels, splitDots, List.intercalate_splitOn]
  have hdata : wireLabels (splitDots q.QNAME) ++ [0x00] ++ writeUint16BE q.QTYPE
      ++ writeUint16BE q.QCLASS
      = (wireLabels (splitDots q.QNAME) ++ [0]) ++ (q.QTYPE / 256 % 256) :: (q.QTYPE % 256)
          :: (q.QCLASS / 256 % 256) :: (q.QCLASS % 256) :: [] := by
    simp [writeUint16BE]
  have hdata0 : (wireLabels (splitDots q.QNAME) ++ [0]) ++ (q.QTYPE / 256 % 256)
      :: (q.QTYPE % 256) :: (q.QCLASS / 256 % 256) :: (q.QCLASS % 256) :: []
      = [] ++ wireLabels (splitDots q.QNAME) ++ 0 :: [q.QTYPE / 256 % 256, q.QTYPE % 256,
          q.QCLASS / 256 % 256, q.QCLASS % 256] := by
    simp
  have hpos : (wireLabels (splitDots q.QNAME) ++ [0]).length
      = ([] : Bytes).length + wireSize (splitDots q.QNAME) + 1 := by
    simp [length_wireLabels]
  have hname : getPrintableDomainStr fuel ((wireLabels (splitDots q.QNAME) ++ [0])
      ++ (q.QTYPE / 256 % 256) :: (q.QTYPE % 256) :: (q.QCLASS / 256 % 256)
          :: (q.QCLASS % 256) :: []) 0
      = .ret (q.QNAME ++ [46], (wireLabels (splitDots q.QNAME) ++ [0]).length, none) := by
    rw [hdata0, hpos, ← hdot]
    exact printable_of_labels [] _ (splitDots q.QNAME) fuel hne hls hsz hfuel
  have htc := decode_type_class (wireLabels (splitDots q.QNAME) ++ [0])
    (q.QTYPE / 256 % 256) (q.QTYPE % 256) (q.QCLASS / 256 % 256) (q.QCLASS % 256)
  rw [henc]
  refine ⟨rfl, ?_⟩
  simp only [DecodeQuestion]
  rw [hdata, hname]
  simp only [htc.1, htc.2, uint16_bytes_value _ ht, uint16_bytes_value _ hc]
  simp only [List.length_append, List.length_cons, List.length_nil]

/-- The question `a.b` (type 1, class 1) encodes to 9 bytes that decode to `a.b.`. -/
theorem question_encode_decode_witness :
    2 ≤ (splitDots [97, 46, 98]).length ∧ WellFormedLabels (splitDots [97, 46, 98]) ∧
    (Question.Encode ⟨[97, 46, 98], 1, 1⟩).2 = none ∧
    DecodeQuestion 2 (Question.Encode ⟨[97, 46, 98], 1, 1⟩).1 0 (some Question.zero) =
      .ret (some ⟨[97, 46, 98] ++ [46], 1, 1⟩, (Question.Encode ⟨[97, 46, 98], 1, 1⟩).1.length,
        none) :=
  ⟨by decide, by decide,
    question_encode_decode ⟨[97, 46, 98], 1, 1⟩ Question.zero 2 (by decide) (by decide)
      (by decide) (by decide) (by decide) (by decide)⟩

set_option maxRecDepth 100000 in
/-- C2, counterexample. (1) The question `a.b` (two non-empty labels) encodes without error to
`01 61 01 62 00 00 01 00 01`, and decoding these bytes at offset 0 yields the QNAME `a.b.`, which
is not `a.b`.  (2) `longLabelName` has two non-empty labels, the first of 64 bytes; it encodes
without error and decoding the result fails with MalformedLabel.  (3) `fullLengthName` has four
non-empty labels of at most 63 bytes taking 255 octets; it encodes without error and decoding the
result fails with DomainTooLong. -/
theorem question_roundtrip_counterexample :
    (2 ≤ (splitDots [0x61, 46, 0x62]).length ∧ (∀ l ∈ splitDots [0x61, 46, 0x62], l ≠ []) ∧
      Question.Encode ⟨[0x61, 46, 0x62], 1, 1⟩ = ([1, 0x61, 1, 0x62, 0, 0, 1, 0, 1], none) ∧
      (∀ fuel, DecodeQuestion (fuel + 2) [1, 0x61, 1, 0x62, 0, 0, 1, 0, 1] 0 (some Question.zero)
        = .ret (some ⟨[0x61, 46, 0x62, 46], 1, 1⟩, 9, none)) ∧
      ([0x61, 46, 0x62, 46] : Bytes) ≠ [0x61, 46, 0x62]) ∧
    (2 ≤ (splitDots longLabelName).length ∧ (∀ l ∈ splitDots longLabelName, l ≠ []) ∧
      (Question.Encode ⟨longLabelName, 1, 1⟩).2 = none ∧
      (∀ fuel, DecodeQuestion (fuel + 1) (Question.Encode ⟨longLabelName, 1, 1⟩).1 0
          (some Question.zero)
        = .ret (some ⟨[], 0, 0⟩, 0, some .malformedLabel))) ∧
    (2 ≤ (splitDots fullLengthName).length ∧
      (∀ l ∈ splitDots fullLengthName, l ≠ [] ∧ l.length ≤ 63) ∧
      (Question.Encode ⟨fullLengthName, 1, 1⟩).2 = none ∧
      (∀ fuel, DecodeQuestion (fuel + 4) (Question.Encode ⟨fullLengthName, 1, 1⟩).1 0
          (some Question.zero)
        = .ret (some ⟨[], 0, 0⟩, 255, some .domainTooLong))) := by
  refine ⟨⟨by decide, by decide, by decide, fun fuel => ?_, by decide⟩,
    ⟨by decide, by decide, by decide, fun fuel => ?_⟩,
    ⟨by decide, by decide, by decide, fun fuel => ?_⟩⟩
  · rw [Nat.add_comm, decodeQuestion_fuel_stable 2 fuel _ _ _ (by decide)]; decide
  · rw [Nat.add_comm, decodeQuestion_fuel_stable 1 fuel _ _ _ (by decide)]; decide
  · rw [Nat.add_comm, decodeQuestion_fuel_stable 4 fuel _ _ _ (by decide)]; decide

/-! ## Message decoding on malformed input -/

theorem decodeQuestion_fuel_mono (fuel k : Nat) (data : Bytes) (pos : Nat) (q : Option Question)
    (h : DecodeQuestion fuel data pos q ≠ .outOfFuel) :
    DecodeQuestion (fuel + k) data pos q = DecodeQuestion fuel data pos q := by
  cases q with
  | none => rfl
  | some q =>
    apply decodeQuestion_fuel_stable
    intro hx
    apply h
    simp only [DecodeQuestion, getPrintableDomainStr, hx]

theorem questions_fuel_mono (fuel k : Nat) (data : Bytes) (n : Nat) :
    ∀ (m : Message) (pos : Nat),
      DecodeMessage.questions fuel data n m pos ≠ .outOfFuel →
      DecodeMessage.questions (fuel + k) data n m pos
        = DecodeMessage.questions fuel data n m pos := by
  induction n with
  | zero => intro m pos _; rfl
  | succ n ih =>
    intro m pos h
    have hq : DecodeQuestion fuel data pos (some Question.zero) ≠ .outOfFuel := by
      intro hx
      apply h
      simp only [DecodeMessage.questions, hx]
    rw [DecodeMessage.questions, DecodeMessage.questions,
      decodeQuestion_fuel_mono fuel k data pos _ hq]
    rw [DecodeMessage.questions] at h
    cases hd : DecodeQuestion fuel data pos (some Question.zero) with
    | outOfFuel => exact absurd hd hq
    | panic => rfl
    | ret a =>
      obtain ⟨q, c, e⟩ := a
      rw [hd] at h
      cases e with
      | some err => cases q <;> rfl
      | none =>
        cases q with
        | none => rfl
        | some q => exact ih _ _ h

set_option maxRecDepth 1000000 in
theorem truncatedDatagram_questions (m : Message) :
    DecodeMessage.questions 1 truncatedDatagram 84 m 12 = .panic := by
  rfl

set_option maxRecDepth 1000000 in
theorem truncatedDatagram_header :
    DecodeHeader truncatedDatagram 0 (some Header.zero)
      = .ret (some ⟨1, 1, 0, 0, 0, 1, 1, 0, 0, 84, 0, 0, 0⟩, 12, none) := by
  rfl

theorem truncatedDatagram_questions_any (fuel : Nat) (m : Message) :
    DecodeMessage.questions (fuel + 1) truncatedDatagram 84 m 12 = .panic := by
  have h1 : DecodeMessage.questions 1 truncatedDatagram 84 m 12 ≠ .outOfFuel := by
    rw [truncatedDatagram_questions]
    exact fun h => Outcome.noConfusion h
  have h2 := questions_fuel_mono 1 fuel truncatedDatagram 84 m 12 h1
  rw [truncatedDatagram_questions] at h2
  rw [Nat.add_comm]
  exact h2

theorem truncatedDatagram_length : truncatedDatagram.length = 512 := by
  simp only [truncatedDatagram, List.length_append, List.length_replicate, List.length_cons,
    List.length_nil]

/-- C5. Evaluation at the failing inputs: on a 12 byte buffer that is a header announcing one
question (`QDCOUNT = 1`), and on one announcing one answer record (`ANCOUNT = 1`), with nothing
after the header, `DecodeMessage` ends in a run-time panic: the name decoder indexes the buffer
at offset 12, its length, and no cursor and no error are returned.  The same happens on the 512
byte `truncatedDatagram`, whose header announces 84 questions: the 84th name starts at offset
510 and the decoder indexes the buffer at offset 512. -/
theorem decode_message_lying_count_panics :
    (∀ fuel queryTime, DecodeMessage (fuel + 1)
        [0x00, 0x01, 0x81, 0x80, 0x00, 0x01, 0x00, 0x00, 0x00, 0x00, 0x00, 0x00]
        Message.zero queryTime = .panic) ∧
    (∀ fuel queryTime, DecodeMessage (fuel + 1)
        [0x00, 0x01, 0x81, 0x80, 0x00, 0x00, 0x00, 0x01, 0x00, 0x00, 0x00, 0x00]
        Message.zero queryTime = .panic) ∧
    truncatedDatagram.length = 512 ∧
    (∀ fuel queryTime, DecodeMessage (fuel + 1) truncatedDatagram Message.zero queryTime
        = .panic) := by
  refine ⟨fun fuel queryTime => ?_, fun fuel queryTime => ?_, truncatedDatagram_length,
    fun fuel queryTime => ?_⟩
  · have hname : getPrintableDomainStr (fuel + 1)
        [0x00, 0x01, 0x81, 0x80, 0x00, 0x01, 0x00, 0x00, 0x00, 0x00, 0x00, 0x00] 12 = .panic := by
      rw [Nat.add_comm, printable_fuel_stable 1 fuel _ _ (by decide)]; decide
    have hhead : DecodeHeader
        [0x00, 0x01, 0x81, 0x80, 0x00, 0x01, 0x00, 0x00, 0x00, 0x00, 0x00, 0x00] 0
        (some Header.zero) = .ret (some ⟨1, 1, 0, 0, 0, 1, 1, 0, 0, 1, 0, 0, 0⟩, 12, none) := by
      decide
    simp only [DecodeMessage, hhead, DecodeMessage.questions, DecodeQuestion, hname]
  · have hname : getPrintableDomainStr (fuel + 1)
        [0x00, 0x01, 0x81, 0x80, 0x00, 0x00, 0x00, 0x01, 0x00, 0x00, 0x00, 0x00] 12 = .panic := by
      rw [Nat.add_comm, printable_fuel_stable 1 fuel _ _ (by decide)]; decide
    have hhead : DecodeHeader
        [0x00, 0x01, 0x81, 0x80, 0x00, 0x00, 0x00, 0x01, 0x00, 0x00, 0x00, 0x00] 0
        (some Header.zero) = .ret (some ⟨1, 1, 0, 0, 0, 1, 1, 0, 0, 0, 1, 0, 0⟩, 12, none) := by
      decide
    simp only [DecodeMessage, hhead, DecodeMessage.questions, DecodeMessage.records, DecodeRR,
      hname]
  · have hhead := truncatedDatagram_header
    have hq := truncatedDatagram_questions_any fuel
    simp only [DecodeMessage, hhead, hq]

/-! ## Primitive decoders -/

theorem decodeUint16_in_range (data : Bytes) (offset : Nat) (h : offset + 2 ≤ data.length) :
    ∃ b0 b1, data[offset]? = some b0 ∧ data[offset + 1]? = some b1 ∧
      decodeUint16 data offset = (b0 * 256 + b1, offset + 2, none) := by
  refine ⟨data[offset], data[offset + 1], List.getElem?_eq_getElem _, List.getElem?_eq_getElem _, ?_⟩
  have hlen : ¬ (offset + 2 > data.length) := by omega
  simp only [decodeUint16, hlen, if_false, List.getD_eq_getElem?_getD,
    List.getElem?_eq_getElem (show offset < data.length by omega),
    List.getElem?_eq_getElem (show offset + 1 < data.length by omega), Option.getD_some]

theorem decodeUint32_in_range (data : Bytes) (offset : Nat) (h : offset + 4 ≤ data.length) :
    ∃ b0 b1 b2 b3, data[offset]? = some b0 ∧ data[offset + 1]? = some b1 ∧
      data[offset + 2]? = some b2 ∧ data[offset + 3]? = some b3 ∧
      decodeUint32 data offset
        = (b0 * 256 ^ 3 + b1 * 256 ^ 2 + b2 * 256 + b3, offset + 4, none) := by
  refine ⟨data[offset], data[offset + 1], data[offset + 2], data[offset + 3],
    List.getElem?_eq_getElem _, List.getElem?_eq_getElem _, List.getElem?_eq_getElem _,
    List.getElem?_eq_getElem _, ?_⟩
  have hlen : ¬ (offset + 4 > data.length) := by omega
  simp only [decodeUint32, hlen, if_false, List.getD_eq_getElem?_getD,
    List.getElem?_eq_getElem (show offset < data.length by omega),
    List.getElem?_eq_getElem (show offset + 1 < data.length by omega),
    List.getElem?_eq_getElem (show offset + 2 < data.length by omega),
    List.getElem?_eq_getElem (show offset + 3 < data.length by omega), Option.getD_some]
  norm_num

/-- C11. Primitive decoders: for every buffer and offset, `decodeUint16` returns the overflow
error exactly when `offset + 2 > len(buffer)` (and returns no error otherwise); when
`offset + 2 ≤ len(buffer)` the bytes `b0`, `b1` at `offset`, `offset + 1` exist and the result is
the value `b0 * 256 + b1` with the new offset `offset + 2`.  The same holds for `decodeUint32`
with 4 in place of 2, the value being `b0 * 256^3 + b1 * 256^2 + b2 * 256 + b3`. -/
theorem primitive_decoders (data : Bytes) (offset : Nat) :
    ((decodeUint16 data offset).2.2 = some .uint16Overflow ↔ offset + 2 > data.length) ∧
    ((decodeUint16 data offset).2.2 = none ↔ offset + 2 ≤ data.length) ∧
    (offset + 2 ≤ data.length →
      ∃ b0 b1, data[offset]? = some b0 ∧ data[offset + 1]? = some b1 ∧
        decodeUint16 data offset = (b0 * 256 + b1, offset + 2, none)) ∧
    ((decodeUint32 data offset).2.2 = some .uint32Overflow ↔ offset + 4 > data.length) ∧
    ((decodeUint32 data offset).2.2 = none ↔ offset + 4 ≤ data.length) ∧
    (offset + 4 ≤ data.length →
      ∃ b0 b1 b2 b3, data[offset]? = some b0 ∧ data[offset + 1]? = some b1 ∧
        data[offset + 2]? = some b2 ∧ data[offset + 3]? = some b3 ∧
        decodeUint32 data offset
          = (b0 * 256 ^ 3 + b1 * 256 ^ 2 + b2 * 256 + b3, offset + 4, none)) ∧
    DnsError.uint16Overflow.message = "Error unpacking Uint16: Overflow" ∧
    DnsError.uint32Overflow.message = "Error unpacking Uint32: Overflow" := by
  refine ⟨?_, ?_, decodeUint16_in_range data offset, ?_, ?_, decodeUint32_in_range data offset,
    rfl, rfl⟩
  · by_cases h : offset + 2 > data.length <;> simp [decodeUint16, h]
  · by_cases h : offset + 2 > data.length
    · simp [decodeUint16, h]
    · simp only [decodeUint16, h, if_false, true_iff]; omega
  · by_cases h : offset + 4 > data.length <;> simp [decodeUint32, h]
  · by_cases h : offset + 4 > data.length
    · simp [decodeUint32, h]
    · simp only [decodeUint32, h, if_false, true_iff]; omega

/-- In the buffer `DE AD BE EF 01` the 16 bit value at offset 3 is `0xEF01` and the 32 bit value
at offset 1 is `0xADBEEF01`; at offset 4 the 16 bit read overflows. -/
theorem primitive_decoders_witness :
    decodeUint16 [0xDE, 0xAD, 0xBE, 0xEF, 0x01] 3 = (0xEF01, 5, none) ∧
    decodeUint32 [0xDE, 0xAD, 0xBE, 0xEF, 0x01] 1 = (0xADBEEF01, 5, none) ∧
    (decodeUint16 [0xDE, 0xAD, 0xBE, 0xEF, 0x01] 4).2.2 = some .uint16Overflow := by
  have h := primitive_decoders [0xDE, 0xAD, 0xBE, 0xEF, 0x01] 4
  exact ⟨by decide, by decide, h.1.mpr (by decide)⟩

/-! ## Header decoding -/

set_option maxRecDepth 100000 in
theorem getBits_qr : ∀ b < 256, getBitsAtIdx b 0 1 = b >>> 7 := by decide

set_option maxRecDepth 100000 in
theorem getBits_opcode : ∀ b < 256, getBitsAtIdx b 1 4 = (b >>> 3) &&& 15 := by decide

set_option maxRecDepth 100000 in
theorem getBits_aa : ∀ b < 256, getBitsAtIdx b 5 1 = (b >>> 2) &&& 1 := by decide

set_option maxRecDepth 100000 in
theorem getBits_tc : ∀ b < 256, getBitsAtIdx b 6 1 = (b >>> 1) &&& 1 := by decide

set_option maxRecDepth 100000 in
theorem getBits_rd : ∀ b < 256, getBitsAtIdx b 7 1 = b &&& 1 := by decide

set_option maxRecDepth 100000 in
theorem getBits_z : ∀ b < 256, getBitsAtIdx b 1 3 = (b >>> 4) &&& 7 := by decide

set_option maxRecDepth 100000 in
theorem getBits_rcode : ∀ b < 256, getBitsAtIdx b 4 4 = b &&& 15 := by decide

theorem decodeHeader_fields (b0 b1 b2 b3 b4 b5 b6 b7 b8 b9 b10 b11 : Nat) (rest : Bytes)
    (d : Header) (h2 : b2 < 256) (h3 : b3 < 256) :
    DecodeHeader (b0 :: b1 :: b2 :: b3 :: b4 :: b5 :: b6 :: b7 :: b8 :: b9 :: b10 :: b11 :: rest)
        0 (some d) =
      .ret (some
        { ID := b0 * 256 + b1
          QR := b2 >>> 7
          OPCODE := (b2 >>> 3) &&& 15
          AA := (b2 >>> 2) &&& 1
          TC := (b2 >>> 1) &&& 1
          RD := b2 &&& 1
          RA := b3 >>> 7
          Z := (b3 >>> 4) &&& 7
          RCODE := b3 &&& 15
          QDCOUNT := b4 * 256 + b5
          ANCOUNT := b6 * 256 + b7
          NSCOUNT := b8 * 256 + b9
          ARCOUNT := b10 * 256 + b11 }, 12, none) := by
  have hlen : ¬ ((b0 :: b1 :: b2 :: b3 :: b4 :: b5 :: b6 :: b7 :: b8 :: b9 :: b10 :: b11
      :: rest).length < maxHeaderSize) := by
    simp only [List.length_cons, maxHeaderSize]; omega
  have e0 : decodeUint16 (b0 :: b1 :: b2 :: b3 :: b4 :: b5 :: b6 :: b7 :: b8 :: b9 :: b10 :: b11
      :: rest) 0 = (b0 * 256 + b1, 2, none) := decodeUint16_at [] _ b0 b1
  have e4 : decodeUint16 (b0 :: b1 :: b2 :: b3 :: b4 :: b5 :: b6 :: b7 :: b8 :: b9 :: b10 :: b11
      :: rest) 4 = (b4 * 256 + b5, 6, none) := decodeUint16_at [b0, b1, b2, b3] _ b4 b5
  have e6 : decodeUint16 (b0 :: b1 :: b2 :: b3 :: b4 :: b5 :: b6 :: b7 :: b8 :: b9 :: b10 :: b11
      :: rest) 6 = (b6 * 256 + b7, 8, none) := decodeUint16_at [b0, b1, b2, b3, b4, b5] _ b6 b7
  have e8 : decodeUint16 (b0 :: b1 :: b2 :: b3 :: b4 :: b5 :: b6 :: b7 :: b8 :: b9 :: b10 :: b11
      :: rest) 8 = (b8 * 256 + b9, 10, none) :=
    decodeUint16_at [b0, b1, b2, b3, b4, b5, b6, b7] _ b8 b9
  have e10 : decodeUint16 (b0 :: b1 :: b2 :: b3 :: b4 :: b5 :: b6 :: b7 :: b8 :: b9 :: b10 :: b11
      :: rest) 10 = (b10 * 256 + b11, 12, none) :=
    decodeUint16_at [b0, b1, b2, b3, b4, b5, b6, b7, b8, b9] _ b10 b11
  have i2 : (b0 :: b1 :: b2 :: b3 :: b4 :: b5 :: b6 :: b7 :: b8 :: b9 :: b10 :: b11
      :: rest)[2]? = some b2 := rfl
  have i3 : (b0 :: b1 :: b2 :: b3 :: b4 :: b5 :: b6 :: b7 :: b8 :: b9 :: b10 :: b11
      :: rest)[3]? = some b3 := rfl
  simp only [DecodeHeader, hlen, if_false, e0, i2, Nat.reduceAdd, i3, e4, e6, e8, e10,
    getBits_qr b2 h2, getBits_opcode b2 h2, getBits_aa b2 h2, getBits_tc b2 h2,
    getBits_rd b2 h2, getBits_qr b3 h3, getBits_z b3 h3, getBits_rcode b3 h3]

/-- C12. Header decoding: for every buffer of at least 12 bytes `b0 … b11` followed by anything,
`DecodeHeader` at offset 0 into any non-nil destination returns cursor 12 and no error and
leaves `ID = b0*256+b1`, `QR = b2 >> 7`, `OPCODE = (b2 >> 3) & 15`, `AA = (b2 >> 2) & 1`,
`TC = (b2 >> 1) & 1`, `RD = b2 & 1`, `RA = b3 >> 7`, `Z = (b3 >> 4) & 7`, `RCODE = b3 & 15`,
`QDCOUNT = b4*256+b5`, `ANCOUNT = b6*256+b7`, `NSCOUNT = b8*256+b9`, `ARCOUNT = b10*256+b11`
(`b2` and `b3` being bytes). -/
theorem header_decode_fields (b0 b1 b2 b3 b4 b5 b6 b7 b8 b9 b10 b11 : Nat) (rest : Bytes)
    (d : Header) (h2 : b2 < 256) (h3 : b3 < 256) :
    DecodeHeader (b0 :: b1 :: b2 :: b3 :: b4 :: b5 :: b6 :: b7 :: b8 :: b9 :: b10 :: b11 :: rest)
        0 (some d) =
      .ret (some
        { ID := b0 * 256 + b1
          QR := b2 >>> 7
          OPCODE := (b2 >>> 3) &&& 15
          AA := (b2 >>> 2) &&& 1
          TC := (b2 >>> 1) &&& 1
          RD := b2 &&& 1
          RA := b3 >>> 7
          Z := (b3 >>> 4) &&& 7
          RCODE := b3 &&& 15
          QDCOUNT := b4 * 256 + b5
          ANCOUNT := b6 * 256 + b7
          NSCOUNT := b8 * 256 + b9
          ARCOUNT := b10 * 256 + b11 }, 12, none) :=
  decodeHeader_fields b0 b1 b2 b3 b4 b5 b6 b7 b8 b9 b10 b11 rest d h2 h3

/-- The header bytes `00 01 81 80 00 01 00 01 00 00 00 00` decode to ID=1, QR=1, OPCODE=0, AA=0,
TC=0, RD=1, RA=1, Z=0, RCODE=0, QDCOUNT=1, ANCOUNT=1, NSCOUNT=0, ARCOUNT=0. -/
theorem header_decode_fields_witness :
    DecodeHeader [0x00, 0x01, 0x81, 0x80, 0x00, 0x01, 0x00, 0x01, 0x00, 0x00, 0x00, 0x00] 0
        (some Header.zero) =
      .ret (some ⟨1, 1, 0, 0, 0, 1, 1, 0, 0, 1, 1, 0, 0⟩, 12, none) :=
  header_decode_fields 0x00 0x01 0x81 0x80 0x00 0x01 0x00 0x01 0x00 0x00 0x00 0x00 []
    Header.zero (by decide) (by decide)

set_option maxRecDepth 100000 in
theorem resBytes1_of_bits : ∀ b < 256,
    resBytes1 (b >>> 7) ((b >>> 3) &&& 15) ((b >>> 2) &&& 1) ((b >>> 1) &&& 1) (b &&& 1) = b := by
  decide

set_option maxRecDepth 100000 in
theorem resBytes2_of_bits : ∀ b < 256,
    resBytes2 (b >>> 7) ((b >>> 4) &&& 7) (b &&& 15) = b := by
  decide

theorem writeUint16BE_of_bytes (a b : Nat) (ha : a < 256) (hb : b < 256) :
    writeUint16BE (a * 256 + b) = [a, b] := by
  have h1 : (a * 256 + b) / 256 % 256 = a := by omega
  have h2 : (a * 256 + b) % 256 = b := by omega
  simp only [writeUint16BE, h1, h2]

/-- C14. Header decoding is a passive observer: for every buffer of exactly 12 bytes (any bit
pattern), `DecodeHeader` at offset 0 succeeds with some header `h`, `Header.Encode` of `h`
returns exactly the 12 bytes, and `h.Z` is the three bits 1..3 of the fourth octet,
`(b3 >> 4) & 7`, whatever they are. -/
theorem header_decode_encode (b0 b1 b2 b3 b4 b5 b6 b7 b8 b9 b10 b11 : Nat) (d : Header)
    (hb : ∀ b ∈ [b0, b1, b2, b3, b4, b5, b6, b7, b8, b9, b10, b11], b < 256) :
    ∃ h : Header,
      DecodeHeader [b0, b1, b2, b3, b4, b5, b6, b7, b8, b9, b10, b11] 0 (some d)
        = .ret (some h, 12, none) ∧
      Header.Encode h = ([b0, b1, b2, b3, b4, b5, b6, b7, b8, b9, b10, b11], none) ∧
      h.Z = (b3 >>> 4) &&& 7 := by
  have c0 := hb b0 (by simp)
  have c1 := hb b1 (by simp)
  have c2 := hb b2 (by simp)
  have c3 := hb b3 (by simp)
  have c4 := hb b4 (by simp)
  have c5 := hb b5 (by simp)
  have c6 := hb b6 (by simp)
  have c7 := hb b7 (by simp)
  have c8 := hb b8 (by simp)
  have c9 := hb b9 (by simp)
  have c10 := hb b10 (by simp)
  have c11 := hb b11 (by simp)
  refine ⟨_, decodeHeader_fields b0 b1 b2 b3 b4 b5 b6 b7 b8 b9 b10 b11 [] d c2 c3, ?_, rfl⟩
  simp only [Header.Encode, resBytes1_of_bits b2 c2, resBytes2_of_bits b3 c3,
    writeUint16BE_of_bytes b0 b1 c0 c1, writeUint16BE_of_bytes b4 b5 c4 c5,
    writeUint16BE_of_bytes b6 b7 c6 c7, writeUint16BE_of_bytes b8 b9 c8 c9,
    writeUint16BE_of_bytes b10 b11 c10 c11, List.cons_append, List.nil_append]

/-- A header with all flag bits set, the reserved Z bits included, and OPCODE = RCODE = 15 is
decoded and re-encoded to the same 12 bytes. -/
theorem header_decode_encode_witness :
    ∃ h : Header,
      DecodeHeader [0xAB, 0xCD, 0xFF, 0xFF, 0x12, 0x34, 0x56, 0x78, 0x9A, 0xBC, 0xDE, 0xF0] 0
        (some Header.zero) = .ret (some h, 12, none) ∧
      Header.Encode h
        = ([0xAB, 0xCD, 0xFF, 0xFF, 0x12, 0x34, 0x56, 0x78, 0x9A, 0xBC, 0xDE, 0xF0], none) ∧
      h.Z = (0xFF >>> 4) &&& 7 :=
  header_decode_encode 0xAB 0xCD 0xFF 0xFF 0x12 0x34 0x56 0x78 0x9A 0xBC 0xDE 0xF0 Header.zero
    (by decide)

/-- When the whole buffer is shorter than 12 bytes, `DecodeHeader` returns the ShortHeader error
with cursor 0 and the destination untouched, whatever the start offset. -/
theorem decodeHeader_short (data : Bytes) (bytesRead : Nat) (d : Header)
    (h : data.length < 12) :
    DecodeHeader data bytesRead (some d) = .ret (some d, 0, some (.shortHeader data.length)) := by
  simp only [DecodeHeader, maxHeaderSize, h, if_true]

/-- Start offsets other than 0, which no call in the program passes (`DecodeMessage` calls
`DecodeHeader(data, 0, …)`): on the 12 byte buffer
`00 01 81 80 00 01 00 01 00 00 00 00` the length guard of `DecodeHeader` passes at every start
offset.  At offset 10 (2 bytes available) the call ends in a run-time panic, indexing the buffer
at offset 12.  At offset 11 (1 byte available) it returns the Uint16 overflow error, not
ShortHeader, with cursor 12, and has overwritten the destination's ID 7 with 0.  At offset 1
(11 bytes available) it returns the Uint16 overflow error with cursor 12 after overwriting ID,
QR, QDCOUNT and ANCOUNT of the destination. -/
theorem short_header_offset_unchecked :
    DecodeHeader [0x00, 0x01, 0x81, 0x80, 0x00, 0x01, 0x00, 0x01, 0x00, 0x00, 0x00, 0x00] 10
        (some Header.zero) = .panic ∧
    DecodeHeader [0x00, 0x01, 0x81, 0x80, 0x00, 0x01, 0x00, 0x01, 0x00, 0x00, 0x00, 0x00] 11
        (some ⟨7, 0, 0, 0, 0, 0, 0, 0, 0, 0, 0, 0, 0⟩)
      = .ret (some ⟨0, 0, 0, 0, 0, 0, 0, 0, 0, 0, 0, 0, 0⟩, 12, some .uint16Overflow) ∧
    DecodeHeader [0x00, 0x01, 0x81, 0x80, 0x00, 0x01, 0x00, 0x01, 0x00, 0x00, 0x00, 0x00] 1
        (some Header.zero)
      = .ret (some ⟨385, 1, 0, 0, 0, 0, 0, 0, 0, 256, 256, 0, 0⟩, 12, some .uint16Overflow) := by
  refine ⟨by decide, by decide, by decide⟩

/-! ## Question encoding -/

theorem length_splitOnP_go (p : Nat → Bool) (xs : Bytes) :
    ∀ acc : Bytes, (List.splitOnP.go p xs acc).length = xs.countP p + 1 := by
  induction xs with
  | nil => intro acc; simp [List.splitOnP.go]
  | cons x xs ih =>
    intro acc
    by_cases hx : p x = true
    · simp [List.splitOnP.go, hx, ih]
    · simp [List.splitOnP.go, hx, ih]

theorem length_splitDots (s : Bytes) : (splitDots s).length = s.count 46 + 1 := by
  simp only [splitDots, List.splitOn, List.splitOnP, length_splitOnP_go, List.count]

theorem splitDots_short_iff (s : Bytes) : (splitDots s).length < 2 ↔ 46 ∉ s := by
  rw [length_splitDots, ← List.count_eq_zero]
  omega

theorem encode_loop_error (ls : List Bytes) :
    ∀ buf : Bytes,
      ((Question.Encode.loop ls buf).2 = some .emptyLabel ↔ ∃ l ∈ ls, l = []) ∧
      ((Question.Encode.loop ls buf).2 = none ↔ ∀ l ∈ ls, l ≠ []) := by
  induction ls with
  | nil => intro buf; simp [Question.Encode.loop]
  | cons l ls ih =>
    intro buf
    by_cases hl : l.length = 0
    · have hl' : l = [] := List.length_eq_zero.mp hl
      simp [Question.Encode.loop, hl']
    · have hl' : l ≠ [] := fun h => hl (by simp [h])
      have := ih (buf ++ [l.length % 256] ++ l)
      simp only [Question.Encode.loop, hl, if_false, this.1, this.2, List.mem_cons,
        exists_eq_or_imp, forall_eq_or_imp, hl', false_or, not_false_eq_true, true_and,
        ne_eq, and_self]

/-- C15. Question.Encode rejection rule: for every question, `Encode` fails with MalformedQName
exactly when QNAME contains no `.`; when QNAME contains a `.`, it fails with EmptyLabel exactly
when some dot-separated label is empty, and succeeds exactly when none is; no other error
occurs and the length of a label plays no part.  In particular `a.b.`, `.a.b` and `a..b` are
rejected with EmptyLabel, the empty name and `ab` with MalformedQName, and `longLabelName`,
whose first label has 64 bytes, is accepted. -/
theorem question_encode_rejection (q : Question) :
    ((Question.Encode q).2 = some .malformedQName ↔ 46 ∉ q.QNAME) ∧
    (46 ∈ q.QNAME →
      ((Question.Encode q).2 = some .emptyLabel ↔ ∃ l ∈ splitDots q.QNAME, l = [])) ∧
    (46 ∈ q.QNAME → ((Question.Encode q).2 = none ↔ ∀ l ∈ splitDots q.QNAME, l ≠ [])) ∧
    DnsError.malformedQName.message = "Malformed QName field" ∧
    DnsError.emptyLabel.message = "Malformed label found, must not be 0 length" ∧
    (Question.Encode ⟨[0x61, 46, 0x62, 46], 1, 1⟩).2 = some .emptyLabel ∧
    (Question.Encode ⟨[46, 0x61, 46, 0x62], 1, 1⟩).2 = some .emptyLabel ∧
    (Question.Encode ⟨[0x61, 46, 46, 0x62], 1, 1⟩).2 = some .emptyLabel ∧
    (Question.Encode ⟨[], 1, 1⟩).2 = some .malformedQName ∧
    (Question.Encode ⟨[0x61, 0x62], 1, 1⟩).2 = some .malformedQName ∧
    (Question.Encode ⟨longLabelName, 1, 1⟩).2 = none := by
  have hloop := encode_loop_error (splitDots q.QNAME) []
  refine ⟨?_, ?_, ?_, rfl, rfl, by decide, by decide, by decide, by decide, by decide,
    by decide⟩
  · by_cases h : (splitDots q.QNAME).length < minimumQnameLen
    · have h' : 46 ∉ q.QNAME := (splitDots_short_iff _).mp (by simpa [minimumQnameLen] using h)
      simp [Question.Encode, h, h']
    · have h' : ¬ (46 ∉ q.QNAME) := fun hn =>
        h (by simpa [minimumQnameLen] using (splitDots_short_iff _).mpr hn)
      simp only [Question.Encode, h, if_false, h', iff_false]
      cases hr : Question.Encode.loop (splitDots q.QNAME) [] with
      | mk buf e =>
        cases e with
        | none => simp
        | some err =>
          have : err = .emptyLabel := by
            by_contra hne
            have h1 := hloop.2
            have h2 := hloop.1
            rw [hr] at h1 h2
            simp only [reduceCtorEq, false_iff, not_forall, Option.some.injEq] at h1 h2
            obtain ⟨l, hl, hl0⟩ := h1
            exact hne (h2.mpr ⟨l, hl, by simpa using hl0⟩)
          simp [this]
  · intro hdot
    have h : ¬ (splitDots q.QNAME).length < minimumQnameLen := fun hn =>
      (splitDots_short_iff _).mp (by simpa [minimumQnameLen] using hn) hdot
    rw [← hloop.1]
    simp only [Question.Encode, h, if_false]
    cases hr : Question.Encode.loop (splitDots q.QNAME) [] with
    | mk buf e => cases e <;> simp
  · intro hdot
    have h : ¬ (splitDots q.QNAME).length < minimumQnameLen := fun hn =>
      (splitDots_short_iff _).mp (by simpa [minimumQnameLen] using hn) hdot
    rw [← hloop.2]
    simp only [Question.Encode, h, if_false]
    cases hr : Question.Encode.loop (splitDots q.QNAME) [] with
    | mk buf e => cases e <;> simp

/-- The name `a..b` contains a dot and has an empty label: it is rejected with EmptyLabel. -/
theorem question_encode_rejection_witness :
    (46 : Nat) ∈ [0x61, 46, 46, 0x62] ∧ (∃ l ∈ splitDots [0x61, 46, 46, 0x62], l = []) ∧
    (Question.Encode ⟨[0x61, 46, 46, 0x62], 7, 9⟩).2 = some .emptyLabel :=
  ⟨by decide, by decide,
    ((question_encode_rejection ⟨[0x61, 46, 46, 0x62], 7, 9⟩).2.1 (by decide)).mpr (by decide)⟩

theorem length_dottedName (ls : List Bytes) : (dottedName ls).length = wireSize ls := by
  induction ls with
  | nil => rfl
  | cons l ls ih => simp [dottedName, wireSize, ih]; omega

theorem splitDots_ne_nil (s : Bytes) : splitDots s ≠ [] := by
  intro h
  have := length_splitDots s
  rw [h] at this
  simp at this

theorem wireSize_splitDots (s : Bytes) : wireSize (splitDots s) = s.length + 1 := by
  rw [← length_dottedName, ← joinLabels_append_dot _ (splitDots_ne_nil s), joinLabels, splitDots,
    List.intercalate_splitOn]
  simp

theorem encode_loop_octets (ls : List Bytes) :
    ∀ buf : Bytes, (∀ l ∈ ls, 1 ≤ l.length ∧ l.length ≤ 255) →
      Question.Encode.loop ls buf = (buf ++ wireLabels ls, none) := by
  induction ls with
  | nil => intro buf _; simp [Question.Encode.loop, wireLabels]
  | cons l ls ih =>
    intro buf hls
    have hl := hls l (by simp)
    have hls' : ∀ l' ∈ ls, 1 ≤ l'.length ∧ l'.length ≤ 255 := fun l' h' => hls l' (by simp [h'])
    have h0 : l.length ≠ 0 := by omega
    have hm : l.length % 256 = l.length := by omega
    rw [Question.Encode.loop, if_neg h0, ih _ hls', hm]
    simp [wireLabels]

/-- C16. Question wire format: for every question whose QNAME splits on `.` into at least 2
labels, each of 1 to 255 bytes, and whose QTYPE and QCLASS are 16 bit values, `Question.Encode`
returns without error, in order, every label preceded by one octet equal to its length, one zero
octet, the two bytes of QTYPE and the two bytes of QCLASS, high byte first; the output has
`len(QNAME) + 6` bytes; and the length octet of a label of at most 63 bytes has its top two bits
clear, so it is not a compression pointer. -/
theorem question_wire_format (q : Question)
    (hn : 2 ≤ (splitDots q.QNAME).length)
    (hls : ∀ l ∈ splitDots q.QNAME, 1 ≤ l.length ∧ l.length ≤ 255)
    (ht : q.QTYPE < 65536) (hc : q.QCLASS < 65536) :
    Question.Encode q =
      (wireLabels (splitDots q.QNAME) ++ [0x00] ++ [q.QTYPE / 256, q.QTYPE % 256]
        ++ [q.QCLASS / 256, q.QCLASS % 256], none) ∧
    (Question.Encode q).1.length = q.QNAME.length + 6 ∧
    (∀ l ∈ splitDots q.QNAME, l.length ≤ 63 → l.length &&& 0xC0 = 0) := by
  have hlen : ¬ (splitDots q.QNAME).length < minimumQnameLen := by
    simp only [minimumQnameLen]; omega
  have h1 : q.QTYPE / 256 % 256 = q.QTYPE / 256 := by omega
  have h2 : q.QCLASS / 256 % 256 = q.QCLASS / 256 := by omega
  have henc : Question.Encode q =
      (wireLabels (splitDots q.QNAME) ++ [0x00] ++ [q.QTYPE / 256, q.QTYPE % 256]
        ++ [q.QCLASS / 256, q.QCLASS % 256], none) := by
    simp only [Question.Encode, hlen, if_false, encode_loop_octets _ [] hls, List.nil_append,
      writeUint16BE, h1, h2]
  refine ⟨henc, ?_, fun l _ hl => land_C0_of_lt_64 _ (by omega)⟩
  rw [henc]
  simp only [List.length_append, length_wireLabels, wireSize_splitDots, List.length_cons,
    List.length_nil]

/-- The question `www.example.com`, type 1, class 1, encodes to 21 bytes:
`03 www 07 example 03 com 00 00 01 00 01`. -/
theorem question_wire_format_witness :
    2 ≤ (splitDots [119, 119, 119, 46, 101, 120, 97, 109, 112, 108, 101, 46, 99, 111,
      109]).length ∧
    Question.Encode ⟨[119, 119, 119, 46, 101, 120, 97, 109, 112, 108, 101, 46, 99, 111, 109], 1,
        1⟩ =
      ([3, 119, 119, 119, 7, 101, 120, 97, 109, 112, 108, 101, 3, 99, 111, 109, 0, 0, 1, 0, 1],
        none) ∧
    (Question.Encode ⟨[119, 119, 119, 46, 101, 120, 97, 109, 112, 108, 101, 46, 99, 111, 109],
      1, 1⟩).1.length = 15 + 6 :=
  ⟨by decide,
    (question_wire_format ⟨[119, 119, 119, 46, 101, 120, 97, 109, 112, 108, 101, 46, 99, 111,
      109], 1, 1⟩ (by decide) (by decide) (by decide) (by decide)).1,
    (question_wire_format ⟨[119, 119, 119, 46, 101, 120, 97, 109, 112, 108, 101, 46, 99, 111,
      109], 1, 1⟩ (by decide) (by decide) (by decide) (by decide)).2.1⟩

/-! ## Message encoding -/

/-- C17. RR.Encode always fails: for every resource record, `RR.Encode` returns an empty byte
sequence and the error whose text is `RR encoding not implemented`. -/
theorem rr_encode_always_fails (rr : RR) :
    RR.Encode rr = ([], some .rrEncodingNotImplemented) ∧
    DnsError.rrEncodingNotImplemented.message = "RR encoding not implemented" :=
  ⟨rfl, rfl⟩

theorem encode_loop_length (ls : List Bytes) :
    ∀ buf : Bytes, (Question.Encode.loop ls buf).2 = none →
      (Question.Encode.loop ls buf).1.length = buf.length + wireSize ls := by
  induction ls with
  | nil => intro buf _; simp [Question.Encode.loop, wireSize]
  | cons l ls ih =>
    intro buf h
    by_cases hl : l.length = 0
    · simp [Question.Encode.loop, hl] at h
    · simp only [Question.Encode.loop, hl, if_false] at h ⊢
      rw [ih _ h]
      simp only [List.length_append, List.length_cons, List.length_nil, wireSize]
      omega

theorem question_encode_length (q : Question) (h : (Question.Encode q).2 = none) :
    (Question.Encode q).1.length = q.QNAME.length + 6 := by
  by_cases hlen : (splitDots q.QNAME).length < minimumQnameLen
  · simp [Question.Encode, hlen] at h
  · simp only [Question.Encode, hlen, if_false] at h ⊢
    cases hr : Question.Encode.loop (splitDots q.QNAME) [] with
    | mk buf e =>
      rw [hr] at h
      cases e with
      | some err => simp at h
      | none =>
        have hl := encode_loop_length (splitDots q.QNAME) [] (by rw [hr])
        rw [hr] at hl
        simp only [List.length_nil, Nat.zero_add, wireSize_splitDots] at hl
        simp only [writeUint16BE, List.length_append, List.length_cons, List.length_nil, hl]

theorem header_encode_length (h : Header) : (Header.Encode h).1.length = 12 := by
  simp [Header.Encode, writeUint16BE]

theorem encode_questions_ok (qs : List Question) :
    ∀ data : Bytes, (∀ q ∈ qs, (Question.Encode q).2 = none) →
      Message.Encode.questions qs data
        = (data ++ (qs.map (fun q => (Question.Encode q).1)).flatten, none) := by
  induction qs with
  | nil => intro data _; simp [Message.Encode.questions]
  | cons q qs ih =>
    intro data h
    have hq := h q (by simp)
    have hqs : ∀ q' ∈ qs, (Question.Encode q').2 = none := fun q' h' => h q' (by simp [h'])
    cases hr : Question.Encode q with
    | mk qBytes e =>
      rw [hr] at hq
      simp only at hq
      subst hq
      simp only [Message.Encode.questions, hr, ih _ hqs, List.map_cons, List.flatten_cons,
        List.append_assoc]

theorem encode_questions_fail (pre post : List Question) (q : Question) (part : Bytes)
    (err : DnsError) (hpre : ∀ p ∈ pre, (Question.Encode p).2 = none)
    (hq : Question.Encode q = (part, some err)) :
    ∀ data : Bytes, Message.Encode.questions (pre ++ q :: post) data
      = (data ++ (pre.map (fun p => (Question.Encode p).1)).flatten ++ part, some err) := by
  induction pre with
  | nil => intro data; simp [Message.Encode.questions, hq]
  | cons p pre ih =>
    intro data
    have hp := hpre p (by simp)
    have hpre' : ∀ p' ∈ pre, (Question.Encode p').2 = none := fun p' h' => hpre p' (by simp [h'])
    cases hr : Question.Encode p with
    | mk pBytes e =>
      rw [hr] at hp
      simp only at hp
      subst hp
      show Message.Encode.questions (p :: (pre ++ q :: post)) data = _
      rw [Message.Encode.questions]
      simp only [hr]
      rw [ih hpre']
      simp only [List.map_cons, List.flatten_cons, List.append_assoc, hr]

theorem encode_records_nil (data : Bytes) : Message.Encode.records [] data = (data, none) := rfl

theorem encode_records_cons (rr : RR) (rrs : List RR) (data : Bytes) :
    Message.Encode.records (rr :: rrs) data = (data, some .rrEncodingNotImplemented) := by
  simp [Message.Encode.records, RR.Encode]

theorem encode_records_of_ne_nil (rrs : List RR) (data : Bytes) (h : rrs ≠ []) :
    Message.Encode.records rrs data = (data, some .rrEncodingNotImplemented) := by
  cases rrs with
  | nil => exact absurd rfl h
  | cons rr rrs => exact encode_records_cons rr rrs data

theorem message_encode_unfold (m : Message) :
    Message.Encode m =
      match Message.Encode.questions m.Questions (Header.Encode m.Header).1 with
      | (data, some err) => (data, some err)
      | (data, none) =>
        match Message.Encode.records m.Answers data with
        | (data, some err) => (data, some err)
        | (data, none) =>
          match Message.Encode.records m.Authority data with
          | (data, some err) => (data, some err)
          | (data, none) =>
            match Message.Encode.records m.Additional data with
            | (data, some err) => (data, some err)
            | (data, none) => (data, none) := by
  simp only [Message.Encode, Header.Encode]

theorem message_encode_ok (m : Message)
    (hAn : m.Answers = []) (hAu : m.Authority = []) (hAd : m.Additional = [])
    (hq : ∀ q ∈ m.Questions, (Question.Encode q).2 = none) :
    Message.Encode m =
      ((Header.Encode m.Header).1 ++ (m.Questions.map (fun q => (Question.Encode q).1)).flatten,
        none) := by
  rw [message_encode_unfold, encode_questions_ok _ _ hq, hAn, hAu, hAd]
  simp only [encode_records_nil]

/-- C18. Message.Encode on success: for every message whose Answers, Authority and Additional
sections are empty and all of whose questions encode without error, `Message.Encode` returns no
error and the bytes of `Header.Encode` (12 of them) followed by the outputs of
`Question.Encode` for the questions in list order; the output has
`12 + sum (len(QNAME) + 6)` bytes. -/
theorem message_encode_success (m : Message)
    (hAn : m.Answers = []) (hAu : m.Authority = []) (hAd : m.Additional = [])
    (hq : ∀ q ∈ m.Questions, (Question.Encode q).2 = none) :
    Message.Encode m =
      ((Header.Encode m.Header).1 ++ (m.Questions.map (fun q => (Question.Encode q).1)).flatten,
        none) ∧
    (Header.Encode m.Header).1.length = 12 ∧
    (Message.Encode m).1.length = 12 + (m.Questions.map (fun q => q.QNAME.length + 6)).sum := by
  have henc := message_encode_ok m hAn hAu hAd hq
  refine ⟨henc, header_encode_length _, ?_⟩
  rw [henc]
  simp only [List.length_append, header_encode_length, List.length_flatten, List.map_map]
  congr 2
  apply List.map_congr_left
  intro q hqm
  exact question_encode_length q (hq q hqm)

/-- A query message with the two questions `a.b` and `c.d` encodes to the 12 header bytes
followed by the two question encodings, 30 bytes in all. -/
theorem message_encode_success_witness :
    Message.Encode ⟨0, 0, ⟨0xBEEF, 0, 0, 0, 0, 1, 0, 0, 0, 2, 0, 0, 0⟩,
        [⟨[0x61, 46, 0x62], 1, 1⟩, ⟨[0x63, 46, 0x64], 28, 1⟩], [], [], []⟩ =
      ([0xBE, 0xEF, 0x01, 0x00, 0x00, 0x02, 0x00, 0x00, 0x00, 0x00, 0x00, 0x00,
        1, 0x61, 1, 0x62, 0, 0, 1, 0, 1, 1, 0x63, 1, 0x64, 0, 0, 28, 0, 1], none) :=
  (message_encode_success ⟨0, 0, ⟨0xBEEF, 0, 0, 0, 0, 1, 0, 0, 0, 2, 0, 0, 0⟩,
    [⟨[0x61, 46, 0x62], 1, 1⟩, ⟨[0x63, 46, 0x64], 28, 1⟩], [], [], []⟩ rfl rfl rfl
    (by decide)).1

theorem encode_questions_none_iff (qs : List Question) :
    ∀ data : Bytes, (Message.Encode.questions qs data).2 = none ↔
      ∀ q ∈ qs, (Question.Encode q).2 = none := by
  induction qs with
  | nil => intro data; simp [Message.Encode.questions]
  | cons q qs ih =>
    intro data
    cases hr : Question.Encode q with
    | mk qBytes e =>
      cases e with
      | none => simp [Message.Encode.questions, hr, ih]
      | some err => simp [Message.Encode.questions, hr]

theorem message_encode_rr_error (m : Message)
    (hq : ∀ q ∈ m.Questions, (Question.Encode q).2 = none)
    (hrr : m.Answers ≠ [] ∨ m.Authority ≠ [] ∨ m.Additional ≠ []) :
    Message.Encode m =
      ((Header.Encode m.Header).1 ++ (m.Questions.map (fun q => (Question.Encode q).1)).flatten,
        some .rrEncodingNotImplemented) := by
  rw [message_encode_unfold, encode_questions_ok _ _ hq]
  by_cases hAn : m.Answers = []
  · by_cases hAu : m.Authority = []
    · have hAd : m.Additional ≠ [] := by
        rcases hrr with h | h | h
        · exact absurd hAn h
        · exact absurd hAu h
        · exact h
      simp only [hAn, hAu, encode_records_nil, encode_records_of_ne_nil _ _ hAd]
    · simp only [hAn, encode_records_nil, encode_records_of_ne_nil _ _ hAu]
  · simp only [encode_records_of_ne_nil _ _ hAn]

theorem message_encode_question_error (m : Message) (pre post : List Question) (q : Question)
    (part : Bytes) (err : DnsError) (hqs : m.Questions = pre ++ q :: post)
    (hpre : ∀ p ∈ pre, (Question.Encode p).2 = none)
    (hq : Question.Encode q = (part, some err)) :
    Message.Encode m =
      ((Header.Encode m.Header).1 ++ (pre.map (fun p => (Question.Encode p).1)).flatten ++ part,
        some err) := by
  rw [message_encode_unfold, hqs, encode_questions_fail pre post q part err hpre hq]

/-- C19. Message.Encode on failure: `Message.Encode` returns an error exactly when some question
fails to encode or one of Answers, Authority, Additional is non-empty.  When the questions
before some question `q` all encode and `q` fails with partial output `part` and error `err`,
the result is the header bytes, the encodings of the questions before `q`, then `part`, with the
error `err`, and nothing of the later entries.  When all questions encode and `rr` is the first
record of Answers, Authority, Additional taken in this order, the result is the header bytes,
the encodings of all questions, then the output of `RR.Encode` for `rr` (no bytes), with the
error of that `RR.Encode`. -/
theorem message_encode_failure (m : Message) :
    ((Message.Encode m).2 ≠ none ↔
      ((∃ q ∈ m.Questions, (Question.Encode q).2 ≠ none) ∨ m.Answers ≠ [] ∨ m.Authority ≠ []
        ∨ m.Additional ≠ [])) ∧
    (∀ (pre post : List Question) (q : Question) (part : Bytes) (err : DnsError),
      m.Questions = pre ++ q :: post →
      (∀ p ∈ pre, (Question.Encode p).2 = none) →
      Question.Encode q = (part, some err) →
      Message.Encode m =
        ((Header.Encode m.Header).1 ++ (pre.map (fun p => (Question.Encode p).1)).flatten
          ++ part, some err)) ∧
    ((∀ q ∈ m.Questions, (Question.Encode q).2 = none) →
      ∀ rr : RR, (m.Answers ++ m.Authority ++ m.Additional).head? = some rr →
      Message.Encode m =
        ((Header.Encode m.Header).1
          ++ (m.Questions.map (fun q => (Question.Encode q).1)).flatten ++ (RR.Encode rr).1,
          (RR.Encode rr).2)) := by
  refine ⟨?_, fun pre post q part err hqs hpre hq =>
      message_encode_question_error m pre post q part err hqs hpre hq,
    fun hq rr hrr => ?_⟩
  · by_cases hq : ∀ q ∈ m.Questions, (Question.Encode q).2 = none
    · by_cases hrr : m.Answers ≠ [] ∨ m.Authority ≠ [] ∨ m.Additional ≠ []
      · rw [message_encode_rr_error m hq hrr]
        simp only [ne_eq, reduceCtorEq, not_false_eq_true, true_iff]
        exact Or.inr hrr
      · have hAn : m.Answers = [] := by by_contra h; exact hrr (Or.inl h)
        have hAu : m.Authority = [] := by by_contra h; exact hrr (Or.inr (Or.inl h))
        have hAd : m.Additional = [] := by by_contra h; exact hrr (Or.inr (Or.inr h))
        rw [message_encode_ok m hAn hAu hAd hq]
        simp only [ne_eq, not_true_eq_false, false_iff, not_or, not_exists, not_and, not_not]
        exact ⟨hq, hAn, hAu, hAd⟩
    · have hq' : ∃ q ∈ m.Questions, (Question.Encode q).2 ≠ none := by
        by_contra h
        apply hq
        intro q hqm
        by_contra hne
        exact h ⟨q, hqm, hne⟩
      have hres : (Message.Encode.questions m.Questions (Header.Encode m.Header).1).2 ≠ none :=
        fun h => hq ((encode_questions_none_iff _ _).mp h)
      have hm : (Message.Encode m).2 ≠ none := by
        rw [message_encode_unfold]
        cases hr : Message.Encode.questions m.Questions (Header.Encode m.Header).1 with
        | mk data e =>
          rw [hr] at hres
          cases e with
          | none => exact absurd rfl hres
          | some err => simp
      exact ⟨fun _ => Or.inl hq', fun _ => hm⟩
  · have hne : m.Answers ≠ [] ∨ m.Authority ≠ [] ∨ m.Additional ≠ [] := by
      by_contra h
      simp only [not_or, not_not] at h
      rw [h.1, h.2.1, h.2.2] at hrr
      simp at hrr
    rw [message_encode_rr_error m hq hne]
    simp [RR.Encode]

/-- A message whose second question `a..b` has an empty label and that also carries an answer
record: encoding stops at the second question and returns the header, the first question and
the `01 61` already written for the second, with the EmptyLabel error. -/
theorem message_encode_failure_witness :
    Message.Encode ⟨0, 0, ⟨1, 0, 0, 0, 0, 1, 0, 0, 0, 2, 1, 0, 0⟩,
        [⟨[0x63, 46, 0x64], 1, 1⟩, ⟨[0x61, 46, 46, 0x62], 1, 1⟩], [RR.zero], [], []⟩ =
      ([0x00, 0x01, 0x01, 0x00, 0x00, 0x02, 0x00, 0x01, 0x00, 0x00, 0x00, 0x00,
        1, 0x63, 1, 0x64, 0, 0, 1, 0, 1, 1, 0x61], some .emptyLabel) :=
  (message_encode_failure ⟨0, 0, ⟨1, 0, 0, 0, 0, 1, 0, 0, 0, 2, 1, 0, 0⟩,
    [⟨[0x63, 46, 0x64], 1, 1⟩, ⟨[0x61, 46, 46, 0x62], 1, 1⟩], [RR.zero], [], []⟩).2.1
    [⟨[0x63, 46, 0x64], 1, 1⟩] [] ⟨[0x61, 46, 46, 0x62], 1, 1⟩ [1, 0x61] .emptyLabel rfl
    (by decide) (by decide)

/-! ## Resource record envelope -/

theorem decodeUint16_eq_be16At (data : Bytes) (offset : Nat) (h : offset + 2 ≤ data.length) :
    decodeUint16 data offset = (be16At data offset, offset + 2, none) := by
  have hlen : ¬ (offset + 2 > data.length) := by omega
  simp only [decodeUint16, hlen, if_false, be16At]

theorem decodeUint32_eq_be32At (data : Bytes) (offset : Nat) (h : offset + 4 ≤ data.length) :
    decodeUint32 data offset = (be32At data offset, offset + 4, none) := by
  have hlen : ¬ (offset + 4 > data.length) := by omega
  simp only [decodeUint32, hlen, if_false, be32At]
  norm_num

theorem decodeRR_envelope (fuel : Nat) (data : Bytes) (s e : Nat) (name : Bytes) (d : RR)
    (hname : getPrintableDomainStr fuel data s = .ret (name, e, none))
    (hlen : e + 10 ≤ data.length) :
    DecodeRR fuel data s (some d) =
      match getResourceDataFieldForResourceType fuel (be16At data e) data (e + 10)
              (be16At data (e + 8)) with
      | .outOfFuel => .outOfFuel
      | .panic => .panic
      | .ret (rdata, err) =>
        .ret (some ⟨name, be16At data e, be16At data (e + 2), be32At data (e + 4),
          be16At data (e + 8), rdata⟩, e + 10 + be16At data (e + 8), err) := by
  have h1 := decodeUint16_eq_be16At data e (by omega)
  have h2 := decodeUint16_eq_be16At data (e + 2) (by omega)
  have h3 := decodeUint32_eq_be32At data (e + 4) (by omega)
  have h4 := decodeUint16_eq_be16At data (e + 8) (by omega)
  simp only [Nat.add_assoc, Nat.reduceAdd] at h2 h3 h4
  simp only [DecodeRR, hname, h1, h2, h3, h4]

/-- C20. RR envelope decoding: when the owner name at offset `s` decodes without error ending at
cursor `e`, `e + 10 ≤ len(buffer)`, and the RDATA decoder selected by the type, started at
offset `e + 10` with the declared length, returns the value `rdata` without error, `DecodeRR`
returns no error and leaves NAME = the decoded name, TYPE = the big-endian 16 bit value at `e`,
CLASS = the one at `e + 2`, TTL = the big-endian 32 bit value at `e + 4`, RDLENGTH = the
big-endian 16 bit value at `e + 8` and RDATA = `rdata`. -/
theorem rr_envelope_decoding (fuel : Nat) (data : Bytes) (s e : Nat) (name : Bytes) (d : RR)
    (rdata : Option ResourceDataField)
    (hname : getPrintableDomainStr fuel data s = .ret (name, e, none))
    (hlen : e + 10 ≤ data.length)
    (hrdata : getResourceDataFieldForResourceType fuel (be16At data e) data (e + 10)
      (be16At data (e + 8)) = .ret (rdata, none)) :
    DecodeRR fuel data s (some d) =
      .ret (some ⟨name, be16At data e, be16At data (e + 2), be32At data (e + 4),
        be16At data (e + 8), rdata⟩, e + 10 + be16At data (e + 8), none) := by
  rw [decodeRR_envelope fuel data s e name d hname hlen, hrdata]

/-- An A record for the name `a`, class 1, TTL 9, with the four address bytes `5D B8 D8 22`,
stored after one unrelated byte, decodes field by field. -/
theorem rr_envelope_decoding_witness :
    getPrintableDomainStr 1
        [7, 1, 0x61, 0, 0, 1, 0, 1, 0, 0, 0, 9, 0, 4, 0x5D, 0xB8, 0xD8, 0x22] 1
      = .ret ([0x61, 46], 4, none) ∧
    DecodeRR 1 [7, 1, 0x61, 0, 0, 1, 0, 1, 0, 0, 0, 9, 0, 4, 0x5D, 0xB8, 0xD8, 0x22] 1
        (some RR.zero) =
      .ret (some ⟨[0x61, 46], 1, 1, 9, 4, some (.a (netIPv4 0x5D 0xB8 0xD8 0x22))⟩, 18, none) :=
  ⟨by decide,
    rr_envelope_decoding 1 [7, 1, 0x61, 0, 0, 1, 0, 1, 0, 0, 0, 9, 0, 4, 0x5D, 0xB8, 0xD8, 0x22]
      1 4 [0x61, 46] RR.zero (some (.a (netIPv4 0x5D 0xB8 0xD8 0x22))) (by decide) (by decide)
      (by decide)⟩

/-! ## Resource record data -/

/-- When the RDATA decoder returns, RDLENGTH drives the cursor: when the owner name at offset `s` decodes ending at cursor
`e`, `e + 10 ≤ len(buffer)`, and the RDATA decoder selected by the type returns, with a value or
with an error `err`, `DecodeRR` returns the cursor `e + 10 + RDLENGTH` together with `err`,
RDLENGTH being the big-endian 16 bit value at `e + 8`; the cursor does not depend on what the
RDATA decoder returned or read. -/
theorem rdlength_drives_cursor (fuel : Nat) (data : Bytes) (s e : Nat) (name : Bytes) (d : RR)
    (rdata : Option ResourceDataField) (err : Option DnsError)
    (hname : getPrintableDomainStr fuel data s = .ret (name, e, none))
    (hlen : e + 10 ≤ data.length)
    (hrdata : getResourceDataFieldForResourceType fuel (be16At data e) data (e + 10)
      (be16At data (e + 8)) = .ret (rdata, err)) :
    ∃ rr : RR, rr.RDLENGTH = be16At data (e + 8) ∧
      DecodeRR fuel data s (some d) = .ret (some rr, e + 10 + rr.RDLENGTH, err) := by
  refine ⟨⟨name, be16At data e, be16At data (e + 2), be32At data (e + 4), be16At data (e + 8),
    rdata⟩, rfl, ?_⟩
  rw [decodeRR_envelope fuel data s e name d hname hlen, hrdata]

/-- A CNAME record that declares RDLENGTH 1 while its name `b` takes 3 bytes is decoded with
cursor 13 + 1; an MX record that declares RDLENGTH 65535 and whose data is missing fails with
cursor 13 + 65535. -/
theorem rdlength_drives_cursor_witness :
    (∃ rr : RR, rr.RDLENGTH = 1 ∧
      DecodeRR 1 [1, 0x61, 0, 0, 5, 0, 1, 0, 0, 0, 0, 0, 1, 1, 0x62, 0] 0 (some RR.zero)
        = .ret (some rr, 3 + 10 + rr.RDLENGTH, none)) ∧
    (∃ rr : RR, rr.RDLENGTH = 65535 ∧
      DecodeRR 1 [1, 0x61, 0, 0, 15, 0, 1, 0, 0, 0, 0, 0xFF, 0xFF] 0 (some RR.zero)
        = .ret (some rr, 3 + 10 + rr.RDLENGTH, some .uint16Overflow)) :=
  ⟨rdlength_drives_cursor 1 [1, 0x61, 0, 0, 5, 0, 1, 0, 0, 0, 0, 0, 1, 1, 0x62, 0] 0 3
      [0x61, 46] RR.zero (some (.cname [0x62, 46])) none (by decide) (by decide) (by decide),
    rdlength_drives_cursor 1 [1, 0x61, 0, 0, 15, 0, 1, 0, 0, 0, 0, 0xFF, 0xFF] 0 3
      [0x61, 46] RR.zero none (some .uint16Overflow) (by decide) (by decide) (by decide)⟩

theorem decodeUint32_overflow (data : Bytes) (offset : Nat) (h : offset + 4 > data.length) :
    decodeUint32 data offset = (0, data.length, some .uint32Overflow) := by
  simp only [decodeUint32, h, if_true]

theorem newRDataSOA_ok (fuel : Nat) (data : Bytes) (r c1 c2 : Nat) (mname rname : Bytes)
    (hm : getPrintableDomainStr fuel data r = .ret (mname, c1, none))
    (hr : getPrintableDomainStr fuel data c1 = .ret (rname, c2, none))
    (hlen : c2 + 20 ≤ data.length) :
    NewRDataSOA fuel data r =
      .ret (some (.soa mname rname (be32At data c2) (be32At data (c2 + 4))
        (be32At data (c2 + 8)) (be32At data (c2 + 12)) (be32At data (c2 + 16))), none) := by
  have h0 := decodeUint32_eq_be32At data c2 (by omega)
  have h1 := decodeUint32_eq_be32At data (c2 + 4) (by omega)
  have h2 := decodeUint32_eq_be32At data (c2 + 8) (by omega)
  have h3 := decodeUint32_eq_be32At data (c2 + 12) (by omega)
  have h4 := decodeUint32_eq_be32At data (c2 + 16) (by omega)
  simp only [Nat.add_assoc, Nat.reduceAdd] at h1 h2 h3 h4
  simp only [NewRDataSOA, hm, hr, h0, h1, h2, h3, h4]

theorem newRDataSOA_short (fuel : Nat) (data : Bytes) (r c1 c2 : Nat) (mname rname : Bytes)
    (hm : getPrintableDomainStr fuel data r = .ret (mname, c1, none))
    (hr : getPrintableDomainStr fuel data c1 = .ret (rname, c2, none))
    (hlen : c2 + 20 > data.length) :
    NewRDataSOA fuel data r = .ret (none, some .uint32Overflow) := by
  simp only [NewRDataSOA, hm, hr]
  by_cases g0 : c2 + 4 ≤ data.length
  · have h0 := decodeUint32_eq_be32At data c2 g0
    by_cases g1 : c2 + 4 + 4 ≤ data.length
    · have h1 := decodeUint32_eq_be32At data (c2 + 4) g1
      by_cases g2 : c2 + 4 + 4 + 4 ≤ data.length
      · have h2 := decodeUint32_eq_be32At data (c2 + 4 + 4) g2
        by_cases g3 : c2 + 4 + 4 + 4 + 4 ≤ data.length
        · have h3 := decodeUint32_eq_be32At data (c2 + 4 + 4 + 4) g3
          have h4 := decodeUint32_overflow data (c2 + 4 + 4 + 4 + 4) (by omega)
          simp only [h0, h1, h2, h3, h4]
        · have h3 := decodeUint32_overflow data (c2 + 4 + 4 + 4) (by omega)
          simp only [h0, h1, h2, h3]
      · have h2 := decodeUint32_overflow data (c2 + 4 + 4) (by omega)
        simp only [h0, h1, h2]
    · have h1 := decodeUint32_overflow data (c2 + 4) (by omega)
      simp only [h0, h1]
  · have h0 := decodeUint32_overflow data c2 (by omega)
    simp only [h0]

/-- C24. SOA record RDATA: when `mname` decodes at `r` ending at `c1`, `rname` decodes at `c1`
ending at `c2` and `c2 + 20 ≤ len(buffer)`, `NewRDataSOA` returns without error the value with
these two names and serial, refresh, retry, expire, minimum equal to the big-endian 32 bit values
at `c2`, `c2+4`, `c2+8`, `c2+12`, `c2+16`.  When the decode of `mname` returns an error, or that
of `rname` does, `NewRDataSOA` returns that error and no value; when both names decode and fewer
than 20 bytes follow, it returns the Uint32 overflow error of the first 32 bit read that does
not fit, and no value. -/
theorem soa_rdata_decoding (fuel : Nat) (data : Bytes) (r : Nat) :
    (∀ (mname rname : Bytes) (c1 c2 : Nat),
      getPrintableDomainStr fuel data r = .ret (mname, c1, none) →
      getPrintableDomainStr fuel data c1 = .ret (rname, c2, none) →
      c2 + 20 ≤ data.length →
      NewRDataSOA fuel data r =
        .ret (some (.soa mname rname (be32At data c2) (be32At data (c2 + 4))
          (be32At data (c2 + 8)) (be32At data (c2 + 12)) (be32At data (c2 + 16))), none)) ∧
    (∀ (x : Bytes) (c : Nat) (err : DnsError),
      getPrintableDomainStr fuel data r = .ret (x, c, some err) →
      NewRDataSOA fuel data r = .ret (none, some err)) ∧
    (∀ (mname x : Bytes) (c1 c : Nat) (err : DnsError),
      getPrintableDomainStr fuel data r = .ret (mname, c1, none) →
      getPrintableDomainStr fuel data c1 = .ret (x, c, some err) →
      NewRDataSOA fuel data r = .ret (none, some err)) ∧
    (∀ (mname rname : Bytes) (c1 c2 : Nat),
      getPrintableDomainStr fuel data r = .ret (mname, c1, none) →
      getPrintableDomainStr fuel data c1 = .ret (rname, c2, none) →
      c2 + 20 > data.length →
      NewRDataSOA fuel data r = .ret (none, some .uint32Overflow)) := by
  refine ⟨fun mname rname c1 c2 hm hr hlen => newRDataSOA_ok fuel data r c1 c2 mname rname hm hr
      hlen, ?_, ?_, fun mname rname c1 c2 hm hr hlen =>
      newRDataSOA_short fuel data r c1 c2 mname rname hm hr hlen⟩
  · intro x c err hm
    simp only [NewRDataSOA, hm]
  · intro mname x c1 c err hm hr
    simp only [NewRDataSOA, hm, hr]

/-- The SOA data `01 6D 00 01 72 00` followed by the five values 1, 2, 3, 4, 5 decodes to the
names `m.` and `r.` and these values. -/
theorem soa_rdata_decoding_witness :
    NewRDataSOA 1 [9, 1, 0x6D, 0, 1, 0x72, 0, 0, 0, 0, 1, 0, 0, 0, 2, 0, 0, 0, 3, 0, 0, 0, 4,
        0, 0, 0, 5] 1 =
      .ret (some (.soa [0x6D, 46] [0x72, 46] 1 2 3 4 5), none) :=
  (soa_rdata_decoding 1 [9, 1, 0x6D, 0, 1, 0x72, 0, 0, 0, 0, 1, 0, 0, 0, 2, 0, 0, 0, 3, 0, 0, 0,
    4, 0, 0, 0, 5] 1).1 [0x6D, 46] [0x72, 46] 4 7 (by decide) (by decide) (by decide)

theorem rdataEnd_small (r n : Nat) (h : r + n < 65536) : rdataEnd r n = r + n := by
  simp only [rdataEnd]; omega

theorem sliceBytes_split (pre mid rest : Bytes) :
    sliceBytes (pre ++ mid ++ rest) pre.length (pre.length + mid.length) = .ret mid := by
  have h : pre.length ≤ pre.length + mid.length ∧
      pre.length + mid.length ≤ (pre ++ mid ++ rest).length := by
    simp only [List.length_append]; omega
  rw [sliceBytes, if_pos h]
  simp only [List.append_assoc, List.drop_left, Nat.add_sub_cancel_left, List.take_left]

theorem oversizeBuffer_length : oversizeBuffer.length = 65540 := by
  simp only [oversizeBuffer, List.length_replicate]

/-- Beyond the size of a DNS message: in `oversizeBuffer` (65540 bytes, more than the 65535 a
DNS message can have and than the 512 byte receive buffer of the client) the RDATA offset
r = 65536 with the declared length 4 satisfies `r + 4 ≤ len(buffer)`, and dispatching type A
there ends in a run-time panic: the upper slice bound `uint16(r) + 4` is 4, below the lower
bound 65536. -/
theorem a_record_rdata_oversize :
    65536 + 4 ≤ oversizeBuffer.length ∧
    ∀ fuel, getResourceDataFieldForResourceType fuel RecordTypeA oversizeBuffer 65536 4
      = .panic := by
  refine ⟨by rw [oversizeBuffer_length], fun fuel => ?_⟩
  have h : rdataEnd 65536 4 = 4 := by decide
  simp [getResourceDataFieldForResourceType, getResourceDataFieldForResourceTypeWith,
    sliceBytes, h]

theorem a_record_dispatch (fuel : Nat) (pre rest : Bytes) (b0 b1 b2 b3 : Nat)
    (hr : pre.length + 4 < 65536) :
    getResourceDataFieldForResourceType fuel RecordTypeA (pre ++ b0 :: b1 :: b2 :: b3 :: rest)
        pre.length 4 = .ret (some (.a (netIPv4 b0 b1 b2 b3)), none) ∧
    (ResourceDataField.a (netIPv4 b0 b1 b2 b3)).String =
      some (decimal b0 ++ [46] ++ decimal b1 ++ [46] ++ decimal b2 ++ [46] ++ decimal b3) := by
  refine ⟨?_, rfl⟩
  have hs := sliceBytes_split pre [b0, b1, b2, b3] rest
  simp only [List.length_cons, List.length_nil, Nat.zero_add, Nat.reduceAdd, List.append_assoc,
    List.cons_append, List.nil_append] at hs
  simp only [getResourceDataFieldForResourceType, getResourceDataFieldForResourceTypeWith,
    if_true, rdataEnd_small _ _ hr, hs, NewRDataA]

/-- C22. A record RDATA: for every buffer of at most 65535 bytes (the largest DNS message; the
client receives into 512 bytes), RDATA offset `r` (the length of `pre`) and declared length 4
with `r + 4 ≤ len(buffer)`, dispatching type A returns without error the value built from the
four bytes at `r … r+3`, and the text of that value is these four bytes in decimal, joined by
dots; the bytes `5D B8 D8 22` render as `93.184.216.34`. -/
theorem a_record_rdata (fuel : Nat) (pre rest : Bytes) (b0 b1 b2 b3 : Nat)
    (hmsg : (pre ++ b0 :: b1 :: b2 :: b3 :: rest).length ≤ 65535) :
    getResourceDataFieldForResourceType fuel RecordTypeA (pre ++ b0 :: b1 :: b2 :: b3 :: rest)
        pre.length 4 = .ret (some (.a (netIPv4 b0 b1 b2 b3)), none) ∧
    (ResourceDataField.a (netIPv4 b0 b1 b2 b3)).String =
      some (decimal b0 ++ [46] ++ decimal b1 ++ [46] ++ decimal b2 ++ [46] ++ decimal b3) ∧
    (ResourceDataField.a (netIPv4 0x5D 0xB8 0xD8 0x22)).String
      = some (ascii "93.184.216.34") := by
  have hr : pre.length + 4 < 65536 := by
    simp only [List.length_append, List.length_cons] at hmsg
    omega
  exact ⟨(a_record_dispatch fuel pre rest b0 b1 b2 b3 hr).1,
    (a_record_dispatch fuel pre rest b0 b1 b2 b3 hr).2, by decide⟩

/-- The RDATA bytes `5D B8 D8 22` at offset 2 of a 7 byte buffer render as `93.184.216.34`. -/
theorem a_record_rdata_witness :
    getResourceDataFieldForResourceType 0 RecordTypeA [7, 7, 0x5D, 0xB8, 0xD8, 0x22, 7] 2 4
      = .ret (some (.a (netIPv4 0x5D 0xB8 0xD8 0x22)), none) ∧
    (ResourceDataField.a (netIPv4 0x5D 0xB8 0xD8 0x22)).String = some (ascii "93.184.216.34") :=
  ⟨(a_record_rdata 0 [7, 7] [7] 0x5D 0xB8 0xD8 0x22 (by decide)).1,
    (a_record_rdata 0 [7, 7] [7] 0x5D 0xB8 0xD8 0x22 (by decide)).2.2⟩

/-- Beyond the size of a DNS message: in `oversizeBuffer` the RDATA offset r = 65536 with the
declared length 4 satisfies `r + 4 ≤ len(buffer)`, and dispatching type TXT there ends in a
run-time panic: the upper slice bound `uint16(r) + 4` is 4, below the lower bound 65537. -/
theorem txt_record_rdata_oversize :
    1 ≤ 4 ∧ 65536 + 4 ≤ oversizeBuffer.length ∧
    ∀ fuel, getResourceDataFieldForResourceType fuel RecordTypeTXT oversizeBuffer 65536 4
      = .panic := by
  refine ⟨by decide, by rw [oversizeBuffer_length], fun fuel => ?_⟩
  have h : rdataEnd 65536 4 = 4 := by decide
  simp [getResourceDataFieldForResourceType, getResourceDataFieldForResourceTypeWith,
    sliceBytes, h, RecordTypeTXT, RecordTypeA, RecordTypeAAAA]

theorem txt_record_dispatch (fuel : Nat) (pre rest text : Bytes) (p : Nat)
    (hr : pre.length + (text.length + 1) < 65536) :
    getResourceDataFieldForResourceType fuel RecordTypeTXT (pre ++ p :: text ++ rest)
        pre.length (text.length + 1) = .ret (some (.txt text), none) ∧
    (ResourceDataField.txt text).String = some text := by
  refine ⟨?_, rfl⟩
  have hs := sliceBytes_split (pre ++ [p]) text rest
  have e1 : (pre ++ [p]).length = pre.length + 1 := by simp
  have e2 : pre.length + 1 + text.length = pre.length + (text.length + 1) := by omega
  have e3 : pre ++ [p] ++ text ++ rest = pre ++ p :: text ++ rest := by simp
  rw [e1, e2, e3] at hs
  have hA : ¬ (RecordTypeTXT = RecordTypeA) := by decide
  have hAAAA : ¬ (RecordTypeTXT = RecordTypeAAAA) := by decide
  simp only [getResourceDataFieldForResourceType, getResourceDataFieldForResourceTypeWith,
    hA, hAAAA, if_false, if_true, rdataEnd_small _ _ hr, hs, NewRDataTXT]

/-- C23. TXT record RDATA: for every buffer of at most 65535 bytes (the largest DNS message; the
client receives into 512 bytes), RDATA offset `r` (the length of `pre`) and declared length
`n ≥ 1` with `r + n ≤ len(buffer)`, dispatching type TXT returns without error the value whose
text is the `n - 1` bytes at `r+1 … r+n-1`, whatever the first RDATA byte `p` is (later length
octets are part of the text), and `String` returns that text unchanged. -/
theorem txt_record_rdata (fuel : Nat) (pre rest text : Bytes) (p : Nat)
    (hmsg : (pre ++ p :: text ++ rest).length ≤ 65535) :
    getResourceDataFieldForResourceType fuel RecordTypeTXT (pre ++ p :: text ++ rest)
        pre.length (text.length + 1) = .ret (some (.txt text), none) ∧
    (ResourceDataField.txt text).String = some text := by
  have hr : pre.length + (text.length + 1) < 65536 := by
    simp only [List.length_append, List.length_cons] at hmsg
    omega
  exact txt_record_dispatch fuel pre rest text p hr

/-- A TXT RDATA of 5 bytes `02 68 69 01 21` at offset 1: the text is the 4 bytes after the first
one, the second length octet `01` included. -/
theorem txt_record_rdata_witness :
    getResourceDataFieldForResourceType 0 RecordTypeTXT [9, 2, 0x68, 0x69, 1, 0x21, 9] 1 5
      = .ret (some (.txt [0x68, 0x69, 1, 0x21]), none) ∧
    (ResourceDataField.txt [0x68, 0x69, 1, 0x21]).String = some [0x68, 0x69, 1, 0x21] :=
  txt_record_rdata 0 [9] [9] [0x68, 0x69, 1, 0x21] 2 (by decide)

theorem dispatch_default (isObsolete isNotImplemented : Nat → Bool) (fuel rrType : Nat)
    (data : Bytes) (bytesRead dataLen : Nat) (h : rrType ∉ [1, 2, 5, 6, 12, 15, 16, 28]) :
    getResourceDataFieldForResourceTypeWith isObsolete isNotImplemented fuel rrType data
        bytesRead dataLen =
      .ret (some (if isObsolete rrType then .obsolete
        else if isNotImplemented rrType then .notImplemented else .unknown rrType), none) := by
  simp only [List.mem_cons, List.mem_singleton, List.not_mem_nil, or_false, not_or] at h
  obtain ⟨h1, h2, h5, h6, h12, h15, h16, h28⟩ := h
  simp only [getResourceDataFieldForResourceTypeWith, RecordTypeA, RecordTypeAAAA, RecordTypeTXT,
    RecordTypeCNAME, RecordTypeNS, RecordTypeSOA, RecordTypeMX, RecordTypePTR, h1, h2, h5, h6,
    h12, h15, h16, h28, if_false, NewRDataObsolete, NewRDataNotImplemented, NewRDataUnknown]
  cases isObsolete rrType <;> cases isNotImplemented rrType <;> simp

/-- C25. Fallback dispatch, with the two classification functions as parameters: for every
record type other than 1, 2, 5, 6, 12, 15, 16, 28, and every step budget, buffer, offset and
declared length, the dispatch returns without error, and the same value whatever the buffer,
offset and length are: the Obsolete marker if the type is classified obsolete, otherwise the
NotImplemented marker if it is classified not implemented, otherwise the Unknown marker carrying
the type.  So type 13, when classified obsolete, yields the Obsolete marker, whose text is
`Not Implemented: Obsolete Record Type`; and type 999, when classified neither way, yields the
Unknown marker, whose text is `UNKNOWN RECORD TYPE: 999`. -/
theorem fallback_dispatch (isObsolete isNotImplemented : Nat → Bool) (fuel rrType : Nat)
    (data : Bytes) (bytesRead dataLen : Nat) (h : rrType ∉ [1, 2, 5, 6, 12, 15, 16, 28]) :
    getResourceDataFieldForResourceTypeWith isObsolete isNotImplemented fuel rrType data
        bytesRead dataLen =
      .ret (some (if isObsolete rrType then .obsolete
        else if isNotImplemented rrType then .notImplemented else .unknown rrType), none) ∧
    (isObsolete 13 = true →
      getResourceDataFieldForResourceTypeWith isObsolete isNotImplemented fuel 13 data
        bytesRead dataLen = .ret (some .obsolete, none)) ∧
    ResourceDataField.obsolete.String = some (ascii "Not Implemented: Obsolete Record Type") ∧
    ResourceDataField.notImplemented.String = some (ascii "Not Implemented") ∧
    (isObsolete 999 = false → isNotImplemented 999 = false →
      getResourceDataFieldForResourceTypeWith isObsolete isNotImplemented fuel 999 data
        bytesRead dataLen = .ret (some (.unknown 999), none)) ∧
    (ResourceDataField.unknown rrType).String
      = some (ascii "UNKNOWN RECORD TYPE: " ++ decimal rrType) ∧
    (ResourceDataField.unknown 999).String = some (ascii "UNKNOWN RECORD TYPE: 999") := by
  refine ⟨dispatch_default isObsolete isNotImplemented fuel rrType data bytesRead dataLen h,
    fun h13 => ?_, by decide, by decide, fun h1 h2 => ?_, rfl, by decide⟩
  · rw [dispatch_default isObsolete isNotImplemented fuel 13 data bytesRead dataLen (by decide)]
    simp only [h13, if_true]
  · rw [dispatch_default isObsolete isNotImplemented fuel 999 data bytesRead dataLen (by decide)]
    simp [h1, h2]

/-- With the classification read off the type registry of `const.go`, where HINFO (13) is marked
obsolete and 999 does not occur, `getResourceDataFieldForResourceType` yields the Obsolete
marker for type 13 and the Unknown marker carrying 999 for type 999, on an empty buffer. -/
theorem fallback_dispatch_witness :
    getResourceDataFieldForResourceType 0 13 [] 0 0 = .ret (some .obsolete, none) ∧
    getResourceDataFieldForResourceType 0 999 [] 0 0 = .ret (some (.unknown 999), none) :=
  ⟨(fallback_dispatch IsRecordTypeObsolete IsRecordTypeNotImplemented 0 13 [] 0 0
      (by decide)).2.1 (by decide),
    (fallback_dispatch IsRecordTypeObsolete IsRecordTypeNotImplemented 0 999 [] 0 0
      (by decide)).2.2.2.2.1 (by decide) (by decide)⟩

/-! ## Bit fields -/

theorem shift_amount (i w : Nat) (hw : 1 ≤ w) (hiw : i + w ≤ 8) :
    uintSub octetMaxIdx (uintAdd i (uintSub w 1)) = 8 - i - w := by
  simp only [uintSub, uintAdd, octetMaxIdx]
  omega

theorem byteShl_eq (v s : Nat) (hs : s < 8) : byteShl v s = (v % 2 ^ (8 - s)) * 2 ^ s := by
  have h8 : ¬ (8 ≤ s) := by omega
  have h256 : 256 = 2 ^ (8 - s) * 2 ^ s := by
    rw [← Nat.pow_add]
    have : 8 - s + s = 8 := by omega
    rw [this]
  simp only [byteShl, h8, if_false, Nat.shiftLeft_eq]
  rw [h256, Nat.mul_mod_mul_right]

theorem makeOctetMask_eq (w : Nat) (hw : w ≤ 8) : makeOctetMask w = 2 ^ w - 1 := by
  interval_cases w <;> decide

theorem byteShr_eq (b s : Nat) (hs : s < 8) : byteShr b s = b / 2 ^ s := by
  have h8 : ¬ (8 ≤ s) := by omega
  simp only [byteShr, h8, if_false, Nat.shiftRight_eq_div_pow]

theorem setBitsAtIdx_eq (v i w : Nat) (hw : 1 ≤ w) (hiw : i + w ≤ 8) :
    setBitsAtIdx v i w = (v % 2 ^ (i + w)) * 2 ^ (8 - i - w) := by
  rw [setBitsAtIdx, shift_amount i w hw hiw, byteShl_eq _ _ (by omega)]
  have : 8 - (8 - i - w) = i + w := by omega
  rw [this]

theorem getBitsAtIdx_eq (b i w : Nat) (hw : 1 ≤ w) (hiw : i + w ≤ 8) :
    getBitsAtIdx b i w = (b / 2 ^ (8 - i - w)) % 2 ^ w := by
  rw [getBitsAtIdx, shift_amount i w hw hiw, byteShr_eq _ _ (by omega),
    makeOctetMask_eq w (by omega), Nat.and_pow_two_sub_one_eq_mod]

/-- C28, counterexample. For v = 0xFF, bit index 5 and width 1, `setBitsAtIdx` returns `0xFC`:
the value is shifted left by 2 and not cut to its low bit, so bits 0 to 4, outside the field,
are set; `(v mod 2^1) * 2^(8-5-1)` is 4. -/
theorem setBits_counterexample :
    1 ≤ 1 ∧ 5 + 1 ≤ 8 ∧ setBitsAtIdx 0xFF 5 1 = 0xFC ∧ (0xFF % 2 ^ 1) * 2 ^ (8 - 5 - 1) = 4 ∧
    setBitsAtIdx 0xFF 5 1 ≠ (0xFF % 2 ^ 1) * 2 ^ (8 - 5 - 1) := by
  decide

/-- C28, amended. Bit-field packing: for every value v, bit index i and width w ≥ 1 with
i + w ≤ 8, `setBitsAtIdx(v, i, w)` is v shifted left by `8 - i - w` within the octet, that is
`(v mod 2^(i+w)) * 2^(8 - i - w)`: only the bits pushed past the top of the octet are lost.  For
v below `2^w` this is `v * 2^(8 - i - w)`, the octet that has v at bit positions i … i+w-1 and
every other bit zero. -/
theorem setBits_value (v i w : Nat) (hw : 1 ≤ w) (hiw : i + w ≤ 8) :
    setBitsAtIdx v i w = (v % 2 ^ (i + w)) * 2 ^ (8 - i - w) ∧
    (v < 2 ^ w → setBitsAtIdx v i w = v * 2 ^ (8 - i - w) ∧
      setBitsAtIdx v i w = (v % 2 ^ w) * 2 ^ (8 - i - w)) ∧
    setBitsAtIdx v i w < 256 := by
  have h := setBitsAtIdx_eq v i w hw hiw
  refine ⟨h, fun hv => ?_, ?_⟩
  · have hle : 2 ^ w ≤ 2 ^ (i + w) := Nat.pow_le_pow_right (by decide) (by omega)
    have h1 : v % 2 ^ (i + w) = v := Nat.mod_eq_of_lt (by omega)
    have h2 : v % 2 ^ w = v := Nat.mod_eq_of_lt hv
    rw [h, h1, h2]
    exact ⟨rfl, rfl⟩
  · rw [h]
    have h256 : 256 = 2 ^ (i + w) * 2 ^ (8 - i - w) := by
      rw [← Nat.pow_add]
      have : i + w + (8 - i - w) = 8 := by omega
      rw [this]
    rw [h256]
    exact Nat.mul_lt_mul_of_pos_right (Nat.mod_lt _ (Nat.pos_pow_of_pos _ (by decide)))
      (Nat.pos_pow_of_pos _ (by decide))

/-- The opcode 2 packed at bit index 1 with width 4 is `0x10`. -/
theorem setBits_value_witness :
    setBitsAtIdx 2 1 4 = 2 * 2 ^ (8 - 1 - 4) ∧ setBitsAtIdx 2 1 4 = 0x10 :=
  ⟨((setBits_value 2 1 4 (by decide) (by decide)).2.1 (by decide)).1, by decide⟩

/-- C29. Bit-field extraction inverts packing: for every value v, bit index i and width w ≥ 1
with i + w ≤ 8, `getBitsAtIdx(setBitsAtIdx(v, i, w), i, w) = v mod 2^w`, which is v when
`v < 2^w`; and for every b, `getBitsAtIdx(b, i, w)` is below `2^w` and equals
`(b / 2^(8 - i - w)) mod 2^w`; `getBitsAtIdx(0b10010010, 3, 3) = 0b100`. -/
theorem getBits_inverts_setBits (v b i w : Nat) (hw : 1 ≤ w) (hiw : i + w ≤ 8) :
    getBitsAtIdx (setBitsAtIdx v i w) i w = v % 2 ^ w ∧
    (v < 2 ^ w → getBitsAtIdx (setBitsAtIdx v i w) i w = v) ∧
    getBitsAtIdx b i w < 2 ^ w ∧
    getBitsAtIdx b i w = (b / 2 ^ (8 - i - w)) % 2 ^ w ∧
    getBitsAtIdx 0b10010010 3 3 = 0b100 := by
  have hpos : 0 < 2 ^ (8 - i - w) := Nat.pos_pow_of_pos _ (by decide)
  have hinv : getBitsAtIdx (setBitsAtIdx v i w) i w = v % 2 ^ w := by
    rw [getBitsAtIdx_eq _ i w hw hiw, setBitsAtIdx_eq v i w hw hiw, Nat.mul_div_cancel _ hpos]
    exact Nat.mod_mod_of_dvd v (Nat.pow_dvd_pow 2 (by omega))
  refine ⟨hinv, fun hv => ?_, ?_, getBitsAtIdx_eq b i w hw hiw, by decide⟩
  · rw [hinv, Nat.mod_eq_of_lt hv]
  · rw [getBitsAtIdx_eq b i w hw hiw]
    exact Nat.mod_lt _ (Nat.pos_pow_of_pos _ (by decide))

/-- Packing the value 0b10110 with width 3 at bit index 3 and extracting it again gives its low
three bits, 0b110. -/
theorem getBits_inverts_setBits_witness :
    getBitsAtIdx (setBitsAtIdx 0b10110 3 3) 3 3 = 0b110 :=
  (getBits_inverts_setBits 0b10110 0 3 3 (by decide) (by decide)).1.trans (by decide)

/-! ## Decoded questions -/

theorem splitOnP_go_append_sep (p : Nat → Bool) (x : Nat) (hx : p x = true) (s : Bytes) :
    ∀ acc : Bytes, List.splitOnP.go p (s ++ [x]) acc = List.splitOnP.go p s acc ++ [[]] := by
  induction s with
  | nil => intro acc; simp [List.splitOnP.go, hx]
  | cons a t ih =>
    intro acc
    by_cases ha : p a = true
    · simp [List.splitOnP.go, ha, ih]
    · simp [List.splitOnP.go, ha, ih]

theorem splitDots_append_dot (s : Bytes) : splitDots (s ++ [46]) = splitDots s ++ [[]] := by
  simp only [splitDots, List.splitOn, List.splitOnP]
  exact splitOnP_go_append_sep _ 46 (by simp) s []

theorem question_encode_trailing_dot (name : Bytes) (t c : Nat) :
    (Question.Encode ⟨name ++ [46], t, c⟩).2 = some .emptyLabel := by
  have hlen : ¬ (splitDots (name ++ [46])).length < minimumQnameLen := by
    rw [splitDots_append_dot, List.length_append, length_splitDots]
    simp only [minimumQnameLen, List.length_singleton]
    omega
  have hempty : ∃ l ∈ splitDots (name ++ [46]), l = [] :=
    ⟨[], by rw [splitDots_append_dot]; simp, rfl⟩
  have hloop := ((encode_loop_error (splitDots (name ++ [46])) []).1).mpr hempty
  simp only [Question.Encode, hlen, if_false]
  cases hr : Question.Encode.loop (splitDots (name ++ [46])) [] with
  | mk buf e =>
    rw [hr] at hloop
    simp only at hloop
    subst hloop
    rfl

theorem decodeQuestion_name (fuel : Nat) (data : Bytes) (pos : Nat) (d q : Question) (c : Nat)
    (h : DecodeQuestion fuel data pos (some d) = .ret (some q, c, none)) :
    ∃ labels : List Bytes, q.QNAME = joinLabels labels ++ [46] := by
  simp only [DecodeQuestion, getPrintableDomainStr] at h
  cases hx : extractDomainNameLabels fuel data pos with
  | outOfFuel => rw [hx] at h; simp at h
  | panic => rw [hx] at h; simp at h
  | ret a =>
    obtain ⟨labels, br, e⟩ := a
    rw [hx] at h
    cases e with
    | some err => simp at h
    | none =>
      refine ⟨labels, ?_⟩
      simp only at h
      cases h1 : decodeUint16 data br with
      | mk typ r1 =>
        obtain ⟨br1, e1⟩ := r1
        rw [h1] at h
        cases e1 with
        | some err => simp at h
        | none =>
          simp only at h
          cases h2 : decodeUint16 data br1 with
          | mk cls r2 =>
            obtain ⟨br2, e2⟩ := r2
            rw [h2] at h
            cases e2 with
            | some err => simp at h
            | none =>
              simp only [Outcome.ret.injEq, Prod.mk.injEq, Option.some.injEq] at h
              rw [← h.1]

/-- C30. A decoded question can never be re-encoded: whenever `DecodeQuestion` returns a
question without error, its QNAME is non-empty and its last byte is `.`, and `Question.Encode`
of the decoded question returns the EmptyLabel error, so it neither succeeds nor fails with
MalformedQName. -/
theorem decoded_question_not_encodable (fuel : Nat) (data : Bytes) (pos : Nat) (d q : Question)
    (c : Nat) (h : DecodeQuestion fuel data pos (some d) = .ret (some q, c, none)) :
    q.QNAME ≠ [] ∧ q.QNAME.getLast? = some 46 ∧
    (Question.Encode q).2 = some .emptyLabel ∧
    (Question.Encode q).2 ≠ none ∧ (Question.Encode q).2 ≠ some .malformedQName ∧
    DnsError.emptyLabel.message = "Malformed label found, must not be 0 length" := by
  obtain ⟨labels, hq⟩ := decodeQuestion_name fuel data pos d q c h
  have henc : (Question.Encode q).2 = some .emptyLabel := by
    have := question_encode_trailing_dot (joinLabels labels) q.QTYPE q.QCLASS
    rw [← hq] at this
    exact this
  refine ⟨?_, ?_, henc, ?_, ?_, rfl⟩
  · rw [hq]; simp
  · rw [hq]; simp
  · rw [henc]; simp
  · rw [henc]; simp

/-- The question `a.b` as it is decoded from its encoding, `a.b.`, is rejected by
`Question.Encode` with EmptyLabel. -/
theorem decoded_question_not_encodable_witness :
    DecodeQuestion 2 [1, 0x61, 1, 0x62, 0, 0, 1, 0, 1] 0 (some Question.zero)
      = .ret (some ⟨[0x61, 46, 0x62, 46], 1, 1⟩, 9, none) ∧
    (Question.Encode ⟨[0x61, 46, 0x62, 46], 1, 1⟩).2 = some .emptyLabel :=
  ⟨by decide,
    (decoded_question_not_encodable 2 [1, 0x61, 1, 0x62, 0, 0, 1, 0, 1] 0 Question.zero
      ⟨[0x61, 46, 0x62, 46], 1, 1⟩ 9 (by decide)).2.2.1⟩

/-! ## Message decoding -/

theorem decodeHeader_at_zero (data : Bytes) (d : Header) (hl : ¬ data.length < 12) :
    ∃ h, DecodeHeader data 0 (some d) = .ret (some h, 12, none) := by
  have h0 : decodeUint16 data 0 = (be16At data 0, 2, none) :=
    decodeUint16_eq_be16At data 0 (by omega)
  have h4 : decodeUint16 data 4 = (be16At data 4, 6, none) :=
    decodeUint16_eq_be16At data 4 (by omega)
  have h6 : decodeUint16 data 6 = (be16At data 6, 8, none) :=
    decodeUint16_eq_be16At data 6 (by omega)
  have h8 : decodeUint16 data 8 = (be16At data 8, 10, none) :=
    decodeUint16_eq_be16At data 8 (by omega)
  have h10 : decodeUint16 data 10 = (be16At data 10, 12, none) :=
    decodeUint16_eq_be16At data 10 (by omega)
  have h2 : data[2]? = some (data[2]) := List.getElem?_eq_getElem (by omega)
  have h3 : data[3]? = some (data[3]) := List.getElem?_eq_getElem (by omega)
  simp only [DecodeHeader, maxHeaderSize, hl, if_false, h0, h2, h3, h4, h6, h8, h10,
    Nat.reduceAdd]
  exact ⟨_, rfl⟩

theorem decodeHeader_ok_cursor (data : Bytes) (d : Header) (r : Option Header) (c : Nat)
    (h : DecodeHeader data 0 (some d) = .ret (r, c, none)) : c = 12 := by
  by_cases hl : data.length < 12
  · rw [decodeHeader_short data 0 d hl] at h
    simp at h
  · obtain ⟨hd, hh⟩ := decodeHeader_at_zero data d hl
    rw [hh] at h
    simp only [Outcome.ret.injEq, Prod.mk.injEq] at h
    exact h.2.1.symm

theorem questions_loop_ok (fuel : Nat) (data : Bytes) :
    ∀ (n : Nat) (m : Message) (c : Nat) (m1 : Message) (c1 : Nat),
      DecodeMessage.questions fuel data n m c = .ret (m1, c1, none) →
      ∃ qs, decodeQuestionsFrom fuel data n c = some (qs, c1) ∧
        m1 = { m with Questions := m.Questions ++ qs } ∧ qs.length = n := by
  intro n
  induction n with
  | zero =>
    intro m c m1 c1 h
    simp only [DecodeMessage.questions, Outcome.ret.injEq, Prod.mk.injEq, and_true] at h
    refine ⟨[], ?_, ?_, rfl⟩
    · simp only [decodeQuestionsFrom, h.2]
    · simp only [List.append_nil, ← h.1]
  | succ n ih =>
    intro m c m1 c1 h
    rw [DecodeMessage.questions] at h
    cases hq : DecodeQuestion fuel data c (some Question.zero) with
    | outOfFuel => rw [hq] at h; simp at h
    | panic => rw [hq] at h; simp at h
    | ret a =>
      obtain ⟨q, next, e⟩ := a
      rw [hq] at h
      cases e with
      | some err => simp at h
      | none =>
        cases q with
        | none => simp at h
        | some q =>
          simp only at h
          obtain ⟨qs, h1, h2, h3⟩ := ih _ _ _ _ h
          refine ⟨q :: qs, ?_, ?_, ?_⟩
          · simp only [decodeQuestionsFrom, hq, h1]
          · rw [h2]; simp
          · simp [h3]

theorem records_loop_ok (fuel : Nat) (data : Bytes) (add : Message → RR → Message)
    (app : Message → List RR → Message) (h0 : ∀ m, app m [] = m)
    (h1 : ∀ m rr rs, app (add m rr) rs = app m (rr :: rs)) :
    ∀ (n : Nat) (m : Message) (c : Nat) (m1 : Message) (c1 : Nat),
      DecodeMessage.records fuel data add n m c = .ret (m1, c1, none) →
      ∃ rs, decodeRecordsFrom fuel data n c = some (rs, c1) ∧ m1 = app m rs ∧ rs.length = n := by
  intro n
  induction n with
  | zero =>
    intro m c m1 c1 h
    simp only [DecodeMessage.records, Outcome.ret.injEq, Prod.mk.injEq, and_true] at h
    refine ⟨[], ?_, ?_, rfl⟩
    · simp only [decodeRecordsFrom, h.2]
    · rw [h0, h.1]
  | succ n ih =>
    intro m c m1 c1 h
    rw [DecodeMessage.records] at h
    cases hq : DecodeRR fuel data c (some RR.zero) with
    | outOfFuel => rw [hq] at h; simp at h
    | panic => rw [hq] at h; simp at h
    | ret a =>
      obtain ⟨q, next, e⟩ := a
      rw [hq] at h
      cases e with
      | some err => simp at h
      | none =>
        cases q with
        | none => simp at h
        | some q =>
          simp only at h
          obtain ⟨rs, g1, g2, g3⟩ := ih _ _ _ _ h
          refine ⟨q :: rs, ?_, ?_, ?_⟩
          · simp only [decodeRecordsFrom, hq, g1]
          · rw [g2, h1]
          · simp [g3]

theorem message_decode_ok (fuel : Nat) (data : Bytes) (m0 : Message) (qt : Int) (m : Message)
    (c : Nat) (h : DecodeMessage fuel data m0 qt = .ret (m, c, none)) :
    ∃ hd qs an au ad c1 c2 c3,
      DecodeHeader data 0 (some Header.zero) = .ret (some hd, 12, none) ∧
      decodeQuestionsFrom fuel data hd.QDCOUNT 12 = some (qs, c1) ∧
      decodeRecordsFrom fuel data hd.ANCOUNT c1 = some (an, c2) ∧
      decodeRecordsFrom fuel data hd.NSCOUNT c2 = some (au, c3) ∧
      decodeRecordsFrom fuel data hd.ARCOUNT c3 = some (ad, c) ∧
      qs.length = hd.QDCOUNT ∧ an.length = hd.ANCOUNT ∧ au.length = hd.NSCOUNT ∧
      ad.length = hd.ARCOUNT ∧
      m = { queryTime := qt, bytesRead := c, Header := hd,
            Questions := m0.Questions ++ qs, Answers := m0.Answers ++ an,
            Authority := m0.Authority ++ au, Additional := m0.Additional ++ ad } := by
  simp only [DecodeMessage] at h
  cases hh : DecodeHeader data 0 (some Header.zero) with
  | outOfFuel => rw [hh] at h; simp at h
  | panic => rw [hh] at h; simp at h
  | ret a =>
    obtain ⟨r, c0, e⟩ := a
    rw [hh] at h
    cases r with
    | none => simp at h
    | some hd =>
      cases e with
      | some err => simp at h
      | none =>
        have hc0 : c0 = 12 := decodeHeader_ok_cursor data Header.zero _ c0 hh
        subst hc0
        simp only at h
        cases hq : DecodeMessage.questions fuel data hd.QDCOUNT
            { queryTime := qt, bytesRead := m0.bytesRead, Header := hd,
              Questions := m0.Questions, Answers := m0.Answers, Authority := m0.Authority,
              Additional := m0.Additional } 12 with
        | outOfFuel => rw [hq] at h; simp at h
        | panic => rw [hq] at h; simp at h
        | ret a =>
          obtain ⟨m1, c1, e1⟩ := a
          rw [hq] at h
          cases e1 with
          | some err => simp at h
          | none =>
            simp only at h
            obtain ⟨qs, q1, q2, q3⟩ := questions_loop_ok fuel data _ _ _ _ _ hq
            cases ha : DecodeMessage.records fuel data
                (fun m rr => { m with Answers := m.Answers ++ [rr] }) hd.ANCOUNT m1 c1 with
            | outOfFuel => rw [ha] at h; simp at h
            | panic => rw [ha] at h; simp at h
            | ret a =>
              obtain ⟨m2, c2, e2⟩ := a
              rw [ha] at h
              cases e2 with
              | some err => simp at h
              | none =>
                simp only at h
                obtain ⟨an, a1, a2, a3⟩ := records_loop_ok fuel data _
                  (fun m rs => { m with Answers := m.Answers ++ rs }) (by intro m; simp)
                  (by intro m rr rs; simp) _ _ _ _ _ ha
                cases hu : DecodeMessage.records fuel data
                    (fun m rr => { m with Authority := m.Authority ++ [rr] }) hd.NSCOUNT m2 c2 with
                | outOfFuel => rw [hu] at h; simp at h
                | panic => rw [hu] at h; simp at h
                | ret a =>
                  obtain ⟨m3, c3, e3⟩ := a
                  rw [hu] at h
                  cases e3 with
                  | some err => simp at h
                  | none =>
                    simp only at h
                    obtain ⟨au, u1, u2, u3⟩ := records_loop_ok fuel data _
                      (fun m rs => { m with Authority := m.Authority ++ rs }) (by intro m; simp)
                      (by intro m rr rs; simp) _ _ _ _ _ hu
                    cases hd4 : DecodeMessage.records fuel data
                        (fun m rr => { m with Additional := m.Additional ++ [rr] })
                        hd.ARCOUNT m3 c3 with
                    | outOfFuel => rw [hd4] at h; simp at h
                    | panic => rw [hd4] at h; simp at h
                    | ret a =>
                      obtain ⟨m4, c4, e4⟩ := a
                      rw [hd4] at h
                      cases e4 with
                      | some err => simp at h
                      | none =>
                        simp only [Outcome.ret.injEq, Prod.mk.injEq, and_true] at h
                        obtain ⟨ad, d1, d2, d3⟩ := records_loop_ok fuel data _
                          (fun m rs => { m with Additional := m.Additional ++ rs })
                          (by intro m; simp) (by intro m rr rs; simp) _ _ _ _ _ hd4
                        obtain ⟨hm, hc⟩ := h
                        subst hc
                        refine ⟨hd, qs, an, au, ad, c1, c2, c3, rfl, q1, a1, u1, d1, q3, a3, u3,
                          d3, ?_⟩
                        rw [← hm, d2, u2, a2, q2]

/-- C26. Message decoding follows the header counts: when `DecodeMessage` succeeds into an
initially empty message, the decoded header is the one `DecodeHeader` reads at offset 0 (ending
at cursor 12), each section has as many entries as its count field says, the entries are those
of decoding questions, answers, authority and additional records consecutively from cursor 12,
each decode starting where the previous one ended, and the returned cursor is the last one
(12 when all counts are zero) and is stored as the message's `bytesRead`. -/
theorem message_decoding_follows_counts (fuel : Nat) (data : Bytes) (qt : Int) (m : Message)
    (c : Nat) (h : DecodeMessage fuel data Message.zero qt = .ret (m, c, none)) :
    DecodeHeader data 0 (some Header.zero) = .ret (some m.Header, 12, none) ∧
    m.Questions.length = m.Header.QDCOUNT ∧ m.Answers.length = m.Header.ANCOUNT ∧
    m.Authority.length = m.Header.NSCOUNT ∧ m.Additional.length = m.Header.ARCOUNT ∧
    (∃ c1 c2 c3,
      decodeQuestionsFrom fuel data m.Header.QDCOUNT 12 = some (m.Questions, c1) ∧
      decodeRecordsFrom fuel data m.Header.ANCOUNT c1 = some (m.Answers, c2) ∧
      decodeRecordsFrom fuel data m.Header.NSCOUNT c2 = some (m.Authority, c3) ∧
      decodeRecordsFrom fuel data m.Header.ARCOUNT c3 = some (m.Additional, c)) ∧
    m.bytesRead = c ∧
    (m.Header.QDCOUNT = 0 → m.Header.ANCOUNT = 0 → m.Header.NSCOUNT = 0 →
      m.Header.ARCOUNT = 0 → c = 12) := by
  obtain ⟨hd, qs, an, au, ad, c1, c2, c3, hh, hq, ha, hu, hx, lq, la, lu, lx, hm⟩ :=
    message_decode_ok fuel data Message.zero qt m c h
  subst hm
  simp only [Message.zero, List.nil_append]
  refine ⟨hh, lq, la, lu, lx, ⟨c1, c2, c3, hq, ha, hu, hx⟩, trivial, ?_⟩
  intro z1 z2 z3 z4
  rw [z1] at hq
  rw [z2] at ha
  rw [z3] at hu
  rw [z4] at hx
  simp only [decodeQuestionsFrom, decodeRecordsFrom, Option.some.injEq, Prod.mk.injEq] at hq ha hu hx
  omega

set_option maxRecDepth 100000 in
/-- The 37 byte response `answeredResponse` decodes to `answeredMessage`: one question and one
answer, as the header counts say, and the cursor ends at 37. -/
theorem message_decoding_follows_counts_witness :
    DecodeMessage 3 answeredResponse Message.zero 0 = .ret (answeredMessage, 37, none) ∧
    answeredMessage.Questions.length = answeredMessage.Header.QDCOUNT ∧
    answeredMessage.Answers.length = answeredMessage.Header.ANCOUNT ∧
    answeredMessage.bytesRead = 37 :=
  ⟨by decide,
    (message_decoding_follows_counts 3 answeredResponse 0 answeredMessage 37 (by decide)).2.1,
    (message_decoding_follows_counts 3 answeredResponse 0 answeredMessage 37 (by decide)).2.2.1,
    (message_decoding_follows_counts 3 answeredResponse 0 answeredMessage 37
      (by decide)).2.2.2.2.2.2.1⟩

/-! ## Cursors returned with an error -/

theorem decodeUint16_overflow (data : Bytes) (offset : Nat) (h : offset + 2 > data.length) :
    decodeUint16 data offset = (0, data.length, some .uint16Overflow) := by
  simp only [decodeUint16, h, if_true]

theorem decodeQuestion_error (fuel : Nat) (data : Bytes) (pos : Nat) (d : Question)
    (q : Option Question) (c : Nat) (err : DnsError)
    (h : DecodeQuestion fuel data pos (some d) = .ret (q, c, some err)) :
    (∃ name, getPrintableDomainStr fuel data pos = .ret (name, c, some err)) ∨
    (∃ name e, getPrintableDomainStr fuel data pos = .ret (name, e, none) ∧
      data.length < e + 4 ∧ c = data.length ∧ err = .uint16Overflow) := by
  simp only [DecodeQuestion] at h
  cases hn : getPrintableDomainStr fuel data pos with
  | outOfFuel => rw [hn] at h; simp at h
  | panic => rw [hn] at h; simp at h
  | ret a =>
    obtain ⟨name, e, ne⟩ := a
    rw [hn] at h
    cases ne with
    | some e1 =>
      simp only [Outcome.ret.injEq, Prod.mk.injEq, Option.some.injEq] at h
      exact Or.inl ⟨name, by rw [h.2.1, h.2.2]⟩
    | none =>
      refine Or.inr ⟨name, e, rfl, ?_⟩
      simp only at h
      by_cases h1 : e + 2 ≤ data.length
      · rw [decodeUint16_eq_be16At data e h1] at h
        simp only at h
        by_cases h2 : e + 2 + 2 ≤ data.length
        · rw [decodeUint16_eq_be16At data (e + 2) h2] at h
          simp at h
        · rw [decodeUint16_overflow data (e + 2) (by omega)] at h
          simp only [Outcome.ret.injEq, Prod.mk.injEq, Option.some.injEq] at h
          exact ⟨by omega, h.2.1.symm, h.2.2.symm⟩
      · rw [decodeUint16_overflow data e (by omega)] at h
        simp only [Outcome.ret.injEq, Prod.mk.injEq, Option.some.injEq] at h
        exact ⟨by omega, h.2.1.symm, h.2.2.symm⟩

theorem decodeRR_error (fuel : Nat) (data : Bytes) (pos : Nat) (d : RR)
    (rr : Option RR) (c : Nat) (err : DnsError)
    (h : DecodeRR fuel data pos (some d) = .ret (rr, c, some err)) :
    (∃ name, getPrintableDomainStr fuel data pos = .ret (name, c, some err)) ∨
    (∃ name e, getPrintableDomainStr fuel data pos = .ret (name, e, none) ∧
      data.length < e + 10 ∧ c = data.length ∧
      (err = .uint16Overflow ∨ err = .uint32Overflow)) ∨
    (∃ name e rdata, getPrintableDomainStr fuel data pos = .ret (name, e, none) ∧
      e + 10 ≤ data.length ∧
      getResourceDataFieldForResourceType fuel (be16At data e) data (e + 10)
        (be16At data (e + 8)) = .ret (rdata, some err) ∧
      c = e + 10 + be16At data (e + 8)) := by
  cases hn : getPrintableDomainStr fuel data pos with
  | outOfFuel => simp [DecodeRR, hn] at h
  | panic => simp [DecodeRR, hn] at h
  | ret a =>
    obtain ⟨name, e, ne⟩ := a
    cases ne with
    | some e1 =>
      simp only [DecodeRR, hn, Outcome.ret.injEq, Prod.mk.injEq, Option.some.injEq] at h
      exact Or.inl ⟨name, by rw [h.2.1, h.2.2]⟩
    | none =>
      right
      by_cases hl : e + 10 ≤ data.length
      · right
        rw [decodeRR_envelope fuel data pos e name d hn hl] at h
        cases hr : getResourceDataFieldForResourceType fuel (be16At data e) data (e + 10)
            (be16At data (e + 8)) with
        | outOfFuel => rw [hr] at h; simp at h
        | panic => rw [hr] at h; simp at h
        | ret b =>
          obtain ⟨rdata, re⟩ := b
          rw [hr] at h
          simp only [Outcome.ret.injEq, Prod.mk.injEq] at h
          obtain ⟨_, h2, h3⟩ := h
          subst h2 h3
          exact ⟨name, e, rdata, rfl, hl, hr, rfl⟩
      · left
        refine ⟨name, e, rfl, by omega, ?_⟩
        simp only [DecodeRR, hn] at h
        by_cases h1 : e + 2 ≤ data.length
        · rw [decodeUint16_eq_be16At data e h1] at h
          simp only at h
          by_cases h2 : e + 2 + 2 ≤ data.length
          · rw [decodeUint16_eq_be16At data (e + 2) h2] at h
            simp only at h
            by_cases h3 : e + 2 + 2 + 4 ≤ data.length
            · rw [decodeUint32_eq_be32At data (e + 2 + 2) h3] at h
              simp only at h
              rw [decodeUint16_overflow data (e + 2 + 2 + 4) (by omega)] at h
              simp only [Outcome.ret.injEq, Prod.mk.injEq, Option.some.injEq] at h
              exact ⟨h.2.1.symm, Or.inl h.2.2.symm⟩
            · rw [decodeUint32_overflow data (e + 2 + 2) (by omega)] at h
              simp only [Outcome.ret.injEq, Prod.mk.injEq, Option.some.injEq] at h
              exact ⟨h.2.1.symm, Or.inr h.2.2.symm⟩
          · rw [decodeUint16_overflow data (e + 2) (by omega)] at h
            simp only [Outcome.ret.injEq, Prod.mk.injEq, Option.some.injEq] at h
            exact ⟨h.2.1.symm, Or.inl h.2.2.symm⟩
        · rw [decodeUint16_overflow data e (by omega)] at h
          simp only [Outcome.ret.injEq, Prod.mk.injEq, Option.some.injEq] at h
          exact ⟨h.2.1.symm, Or.inl h.2.2.symm⟩

theorem questions_loop_error (fuel : Nat) (data : Bytes) :
    ∀ (n : Nat) (m : Message) (c : Nat) (m1 : Message) (c1 : Nat) (err : DnsError),
      DecodeMessage.questions fuel data n m c = .ret (m1, c1, some err) →
      ∃ k qs start q, k < n ∧ decodeQuestionsFrom fuel data k c = some (qs, start) ∧
        DecodeQuestion fuel data start (some Question.zero) = .ret (q, c1, some err) := by
  intro n
  induction n with
  | zero =>
    intro m c m1 c1 err h
    simp [DecodeMessage.questions] at h
  | succ n ih =>
    intro m c m1 c1 err h
    rw [DecodeMessage.questions] at h
    cases hq : DecodeQuestion fuel data c (some Question.zero) with
    | outOfFuel => rw [hq] at h; simp at h
    | panic => rw [hq] at h; simp at h
    | ret a =>
      obtain ⟨q, next, e⟩ := a
      rw [hq] at h
      cases e with
      | some e1 =>
        simp only [Outcome.ret.injEq, Prod.mk.injEq, Option.some.injEq] at h
        refine ⟨0, [], c, q, Nat.succ_pos n, rfl, ?_⟩
        rw [hq, h.2.1, h.2.2]
      | none =>
        cases q with
        | none => simp at h
        | some q =>
          simp only at h
          obtain ⟨k, qs, start, q1, hk, h1, h2⟩ := ih _ _ _ _ _ h
          refine ⟨k + 1, q :: qs, start, q1, by omega, ?_, h2⟩
          simp only [decodeQuestionsFrom, hq, h1]

theorem records_loop_error (fuel : Nat) (data : Bytes) (add : Message → RR → Message) :
    ∀ (n : Nat) (m : Message) (c : Nat) (m1 : Message) (c1 : Nat) (err : DnsError),
      DecodeMessage.records fuel data add n m c = .ret (m1, c1, some err) →
      ∃ k rs start rr, k < n ∧ decodeRecordsFrom fuel data k c = some (rs, start) ∧
        DecodeRR fuel data start (some RR.zero) = .ret (rr, c1, some err) := by
  intro n
  induction n with
  | zero =>
    intro m c m1 c1 err h
    simp [DecodeMessage.records] at h
  | succ n ih =>
    intro m c m1 c1 err h
    rw [DecodeMessage.records] at h
    cases hq : DecodeRR fuel data c (some RR.zero) with
    | outOfFuel => rw [hq] at h; simp at h
    | panic => rw [hq] at h; simp at h
    | ret a =>
      obtain ⟨q, next, e⟩ := a
      rw [hq] at h
      cases e with
      | some e1 =>
        simp only [Outcome.ret.injEq, Prod.mk.injEq, Option.some.injEq] at h
        refine ⟨0, [], c, q, Nat.succ_pos n, rfl, ?_⟩
        rw [hq, h.2.1, h.2.2]
      | none =>
        cases q with
        | none => simp at h
        | some q =>
          simp only at h
          obtain ⟨k, rs, start, q1, hk, h1, h2⟩ := ih _ _ _ _ _ h
          refine ⟨k + 1, q :: rs, start, q1, by omega, ?_, h2⟩
          simp only [decodeRecordsFrom, hq, h1]

theorem message_decode_error (fuel : Nat) (data : Bytes) (m0 : Message) (qt : Int)
    (m : Message) (c : Nat) (err : DnsError)
    (h : DecodeMessage fuel data m0 qt = .ret (m, c, some err)) :
    (data.length < 12 ∧ c = 0 ∧ err = .shortHeader data.length) ∨
    (∃ hd, DecodeHeader data 0 (some Header.zero) = .ret (some hd, 12, none) ∧
      ((∃ k qs start q, k < hd.QDCOUNT ∧
          decodeQuestionsFrom fuel data k 12 = some (qs, start) ∧
          DecodeQuestion fuel data start (some Question.zero) = .ret (q, c, some err)) ∨
       (∃ qs c1, decodeQuestionsFrom fuel data hd.QDCOUNT 12 = some (qs, c1) ∧
         ((∃ k rs start rr, k < hd.ANCOUNT ∧
             decodeRecordsFrom fuel data k c1 = some (rs, start) ∧
             DecodeRR fuel data start (some RR.zero) = .ret (rr, c, some err)) ∨
          (∃ an c2, decodeRecordsFrom fuel data hd.ANCOUNT c1 = some (an, c2) ∧
            ((∃ k rs start rr, k < hd.NSCOUNT ∧
                decodeRecordsFrom fuel data k c2 = some (rs, start) ∧
                DecodeRR fuel data start (some RR.zero) = .ret (rr, c, some err)) ∨
             (∃ au c3, decodeRecordsFrom fuel data hd.NSCOUNT c2 = some (au, c3) ∧
               ∃ k rs start rr, k < hd.ARCOUNT ∧
                 decodeRecordsFrom fuel data k c3 = some (rs, start) ∧
                 DecodeRR fuel data start (some RR.zero) = .ret (rr, c, some err)))))))) := by
  by_cases hl : data.length < 12
  · left
    simp only [DecodeMessage, decodeHeader_short data 0 Header.zero hl, Outcome.ret.injEq,
      Prod.mk.injEq, Option.some.injEq] at h
    exact ⟨hl, h.2.1.symm, h.2.2.symm⟩
  · right
    obtain ⟨hd, hh⟩ := decodeHeader_at_zero data Header.zero hl
    refine ⟨hd, hh, ?_⟩
    simp only [DecodeMessage, hh] at h
    cases hq : DecodeMessage.questions fuel data hd.QDCOUNT
        { queryTime := qt, bytesRead := m0.bytesRead, Header := hd,
          Questions := m0.Questions, Answers := m0.Answers, Authority := m0.Authority,
          Additional := m0.Additional } 12 with
    | outOfFuel => rw [hq] at h; simp at h
    | panic => rw [hq] at h; simp at h
    | ret a =>
      obtain ⟨m1, c1, e1⟩ := a
      rw [hq] at h
      cases e1 with
      | some e =>
        simp only [Outcome.ret.injEq, Prod.mk.injEq, Option.some.injEq] at h
        obtain ⟨k, qs, start, q, hk, h1, h2⟩ := questions_loop_error fuel data _ _ _ _ _ _ hq
        exact Or.inl ⟨k, qs, start, q, hk, h1, by rw [h2, h.2.1, h.2.2]⟩
      | none =>
        right
        simp only at h
        obtain ⟨qs, q1, _, _⟩ := questions_loop_ok fuel data _ _ _ _ _ hq
        refine ⟨qs, c1, q1, ?_⟩
        cases ha : DecodeMessage.records fuel data
            (fun m rr => { m with Answers := m.Answers ++ [rr] }) hd.ANCOUNT m1 c1 with
        | outOfFuel => rw [ha] at h; simp at h
        | panic => rw [ha] at h; simp at h
        | ret a =>
          obtain ⟨m2, c2, e2⟩ := a
          rw [ha] at h
          cases e2 with
          | some e =>
            simp only [Outcome.ret.injEq, Prod.mk.injEq, Option.some.injEq] at h
            obtain ⟨k, rs, start, rr, hk, h1, h2⟩ :=
              records_loop_error fuel data _ _ _ _ _ _ _ ha
            exact Or.inl ⟨k, rs, start, rr, hk, h1, by rw [h2, h.2.1, h.2.2]⟩
          | none =>
            right
            simp only at h
            obtain ⟨an, a1, _, _⟩ := records_loop_ok fuel data _
              (fun m rs => { m with Answers := m.Answers ++ rs }) (by intro m; simp)
              (by intro m rr rs; simp) _ _ _ _ _ ha
            refine ⟨an, c2, a1, ?_⟩
            cases hu : DecodeMessage.records fuel data
                (fun m rr => { m with Authority := m.Authority ++ [rr] }) hd.NSCOUNT m2 c2 with
            | outOfFuel => rw [hu] at h; simp at h
            | panic => rw [hu] at h; simp at h
            | ret a =>
              obtain ⟨m3, c3, e3⟩ := a
              rw [hu] at h
              cases e3 with
              | some e =>
                simp only [Outcome.ret.injEq, Prod.mk.injEq, Option.some.injEq] at h
                obtain ⟨k, rs, start, rr, hk, h1, h2⟩ :=
                  records_loop_error fuel data _ _ _ _ _ _ _ hu
                exact Or.inl ⟨k, rs, start, rr, hk, h1, by rw [h2, h.2.1, h.2.2]⟩
              | none =>
                right
                simp only at h
                obtain ⟨au, u1, _, _⟩ := records_loop_ok fuel data _
                  (fun m rs => { m with Authority := m.Authority ++ rs }) (by intro m; simp)
                  (by intro m rr rs; simp) _ _ _ _ _ hu
                refine ⟨au, c3, u1, ?_⟩
                cases hx : DecodeMessage.records fuel data
                    (fun m rr => { m with Additional := m.Additional ++ [rr] })
                    hd.ARCOUNT m3 c3 with
                | outOfFuel => rw [hx] at h; simp at h
                | panic => rw [hx] at h; simp at h
                | ret a =>
                  obtain ⟨m4, c4, e4⟩ := a
                  rw [hx] at h
                  cases e4 with
                  | some e =>
                    simp only [Outcome.ret.injEq, Prod.mk.injEq, Option.some.injEq] at h
                    obtain ⟨k, rs, start, rr, hk, h1, h2⟩ :=
                      records_loop_error fuel data _ _ _ _ _ _ _ hx
                    exact ⟨k, rs, start, rr, hk, h1, by rw [h2, h.2.1, h.2.2]⟩
                  | none => simp at h

/-- C27, counterexample. In the 4 byte buffer `01 61 00 00` the name `a` ends at cursor 3 and
the QTYPE field that begins there does not fit: `DecodeQuestion` returns the cursor 4, the
length of the buffer, not 3.  `DecodeMessage` on a header announcing one question followed by
these 4 bytes returns 16, not 15.  `DecodeRR` on an MX record whose RDLENGTH field says 5 and
whose data is missing returns the cursor 18, beyond the 13 bytes of the buffer. -/
theorem error_cursor_counterexample :
    getPrintableDomainStr 2 [1, 0x61, 0, 0] 0 = .ret ([0x61, 46], 3, none) ∧
    DecodeQuestion 2 [1, 0x61, 0, 0] 0 (some Question.zero)
      = .ret (some ⟨[0x61, 46], 0, 0⟩, 4, some .uint16Overflow) ∧
    DecodeMessage 2 ([0, 1, 0x81, 0x80, 0, 1, 0, 0, 0, 0, 0, 0] ++ [1, 0x61, 0, 0])
        Message.zero 0
      = .ret (⟨0, 0, ⟨1, 1, 0, 0, 0, 1, 1, 0, 0, 1, 0, 0, 0⟩, [], [], [], []⟩, 16,
          some .uint16Overflow) ∧
    DecodeRR 2 [1, 0x61, 0, 0, 15, 0, 1, 0, 0, 0, 0, 0, 5] 0 (some RR.zero)
      = .ret (some ⟨[0x61, 46], 15, 1, 0, 5, none⟩, 18, some .uint16Overflow) ∧
    [1, 0x61, 0, 0, 15, 0, 1, 0, 0, 0, 0, 0, 5].length < 18 := by
  refine ⟨by decide, by decide, by decide, by decide, by decide⟩

/-- C27, amended. The cursor returned with an error is the one the failing sub-decode handed
back.  `DecodeQuestion`: the name decoder's cursor when the name fails, otherwise the name ended
at `e`, `len(buffer) < e + 4` and the cursor is `len(buffer)` with the Uint16 overflow error.
`DecodeRR`: the name decoder's cursor when the name fails; `len(buffer)` with an overflow error
when the ten bytes of fixed fields after the name do not fit; otherwise the RDATA decoder failed
and the cursor is `e + 10 + RDLENGTH`.  `DecodeMessage`: cursor 0 with the short-header error
when the buffer has fewer than 12 bytes; otherwise the header decodes to `hd` ending at 12 and
the cursor and error are, unchanged, those of the failing call: the `DecodeQuestion` call at
the cursor `start` reached from 12 by `k < QDCOUNT` successful question decodes, or, all
questions decoded ending at `c1`, the `DecodeRR` call at the cursor reached from `c1` by
`k < ANCOUNT` successful record decodes, or likewise in the authority section (from the end
`c2` of the answers) or in the additional section (from the end `c3` of the authority
records). -/
theorem error_cursor_location (fuel : Nat) (data : Bytes) (c : Nat) (err : DnsError) :
    (∀ pos d q, DecodeQuestion fuel data pos (some d) = .ret (q, c, some err) →
      (∃ name, getPrintableDomainStr fuel data pos = .ret (name, c, some err)) ∨
      (∃ name e, getPrintableDomainStr fuel data pos = .ret (name, e, none) ∧
        data.length < e + 4 ∧ c = data.length ∧ err = .uint16Overflow)) ∧
    (∀ pos d rr, DecodeRR fuel data pos (some d) = .ret (rr, c, some err) →
      (∃ name, getPrintableDomainStr fuel data pos = .ret (name, c, some err)) ∨
      (∃ name e, getPrintableDomainStr fuel data pos = .ret (name, e, none) ∧
        data.length < e + 10 ∧ c = data.length ∧
        (err = .uint16Overflow ∨ err = .uint32Overflow)) ∨
      (∃ name e rdata, getPrintableDomainStr fuel data pos = .ret (name, e, none) ∧
        e + 10 ≤ data.length ∧
        getResourceDataFieldForResourceType fuel (be16At data e) data (e + 10)
          (be16At data (e + 8)) = .ret (rdata, some err) ∧
        c = e + 10 + be16At data (e + 8))) ∧
    (∀ m0 qt m, DecodeMessage fuel data m0 qt = .ret (m, c, some err) →
      (data.length < 12 ∧ c = 0 ∧ err = .shortHeader data.length) ∨
      (∃ hd, DecodeHeader data 0 (some Header.zero) = .ret (some hd, 12, none) ∧
        ((∃ k qs start q, k < hd.QDCOUNT ∧
            decodeQuestionsFrom fuel data k 12 = some (qs, start) ∧
            DecodeQuestion fuel data start (some Question.zero) = .ret (q, c, some err)) ∨
         (∃ qs c1, decodeQuestionsFrom fuel data hd.QDCOUNT 12 = some (qs, c1) ∧
           ((∃ k rs start rr, k < hd.ANCOUNT ∧
               decodeRecordsFrom fuel data k c1 = some (rs, start) ∧
               DecodeRR fuel data start (some RR.zero) = .ret (rr, c, some err)) ∨
            (∃ an c2, decodeRecordsFrom fuel data hd.ANCOUNT c1 = some (an, c2) ∧
              ((∃ k rs start rr, k < hd.NSCOUNT ∧
                  decodeRecordsFrom fuel data k c2 = some (rs, start) ∧
                  DecodeRR fuel data start (some RR.zero) = .ret (rr, c, some err)) ∨
               (∃ au c3, decodeRecordsFrom fuel data hd.NSCOUNT c2 = some (au, c3) ∧
                 ∃ k rs start rr, k < hd.ARCOUNT ∧
                   decodeRecordsFrom fuel data k c3 = some (rs, start) ∧
                   DecodeRR fuel data start (some RR.zero)
                     = .ret (rr, c, some err))))))))) :=
  ⟨fun pos d q h => decodeQuestion_error fuel data pos d q c err h,
    fun pos d rr h => decodeRR_error fuel data pos d rr c err h,
    fun m0 qt m h => message_decode_error fuel data m0 qt m c err h⟩

/-- The failing decodes of the buffers `01 61 00 00` (a question whose QTYPE is cut off) and of
an MX record with RDLENGTH 5 and no data, with the cursors 4 and 18 they return, and the
16 byte message whose only question is cut off, whose header decodes. -/
theorem error_cursor_location_witness :
    (DecodeQuestion 2 [1, 0x61, 0, 0] 0 (some Question.zero)
        = .ret (some ⟨[0x61, 46], 0, 0⟩, 4, some .uint16Overflow) ∧
      ((∃ name, getPrintableDomainStr 2 [1, 0x61, 0, 0] 0
          = .ret (name, 4, some .uint16Overflow)) ∨
        (∃ name e, getPrintableDomainStr 2 [1, 0x61, 0, 0] 0 = .ret (name, e, none) ∧
          [1, 0x61, 0, 0].length < e + 4 ∧ 4 = [1, 0x61, 0, 0].length ∧
          DnsError.uint16Overflow = .uint16Overflow))) ∧
    (DecodeRR 2 [1, 0x61, 0, 0, 15, 0, 1, 0, 0, 0, 0, 0, 5] 0 (some RR.zero)
        = .ret (some ⟨[0x61, 46], 15, 1, 0, 5, none⟩, 18, some .uint16Overflow) ∧
      ((∃ name, getPrintableDomainStr 2 [1, 0x61, 0, 0, 15, 0, 1, 0, 0, 0, 0, 0, 5] 0
          = .ret (name, 18, some .uint16Overflow)) ∨
        (∃ name e, getPrintableDomainStr 2 [1, 0x61, 0, 0, 15, 0, 1, 0, 0, 0, 0, 0, 5] 0
            = .ret (name, e, none) ∧
          [1, 0x61, 0, 0, 15, 0, 1, 0, 0, 0, 0, 0, 5].length < e + 10 ∧
          18 = [1, 0x61, 0, 0, 15, 0, 1, 0, 0, 0, 0, 0, 5].length ∧
          (DnsError.uint16Overflow = .uint16Overflow ∨
            DnsError.uint16Overflow = .uint32Overflow)) ∨
        (∃ name e rdata, getPrintableDomainStr 2 [1, 0x61, 0, 0, 15, 0, 1, 0, 0, 0, 0, 0, 5] 0
            = .ret (name, e, none) ∧
          e + 10 ≤ [1, 0x61, 0, 0, 15, 0, 1, 0, 0, 0, 0, 0, 5].length ∧
          getResourceDataFieldForResourceType 2
            (be16At [1, 0x61, 0, 0, 15, 0, 1, 0, 0, 0, 0, 0, 5] e)
            [1, 0x61, 0, 0, 15, 0, 1, 0, 0, 0, 0, 0, 5] (e + 10)
            (be16At [1, 0x61, 0, 0, 15, 0, 1, 0, 0, 0, 0, 0, 5] (e + 8))
              = .ret (rdata, some .uint16Overflow) ∧
          18 = e + 10 + be16At [1, 0x61, 0, 0, 15, 0, 1, 0, 0, 0, 0, 0, 5] (e + 8)))) ∧
    (∃ hd, DecodeHeader ([0, 1, 0x81, 0x80, 0, 1, 0, 0, 0, 0, 0, 0] ++ [1, 0x61, 0, 0]) 0
      (some Header.zero) = .ret (some hd, 12, none)) :=
  ⟨⟨by decide,
      (error_cursor_location 2 [1, 0x61, 0, 0] 4 .uint16Overflow).1 0 Question.zero
        (some ⟨[0x61, 46], 0, 0⟩) (by decide)⟩,
    ⟨by decide,
      (error_cursor_location 2 [1, 0x61, 0, 0, 15, 0, 1, 0, 0, 0, 0, 0, 5] 18
        .uint16Overflow).2.1 0 RR.zero (some ⟨[0x61, 46], 15, 1, 0, 5, none⟩) (by decide)⟩,
    (((error_cursor_location 2 ([0, 1, 0x81, 0x80, 0, 1, 0, 0, 0, 0, 0, 0] ++ [1, 0x61, 0, 0])
        16 .uint16Overflow).2.2 Message.zero 0
        ⟨0, 0, ⟨1, 1, 0, 0, 0, 1, 1, 0, 0, 1, 0, 0, 0⟩, [], [], [], []⟩
        (by decide)).resolve_left (by decide)).imp (fun _ h => h.1)⟩

/-! ## Name decoding: the zero octet and the pointer budget -/

theorem loop_zero_octet (fuel : Nat) (data : Bytes) (acc : List Bytes) (space : Int)
    (s b : Nat) (h0 : data[s]? = some 0) (h1 : data[s + 1]? = some b) (hs : 1 < space) :
    extractDomainNameLabels.loop (fuel + 1) data acc 0 space s =
      if b = 0 then .ret (acc ++ [[]], s + 2, none)
      else extractDomainNameLabels.loop fuel data (acc ++ [[]]) 0 (space - 1) (s + 1) := by
  have hlen : s + 1 < data.length := by
    by_contra hc
    rw [List.getElem?_eq_none (by omega)] at h1
    exact Option.noConfusion h1
  have hle : ¬ (s + 0 + 1 > data.length) := by omega
  have hsp : ¬ (space - ((0 : Nat) + 1 : Int) ≤ 0) := by
    simp only [Nat.cast_zero, zero_add]; omega
  rw [extractDomainNameLabels.loop]
  simp only [h0, maxCompressionPointers, maxDomainNameWireOctets]
  simp [h1, hle]
  intro hc
  omega

/-- C31. Root name handling: when `buffer[s] = 0x00` and `buffer[s+1]` exists, name decoding at
`s` does not stop after the zero octet: it records an empty label and inspects `buffer[s+1]`.
If that byte is `0x00` it returns the single empty label, rendered `.`, with cursor `s + 2`;
otherwise it goes on with the loop at cursor `s + 1`, with the empty label recorded and the
name budget reduced by one, so that this byte is read as a length octet or pointer.  The bytes
`00 03 'c' 'o' 'm' 00` decode at offset 0 to `.com.` with cursor 6. -/
theorem root_name_handling (fuel : Nat) (data : Bytes) (s b : Nat)
    (h0 : data[s]? = some 0) (h1 : data[s + 1]? = some b) :
    (b = 0 → extractDomainNameLabels (fuel + 1) data s = .ret ([[]], s + 2, none) ∧
      getPrintableDomainStr (fuel + 1) data s = .ret (ascii ".", s + 2, none)) ∧
    (b ≠ 0 → extractDomainNameLabels (fuel + 1) data s =
      extractDomainNameLabels.loop fuel data [[]] 0 (maxDomainNameWireOctets - 1) (s + 1)) ∧
    extractDomainNameLabels (fuel + 2) [0, 3, 0x63, 0x6F, 0x6D, 0] 0
      = .ret ([[], ascii "com"], 6, none) ∧
    getPrintableDomainStr (fuel + 2) [0, 3, 0x63, 0x6F, 0x6D, 0] 0
      = .ret (ascii ".com.", 6, none) := by
  have hstep := loop_zero_octet fuel data [] maxDomainNameWireOctets s b h0 h1 (by decide)
  have hex : extractDomainNameLabels (fuel + 2) [0, 3, 0x63, 0x6F, 0x6D, 0] 0
      = .ret ([[], ascii "com"], 6, none) := by
    rw [Nat.add_comm, extract_fuel_stable 2 fuel _ _ (by decide)]
    decide
  refine ⟨fun hb => ?_, fun hb => ?_, hex, ?_⟩
  · have hx : extractDomainNameLabels (fuel + 1) data s = .ret ([[]], s + 2, none) := by
      simp only [extractDomainNameLabels, hstep, hb, if_true, List.nil_append]
    refine ⟨hx, ?_⟩
    simp only [getPrintableDomainStr, hx]
    rfl
  · simp only [extractDomainNameLabels, hstep, hb, if_false, List.nil_append]
  · simp only [getPrintableDomainStr, hex]
    decide

/-- On `07 00 00` at offset 1 the root name takes two bytes; on `00 01 61 00` at offset 0 the
name `a` after a zero octet is decoded with a leading empty label, as `.a.`. -/
theorem root_name_handling_witness :
    getPrintableDomainStr 1 [7, 0, 0] 1 = .ret (ascii ".", 3, none) ∧
    extractDomainNameLabels 2 [0, 1, 0x61, 0] 0 = .ret ([[], [0x61]], 4, none) :=
  ⟨((root_name_handling 0 [7, 0, 0] 1 0 (by decide) (by decide)).1 rfl).2,
    ((root_name_handling 1 [0, 1, 0x61, 0] 0 1 (by decide) (by decide)).2.1
      (by decide)).trans (by decide)⟩

theorem loop_budget_error_unreachable : ∀ (fuel : Nat) (data : Bytes) (acc : List Bytes)
    (space : Int) (pos : Nat) (labels : List Bytes) (c : Nat) (err : Option DnsError),
    extractDomainNameLabels.loop fuel data acc 0 space pos = .ret (labels, c, err) →
    err ≠ some .tooManyCompressionPointers := by
  intro fuel
  induction fuel with
  | zero =>
    intro _ _ _ _ _ _ _ h
    simp [extractDomainNameLabels.loop] at h
  | succ n ih =>
    intro data acc space pos labels c err h
    rw [extractDomainNameLabels.loop] at h
    have hp : ¬ (0 ≥ maxCompressionPointers) := by decide
    simp only [hp, if_false] at h
    cases hd : data[pos]? with
    | none => rw [hd] at h; simp at h
    | some cur =>
      simp only [hd] at h
      by_cases hc : cur &&& 0xC0 = 0xC0
      · simp only [hc, if_true] at h
        cases hd1 : data[pos + 1]? with
        | none => rw [hd1] at h; simp at h
        | some nxt =>
          simp only [hd1] at h
          cases hrec : extractDomainNameLabels.loop n data [] 0 maxDomainNameWireOctets
              (pointerOffset cur nxt) with
          | outOfFuel => rw [hrec] at h; simp at h
          | panic => rw [hrec] at h; simp at h
          | ret a =>
            obtain ⟨lbls, c1, e1⟩ := a
            rw [hrec] at h
            have hne := ih _ _ _ _ _ _ _ hrec
            cases e1 with
            | none =>
              simp only [Outcome.ret.injEq, Prod.mk.injEq] at h
              rw [← h.2.2]
              simp
            | some e =>
              simp only [Outcome.ret.injEq, Prod.mk.injEq] at h
              rw [← h.2.2]
              exact hne
      · simp only [hc, if_false] at h
        by_cases hz : cur &&& 0xC0 = 0x00
        · simp only [hz, if_true] at h
          by_cases hlen : pos + cur + 1 > data.length
          · simp only [hlen, if_true] at h
            simp at h
          · simp only [hlen, if_false] at h
            by_cases hsp : space - ((cur : Int) + 1) ≤ 0
            · simp only [hsp, if_true, Outcome.ret.injEq, Prod.mk.injEq] at h
              rw [← h.2.2]
              simp
            · simp only [hsp, if_false] at h
              cases hnb : data[pos + (cur + 1)]? with
              | none => rw [hnb] at h; simp at h
              | some nb =>
                simp only [hnb] at h
                by_cases hnz : nb = 0x00
                · simp only [hnz, if_true, Outcome.ret.injEq, Prod.mk.injEq] at h
                  rw [← h.2.2]
                  simp
                · simp only [hnz, if_false] at h
                  exact ih _ _ _ _ _ _ _ h
        · simp only [hz, if_false, Outcome.ret.injEq, Prod.mk.injEq] at h
          rw [← h.2.2]
          simp

/-- C32. The pointer budget check is unreachable: `maxCompressionPointers` is 126, every
invocation of `extractDomainNameLabels` starts its loop with `ptrsFollowed = 0`, and a loop
that runs with `ptrsFollowed = 0` (from any labels, name budget and cursor) never returns the
error TooManyCompressionPointers; so whenever `extractDomainNameLabels` or
`getPrintableDomainStr` returns, the error is not 'Too many compression pointers in domain
name'. -/
theorem pointer_budget_unreachable (fuel : Nat) (data : Bytes) (s : Nat) :
    maxCompressionPointers = 126 ∧
    extractDomainNameLabels fuel data s
      = extractDomainNameLabels.loop fuel data [] 0 maxDomainNameWireOctets s ∧
    (∀ (acc : List Bytes) (space : Int) (pos : Nat) (labels : List Bytes) (c : Nat)
        (err : Option DnsError),
      extractDomainNameLabels.loop fuel data acc 0 space pos = .ret (labels, c, err) →
      err ≠ some .tooManyCompressionPointers) ∧
    (∀ (labels : List Bytes) (c : Nat) (err : Option DnsError),
      extractDomainNameLabels fuel data s = .ret (labels, c, err) →
      err ≠ some .tooManyCompressionPointers) ∧
    (∀ (name : Bytes) (c : Nat) (err : Option DnsError),
      getPrintableDomainStr fuel data s = .ret (name, c, err) →
      err ≠ some .tooManyCompressionPointers) ∧
    DnsError.tooManyCompressionPointers.message
      = "Too many compression pointers in domain name" := by
  refine ⟨by decide, rfl, fun acc space pos labels c err h =>
    loop_budget_error_unreachable fuel data acc space pos labels c err h,
    fun labels c err h =>
      loop_budget_error_unreachable fuel data [] _ s labels c err h, ?_, rfl⟩
  intro name c err h
  simp only [getPrintableDomainStr] at h
  cases hx : extractDomainNameLabels fuel data s with
  | outOfFuel => rw [hx] at h; simp at h
  | panic => rw [hx] at h; simp at h
  | ret a =>
    obtain ⟨labels, c1, e1⟩ := a
    rw [hx] at h
    have hne := loop_budget_error_unreachable fuel data [] _ s labels c1 e1 hx
    cases e1 with
    | none =>
      simp only [Outcome.ret.injEq, Prod.mk.injEq] at h
      rw [← h.2.2]
      simp
    | some e =>
      simp only [Outcome.ret.injEq, Prod.mk.injEq] at h
      rw [← h.2.2]
      exact hne

set_option maxRecDepth 1000000 in
/-- Decoding `pointerChain` at offset 0 follows 127 pointers, more than
`maxCompressionPointers`, and returns the name `a` with cursor 2 and no error. -/
theorem pointer_budget_unreachable_witness :
    extractDomainNameLabels 128 pointerChain 0 = .ret ([[0x61]], 2, none) ∧
    (none : Option DnsError) ≠ some .tooManyCompressionPointers :=
  ⟨by decide,
    (pointer_budget_unreachable 128 pointerChain 0).2.2.2.1 [[0x61]] 2 none (by decide)⟩

/-! ## Pointers, short headers and RDATA decoders on received datagrams -/

set_option maxRecDepth 100000 in
/-- C9. Evaluation at the failing input: in `labelsPointerBuffer` the label `www` at offset 8
is followed by the pointer `C1 04`, whose 14 bit offset is 260, where the name `a` decodes to
the single label `a`.  The decoder computes the target `(0xC1 & 0x3F) | 0x04` = 5 instead, so
decoding at offset 8 returns the labels `www`, `x` (the name stored at offset 5), rendered
`www.x.` and not `www.a.`; the cursor is 8 + 4 + 2 = 14. -/
theorem labels_then_far_pointer_misresolved :
    labelsPointerBuffer.length = 263 ∧
    (0xC1 &&& 0x3F) * 256 + 0x04 = 260 ∧ pointerOffset 0xC1 0x04 = 5 ∧
    (∀ fuel, extractDomainNameLabels (fuel + 1) labelsPointerBuffer 260
      = .ret ([[0x61]], 263, none)) ∧
    (∀ fuel, extractDomainNameLabels (fuel + 1) labelsPointerBuffer 5
      = .ret ([[0x78]], 8, none)) ∧
    (∀ fuel, extractDomainNameLabels (fuel + 3) labelsPointerBuffer 8
      = .ret ([[0x77, 0x77, 0x77], [0x78]], 14, none)) ∧
    (∀ fuel, getPrintableDomainStr (fuel + 3) labelsPointerBuffer 8
      = .ret (ascii "www.x.", 14, none)) := by
  refine ⟨by decide, by decide, by decide, fun fuel => ?_, fun fuel => ?_, fun fuel => ?_,
    fun fuel => ?_⟩
  · rw [Nat.add_comm, extract_fuel_stable 1 fuel _ _ (by decide)]; decide
  · rw [Nat.add_comm, extract_fuel_stable 1 fuel _ _ (by decide)]; decide
  · rw [Nat.add_comm, extract_fuel_stable 3 fuel _ _ (by decide)]; decide
  · rw [Nat.add_comm, printable_fuel_stable 3 fuel _ _ (by decide)]; decide

/-- C13. Short header: `DecodeHeader` is called at offset 0, where the bytes available for the
header are the whole buffer.  For every buffer with fewer than 12 bytes and every destination
it returns the ShortHeader error (with the number of bytes found), makes no access to the
buffer (it returns, it does not panic) and leaves the destination unchanged, and so at any
start offset; `DecodeMessage` passes that error on with cursor 0.  With 12 bytes or more the
call at offset 0 returns no error. -/
theorem short_header_rejected (data : Bytes) (d : Header) :
    (data.length - 0 < 12 →
      DecodeHeader data 0 (some d) = .ret (some d, 0, some (.shortHeader data.length)) ∧
      (∀ offset, DecodeHeader data offset (some d)
        = .ret (some d, 0, some (.shortHeader data.length))) ∧
      (∀ fuel m qt, DecodeMessage fuel data m qt
        = .ret ({ m with queryTime := qt, Header := Header.zero }, 0,
            some (.shortHeader data.length)))) ∧
    (¬ data.length - 0 < 12 → ∃ h, DecodeHeader data 0 (some d) = .ret (some h, 12, none)) := by
  refine ⟨fun hl => ?_, fun hl => decodeHeader_at_zero data d (by simpa using hl)⟩
  have hl12 : data.length < 12 := by simpa using hl
  refine ⟨decodeHeader_short data 0 d hl12, fun offset => decodeHeader_short data offset d hl12,
    fun fuel m qt => ?_⟩
  simp only [DecodeMessage, decodeHeader_short data 0 Header.zero hl12]

/-- On the 11 byte buffer `00 01 81 80 00 01 00 01 00 00 00` the destination with ID 7 is
returned unchanged with the ShortHeader error for 11 bytes. -/
theorem short_header_rejected_witness :
    DecodeHeader [0x00, 0x01, 0x81, 0x80, 0x00, 0x01, 0x00, 0x01, 0x00, 0x00, 0x00] 0
        (some ⟨7, 0, 0, 0, 0, 0, 0, 0, 0, 0, 0, 0, 0⟩)
      = .ret (some ⟨7, 0, 0, 0, 0, 0, 0, 0, 0, 0, 0, 0, 0⟩, 0, some (.shortHeader 11)) ∧
    (DnsError.shortHeader 11).message = "Header bytes should be 12 bytes, found 11" :=
  ⟨((short_header_rejected [0x00, 0x01, 0x81, 0x80, 0x00, 0x01, 0x00, 0x01, 0x00, 0x00, 0x00]
      ⟨7, 0, 0, 0, 0, 0, 0, 0, 0, 0, 0, 0, 0⟩).1 (by decide)).1, by decide⟩

theorem decodeRR_rdata_panics (fuel : Nat) (data : Bytes) (s e : Nat) (name : Bytes) (d : RR)
    (hname : getPrintableDomainStr fuel data s = .ret (name, e, none))
    (hlen : e + 10 ≤ data.length)
    (hrdata : getResourceDataFieldForResourceType fuel (be16At data e) data (e + 10)
      (be16At data (e + 8)) = .panic) :
    DecodeRR fuel data s (some d) = .panic := by
  rw [decodeRR_envelope fuel data s e name d hname hlen, hrdata]

theorem name_a_at (fuel : Nat) (data : Bytes) (s : Nat) (rest : Bytes) (pre : Bytes)
    (hd : data = pre ++ [1, 0x61, 0] ++ rest) (hs : s = pre.length) :
    getPrintableDomainStr (fuel + 1) data s = .ret ([0x61, 46], s + 3, none) := by
  subst hd hs
  have h := loop_labels_end [[0x61]] fuel pre rest [] maxDomainNameWireOctets (by simp)
    (by simp) (by decide)
  simp only [wireLabels, List.length_singleton, wireSize] at h
  simp only [getPrintableDomainStr, extractDomainNameLabels]
  simp only [List.length_cons, List.length_nil, List.append_assoc, List.cons_append,
    List.nil_append, List.append_nil, Nat.reduceAdd] at h ⊢
  rw [h]
  rfl

theorem a_dispatch_short (fuel : Nat) (data : Bytes) (r n : Nat) (hn : n < 4)
    (hr : r + n < 65536) :
    getResourceDataFieldForResourceType fuel RecordTypeA data r n = .panic := by
  simp only [getResourceDataFieldForResourceType, getResourceDataFieldForResourceTypeWith,
    if_true, rdataEnd_small _ _ hr, sliceBytes]
  by_cases h : r ≤ r + n ∧ r + n ≤ data.length
  · simp only [h, and_self, if_true, Nat.add_sub_cancel_left]
    have hlen : ((data.drop r).take n).length < 4 := by
      rw [List.length_take]; omega
    generalize (data.drop r).take n = l at hlen
    match l, hlen with
    | [], _ => rfl
    | [_], _ => rfl
    | [_, _], _ => rfl
    | [_, _, _], _ => rfl
    | _ :: _ :: _ :: _ :: _, hlen => simp only [List.length_cons] at hlen; omega
  · simp only [h, if_false]

theorem txt_dispatch_empty (fuel : Nat) (data : Bytes) (r : Nat) (hr : r < 65536) :
    getResourceDataFieldForResourceType fuel RecordTypeTXT data r 0 = .panic := by
  have hA : ¬ (RecordTypeTXT = RecordTypeA) := by decide
  have hAAAA : ¬ (RecordTypeTXT = RecordTypeAAAA) := by decide
  have hs : ¬ (r + 1 ≤ r ∧ r ≤ data.length) := by omega
  simp only [getResourceDataFieldForResourceType, getResourceDataFieldForResourceTypeWith,
    hA, hAAAA, if_false, if_true, rdataEnd_small r 0 (by omega), sliceBytes, Nat.add_zero, hs]

/-- C21. Evaluation at the failing inputs: in each of these records the owner name `a` ends at
e = 3 and the ten bytes of TYPE, CLASS, TTL and RDLENGTH are present, so `DecodeRR` gets past
the RDLENGTH field; it then returns no cursor at all.  An A record with RDLENGTH 0, and one
with RDLENGTH 2 and two RDATA bytes, end in a run-time panic (`NewRDataA` indexes four bytes of
the RDATA slice); a TXT record with RDLENGTH 0 ends in a run-time panic (slice `data[14:13]`);
a CNAME record whose RDATA is a pointer to itself never returns.  `DecodeMessage` on
`emptyAddressResponse`, a header announcing one answer followed by the first of these records,
ends in the same panic. -/
theorem rdata_decoder_leaves_no_cursor :
    (∀ fuel, getPrintableDomainStr (fuel + 1) [1, 0x61, 0, 0, 1, 0, 1, 0, 0, 0, 9, 0, 0] 0
        = .ret ([0x61, 46], 3, none)) ∧
    3 + 10 ≤ [1, 0x61, 0, 0, 1, 0, 1, 0, 0, 0, 9, 0, 0].length ∧
    (∀ fuel, DecodeRR (fuel + 1) [1, 0x61, 0, 0, 1, 0, 1, 0, 0, 0, 9, 0, 0] 0 (some RR.zero)
        = .panic) ∧
    (∀ fuel, DecodeRR (fuel + 1) [1, 0x61, 0, 0, 1, 0, 1, 0, 0, 0, 9, 0, 2, 0x5D, 0xB8] 0
        (some RR.zero) = .panic) ∧
    (∀ fuel, DecodeRR (fuel + 1) [1, 0x61, 0, 0, 16, 0, 1, 0, 0, 0, 9, 0, 0] 0 (some RR.zero)
        = .panic) ∧
    (∀ fuel, DecodeRR fuel [1, 0x61, 0, 0, 5, 0, 1, 0, 0, 0, 9, 0, 2, 0xC0, 0x0D] 0
        (some RR.zero) = .outOfFuel) ∧
    (∀ fuel qt, DecodeMessage (fuel + 1) emptyAddressResponse Message.zero qt = .panic) := by
  refine ⟨fun fuel => ?_, by decide, fun fuel => ?_, fun fuel => ?_, fun fuel => ?_,
    fun fuel => ?_, fun fuel qt => ?_⟩
  · exact name_a_at fuel _ 0 [0, 1, 0, 1, 0, 0, 0, 9, 0, 0] [] rfl rfl
  · exact decodeRR_rdata_panics (fuel + 1) _ 0 3 [0x61, 46] RR.zero
      (name_a_at fuel _ 0 [0, 1, 0, 1, 0, 0, 0, 9, 0, 0] [] rfl rfl) (by decide)
      (a_dispatch_short (fuel + 1) _ 13 0 (by decide) (by decide))
  · exact decodeRR_rdata_panics (fuel + 1) _ 0 3 [0x61, 46] RR.zero
      (name_a_at fuel _ 0 [0, 1, 0, 1, 0, 0, 0, 9, 0, 2, 0x5D, 0xB8] [] rfl rfl) (by decide)
      (a_dispatch_short (fuel + 1) _ 13 2 (by decide) (by decide))
  · exact decodeRR_rdata_panics (fuel + 1) _ 0 3 [0x61, 46] RR.zero
      (name_a_at fuel _ 0 [0, 16, 0, 1, 0, 0, 0, 9, 0, 0] [] rfl rfl) (by decide)
      (txt_dispatch_empty (fuel + 1) _ 13 (by decide))
  · cases fuel with
    | zero => rfl
    | succ n =>
      have hname := name_a_at n [1, 0x61, 0, 0, 5, 0, 1, 0, 0, 0, 9, 0, 2, 0xC0, 0x0D] 0
        [0, 5, 0, 1, 0, 0, 0, 9, 0, 2, 0xC0, 0x0D] [] rfl rfl
      rw [decodeRR_envelope (n + 1) _ 0 3 [0x61, 46] RR.zero hname (by decide)]
      have hcyc := (pointer_cycle_out_of_fuel
        [1, 0x61, 0, 0, 5, 0, 1, 0, 0, 0, 9, 0, 2, 0xC0, 0x0D] 13 13 0xC0 0x0D 0xC0 0x0D
        (by decide) (by decide) (by decide) (by decide) (by decide) (by decide) (by decide)
        (by decide) (n + 1)).1
      have hdisp : getResourceDataFieldForResourceType (n + 1)
          (be16At [1, 0x61, 0, 0, 5, 0, 1, 0, 0, 0, 9, 0, 2, 0xC0, 0x0D] 3)
          [1, 0x61, 0, 0, 5, 0, 1, 0, 0, 0, 9, 0, 2, 0xC0, 0x0D] (3 + 10)
          (be16At [1, 0x61, 0, 0, 5, 0, 1, 0, 0, 0, 9, 0, 2, 0xC0, 0x0D] (3 + 8))
          = .outOfFuel := by
        have hA : ¬ (RecordTypeCNAME = RecordTypeA) := by decide
        have hAAAA : ¬ (RecordTypeCNAME = RecordTypeAAAA) := by decide
        have hTXT : ¬ (RecordTypeCNAME = RecordTypeTXT) := by decide
        have ht : be16At [1, 0x61, 0, 0, 5, 0, 1, 0, 0, 0, 9, 0, 2, 0xC0, 0x0D] 3
            = RecordTypeCNAME := by decide
        rw [ht]
        simp only [getResourceDataFieldForResourceType, getResourceDataFieldForResourceTypeWith,
          hA, hAAAA, hTXT, if_false, if_true, NewRDataCNAME, newRDataDomain,
          getPrintableDomainStr, Nat.reduceAdd, hcyc]
      rw [hdisp]
  · have hh : DecodeHeader emptyAddressResponse 0 (some Header.zero)
        = .ret (some ⟨1, 1, 0, 0, 0, 1, 1, 0, 0, 0, 1, 0, 0⟩, 12, none) := by decide
    have hrr : DecodeRR (fuel + 1) emptyAddressResponse 12 (some RR.zero) = .panic :=
      decodeRR_rdata_panics (fuel + 1) _ 12 15 [0x61, 46] RR.zero
        (name_a_at fuel _ 12 [0, 1, 0, 1, 0, 0, 0, 9, 0, 0]
          [0, 1, 0x81, 0x80, 0, 0, 0, 1, 0, 0, 0, 0] rfl rfl) (by decide)
        (a_dispatch_short (fuel + 1) _ 25 0 (by decide) (by decide))
    simp only [DecodeMessage, hh, DecodeMessage.questions, DecodeMessage.records, hrr]

end DnsClient
